import Mathlib

/-!
Shallow embedding of the SPDX RDF triple-to-object resolution engine
(src/rdf/parser.go of motet-a/tools-go) and proofs about it.

The engine consumes a stream of (subject, predicate, object) triples paired
with source locations and builds a strongly typed SPDX document graph.  Its
state is a node-key indexed table of builders plus a buffer of statements for
not-yet-typed nodes.  The mutually recursive Go functions setType, reqType,
builder.apply and the buffer drain are modelled by a single fuelled
interpreter over an inductive type of calls; Go maps become association
lists, entity pointers become node keys, and panics (nil-pointer
dereferences) become an explicit crash outcome.
-/

set_option maxRecDepth 16384

namespace SpdxRdf

/-- Source location attached to every triple and entity (spdx.Meta,
modelled from the spec as a line number); a nil Go pointer is none. -/
structure Meta where
  line : Nat
deriving DecidableEq

/-- Modelled from the spec: a goraptor RDF term is a named resource (URI),
an anonymous node (blank label) or a literal; the repository's termStr
helper (not under src/) returns the underlying string. -/
inductive Term where
  | uriT (s : String)
  | blankT (s : String)
  | literalT (s : String)
deriving DecidableEq

/-- Modelled from the spec: canonical string identity of a term. -/
def termStr : Term → String
  | .uriT s => s
  | .blankT s => s
  | .literalT s => s

/-- The SPDX terms namespace, appearing literally in parser.go. -/
def spdxNs : String := "http://spdx.org/rdf/terms#"

/-- Modelled from the spec: the licence-list namespace stripped from licence
identifiers (the repository constant licenceUri is not under src/). -/
def licenceUri : String := "http://spdx.org/licenses/"

/-- Modelled from the spec: the repository's uri helper builds a URI term. -/
def uri (s : String) : Term := .uriT s

/-- Modelled from the spec: the repository's blank helper builds a blank
node term. -/
def blank (s : String) : Term := .blankT s

/-- Modelled from the spec: the repository's prefix helper expands a short
type or property name into its SPDX-namespaced URI term. -/
def prefixT (s : String) : Term := .uriT (spdxNs ++ s)

/-- Remove pfx from the front of s when present (strings.TrimPrefix);
implemented over character lists so that it evaluates by kernel
reduction. -/
def trimPfx (pfx s : String) : String :=
  if pfx.data.isPrefixOf s.data then String.mk (s.data.drop pfx.data.length) else s

/-- ASCII lower-casing (strings.ToLower) over character lists. -/
def lowerStr (s : String) : String := String.mk (s.data.map Char.toLower)

/-- ASCII upper-casing (strings.ToUpper) over character lists. -/
def upperStr (s : String) : String := String.mk (s.data.map Char.toUpper)

/-- Whether pfx begins s (strings.HasPrefix). -/
def startsWithL (s pfx : String) : Bool := pfx.data.isPrefixOf s.data

/-- Modelled from the spec: the repository's shortPrefix helper maps a
namespaced predicate URI back to the short property name keying the
builders' updater tables. -/
def shortPfx (s : String) : String := trimPfx spdxNs s

/-- Remove the first occurrence of pat (nonempty) from a character list. -/
def removeFirst (pat : List Char) : List Char → List Char
  | [] => []
  | c :: rest =>
    if pat.isPrefixOf (c :: rest) then (c :: rest).drop pat.length
    else c :: removeFirst pat rest

/-- Remove the first occurrence of pat from s (strings.Replace with n=1,
replacing by the empty string). -/
def replaceOnce (s pat : String) : String :=
  if pat.data = [] then s else String.mk (removeFirst pat.data s.data)

/-- The rdf:type predicate (uri_nstype in parser.go). -/
def uri_nstype : Term := uri "http://www.w3.org/1999/02/22-rdf-syntax-ns#type"

def typeDocument : Term := prefixT "SpdxDocument"

def typeCreationInfo : Term := prefixT "CreationInfo"

def typePackage : Term := prefixT "Package"

def typeFile : Term := prefixT "File"

def typeVerificationCode : Term := prefixT "PackageVerificationCode"

def typeChecksum : Term := prefixT "Checksum"

def typeArtifactOf : Term := prefixT "doap:Project"

def typeReview : Term := prefixT "Review"

def typeExtractedLicence : Term := prefixT "ExtractedLicensingInfo"

def typeAnyLicence : Term := prefixT "AnyLicenseInfo"

def typeConjunctiveSet : Term := prefixT "ConjunctiveLicenseSet"

def typeDisjunctiveSet : Term := prefixT "DisjunctiveLicenseSet"

def typeLicence : Term := prefixT "License"

def typeAbstractLicenceSet : Term := blank "abstractLicenceSet"

/-- The messages of parser.go, kept structured: each constructor is one of
the four msg format constants (or reqAnyLicence's default-case message)
applied to the identifiers it embeds. -/
inductive ErrMsg where
  | alreadyDefined
  | incompatibleTypes (node found need : String)
  | propertyNotSupported (p t : String)
  | unknownType (t : String)
  | unexpectedAnyLicence (node : String)
deriving DecidableEq

/-- The rendered message text, matching the format constants of parser.go. -/
def ErrMsg.render : ErrMsg → String
  | .alreadyDefined => "Property already defined."
  | .incompatibleTypes node found need =>
    node ++ " is already set to be type " ++ found ++
      " and cannot be changed to type " ++ need ++ "."
  | .propertyNotSupported p t =>
    "Property " ++ p ++ " is not supported for " ++ t ++ "."
  | .unknownType t => "Found type " ++ t ++ " which is unknown."
  | .unexpectedAnyLicence node =>
    "Unexpected error, an element of type AnyLicence cannot be casted to any licence type. "
      ++ node

/-- Errors produced by the parse: parseErr models spdx.NewParseError (a
message plus the source location it was given, possibly nil); goErr models a
plain fmt.Errorf error, which carries no source location. -/
inductive PErr where
  | parseErr (msg : ErrMsg) (meta : Option Meta)
  | goErr (msg : ErrMsg)
deriving DecidableEq

/-- The source location carried by an error, if any. -/
def PErr.metaOf : PErr → Option Meta
  | .parseErr _ m => m
  | .goErr _ => none

/-- equalTypes of parser.go: found is any of the need types (goraptor term
equality compares dynamic type and value, i.e. structural equality here). -/
def equalTypes (found : Term) (need : List Term) : Bool :=
  need.any (fun b => found == b)

/-- compatibleTypes of parser.go. -/
def compatibleTypes (found need : Term) : Bool :=
  if equalTypes found [need] then true
  else if equalTypes need [typeAnyLicence] then
    equalTypes found
      [typeExtractedLicence, typeConjunctiveSet, typeDisjunctiveSet, typeLicence]
  else false

/-- Single-valued cell backing a spdx.ValueStr (or ValueCreator or
ValueDate) pointer together with the set flag captured by the upd (or
updCreator, updDate) closure of parser.go. -/
structure VStr where
  val : String := ""
  meta : Option Meta := none
  isSet : Bool := false
deriving DecidableEq

/-- A list element produced by updList or updListCreator (spdx.Str /
spdx.NewValueCreator: raw string plus location). -/
structure ValS where
  val : String
  meta : Option Meta
deriving DecidableEq

/-- Which concrete licence-set struct currently backs a licence-set builder:
spdx.LicenceSet (abstract), spdx.ConjunctiveLicenceSet or
spdx.DisjunctiveLicenceSet. -/
inductive SetForm where
  | abstractS
  | conjS
  | disjS
deriving DecidableEq

/-- A spdx.AnyLicence value as returned by reqAnyLicence: a copied
spdx.Licence value, a pointer to an ExtractedLicence node (kept as its key),
or a copied Conjunctive/Disjunctive set value. -/
inductive AnyLic where
  | licRef (id : String) (meta : Option Meta)
  | extrPtr (key : String)
  | conjCopy (meta : Option Meta) (members : List AnyLic)
  | disjCopy (meta : Option Meta) (members : List AnyLic)

/-- Association-list lookup (Go map read). -/
def lookupA {α : Type} : List (String × α) → String → Option α
  | [], _ => none
  | (k, v) :: rest, key => if k = key then some v else lookupA rest key

/-- Association-list insert-or-overwrite (Go map write). -/
def insertA {α : Type} : List (String × α) → String → α → List (String × α)
  | [], key, v => [(key, v)]
  | (k, w) :: rest, key, v =>
    if k = key then (k, v) :: rest else (k, w) :: insertA rest key v

/-- Association-list removal (Go map delete). -/
def eraseA {α : Type} : List (String × α) → String → List (String × α)
  | [], _ => []
  | (k, w) :: rest, key => if k = key then rest else (k, w) :: eraseA rest key

/-- The mutable payload of one builder: the partially constructed spdx
entity.  Scalar cells, string lists, single and list-valued entity
references (entity pointers are node keys), single and list-valued
AnyLicence values, and for licence sets the backing struct's form.  Fields
are addressed by the source's field names. -/
structure Entity where
  meta : Option Meta := none
  scal : List (String × VStr) := []
  lists : List (String × List ValS) := []
  refS : List (String × Option String) := []
  refL : List (String × List String) := []
  anyS : List (String × Option AnyLic) := []
  anyL : List (String × List AnyLic) := []
  form : SetForm := .abstractS

def getScal (e : Entity) (f : String) : VStr := (lookupA e.scal f).getD {}

def setScal (e : Entity) (f : String) (c : VStr) : Entity :=
  { e with scal := insertA e.scal f c }

def getList (e : Entity) (f : String) : List ValS := (lookupA e.lists f).getD []

def pushList (e : Entity) (f : String) (v : ValS) : Entity :=
  { e with lists := insertA e.lists f (getList e f ++ [v]) }

def setRefS (e : Entity) (f : String) (v : Option String) : Entity :=
  { e with refS := insertA e.refS f v }

def getRefS (e : Entity) (f : String) : Option String :=
  (lookupA e.refS f).getD none

def getRefL (e : Entity) (f : String) : List String := (lookupA e.refL f).getD []

def pushRefL (e : Entity) (f : String) (v : String) : Entity :=
  { e with refL := insertA e.refL f (getRefL e f ++ [v]) }

def setAnyS (e : Entity) (f : String) (v : Option AnyLic) : Entity :=
  { e with anyS := insertA e.anyS f v }

def getAnyS (e : Entity) (f : String) : Option AnyLic :=
  (lookupA e.anyS f).getD none

def getAnyL (e : Entity) (f : String) : List AnyLic := (lookupA e.anyL f).getD []

def pushAnyL (e : Entity) (f : String) (v : AnyLic) : Entity :=
  { e with anyL := insertA e.anyL f (getAnyL e f ++ [v]) }

/-- Which constructor family built a builder; this fixes its updater table
(the Go updaters map is fixed at construction even when the type tag is
later changed by licence-set promotion). -/
inductive BKind where
  | documentK
  | criK
  | packageK
  | fileK
  | checksumK
  | vcK
  | reviewK
  | artifactK
  | extractedK
  | licRefK
  | licSetK
deriving DecidableEq

/-- One builder of parser.go: its type tag t, its constructor family (which
determines the updater table), and the entity it builds (bldr.ptr). -/
structure Bldr where
  t : Term
  kind : BKind
  ent : Entity

/-- One triple as delivered by the syntax parser. -/
structure Stmt where
  subj : Term
  pred : Term
  obj : Term
deriving DecidableEq

/-- One buffered statement with its source location (bufferEntry). -/
structure BufEntry where
  stm : Stmt
  meta : Option Meta
deriving DecidableEq

/-- The resolution engine's state: the key-to-builder index (a nil Go
builder pointer is some none), the key-to-statements buffer, and the root
document pointer (as a key). -/
structure PState where
  index : List (String × Option Bldr) := []
  buffer : List (String × List BufEntry) := []
  doc : Option String := none

/-- An updater table entry: the update rule the Go closure implements,
naming the entity field it writes. -/
inductive UpdK where
  | cellK (field : String)
  | cellCutK (pfx : String) (field : String)
  | listK (field : String)
  | refK (t : Term) (field : String)
  | refListK (t : Term) (field : String)
  | anyK (field : String)
  | anyListK (field : String)
  | algoK
  | memberK
  | nsTypeK
deriving DecidableEq

/-- The checksum-algorithm URI fragment stripped by the algorithm updater,
literal in parser.go. -/
def algoPfx : String := "http://spdx.org/rdf/terms#checksumAlgorithm_"

/-- The per-kind updater tables of parser.go (documentMap, creationInfoMap,
reviewMap, packageMap, checksumMap, verificationCodeMap, fileMap,
artifactOfMap, extractedLicensingInfoMap, licenceSetMap; a licence
reference builder has no updaters). -/
def updaters : BKind → String → Option UpdK
  | .documentK, "specVersion" => some (.cellK "specVersion")
  | .documentK, "dataLicense" => some (.cellCutK licenceUri "dataLicence")
  | .documentK, "rdfs:comment" => some (.cellK "comment")
  | .documentK, "creationInfo" => some (.refK typeCreationInfo "creationInfo")
  | .documentK, "describesPackage" => some (.refListK typePackage "packages")
  | .documentK, "referencesFile" => some (.refListK typeFile "files")
  | .documentK, "reviewed" => some (.refListK typeReview "reviews")
  | .documentK, "hasExtractedLicensingInfo" =>
    some (.refListK typeExtractedLicence "extractedLicences")
  | .criK, "creator" => some (.listK "creator")
  | .criK, "rdfs:comment" => some (.cellK "comment")
  | .criK, "created" => some (.cellK "created")
  | .criK, "licenseListVersion" => some (.cellK "licenceListVersion")
  | .reviewK, "reviewer" => some (.cellK "reviewer")
  | .reviewK, "rdfs:comment" => some (.cellK "comment")
  | .reviewK, "reviewDate" => some (.cellK "date")
  | .packageK, "name" => some (.cellK "name")
  | .packageK, "versionInfo" => some (.cellK "version")
  | .packageK, "packageFileName" => some (.cellK "fileName")
  | .packageK, "supplier" => some (.cellK "supplier")
  | .packageK, "originator" => some (.cellK "originator")
  | .packageK, "downloadLocation" => some (.cellK "downloadLocation")
  | .packageK, "packageVerificationCode" =>
    some (.refK typeVerificationCode "verificationCode")
  | .packageK, "checksum" => some (.refK typeChecksum "checksum")
  | .packageK, "doap:homepage" => some (.cellK "homePage")
  | .packageK, "sourceInfo" => some (.cellK "sourceInfo")
  | .packageK, "licenseConcluded" => some (.anyK "licenceConcluded")
  | .packageK, "licenseInfoFromFiles" => some (.anyListK "licenceInfoFromFiles")
  | .packageK, "licenseDeclared" => some (.anyK "licenceDeclared")
  | .packageK, "licenseComments" => some (.cellK "licenceComments")
  | .packageK, "copyrightText" => some (.cellK "copyrightText")
  | .packageK, "summary" => some (.cellK "summary")
  | .packageK, "description" => some (.cellK "description")
  | .packageK, "hasFile" => some (.refListK typeFile "files")
  | .checksumK, "algorithm" => some .algoK
  | .checksumK, "checksumValue" => some (.cellK "value")
  | .vcK, "packageVerificationCodeValue" => some (.cellK "value")
  | .vcK, "packageVerificationCodeExcludedFile" => some (.listK "excludedFiles")
  | .fileK, "fileName" => some (.cellK "name")
  | .fileK, "rdfs:comment" => some (.cellK "comment")
  | .fileK, "fileType" => some (.cellCutK spdxNs "type")
  | .fileK, "checksum" => some (.refK typeChecksum "checksum")
  | .fileK, "copyrightText" => some (.cellK "copyrightText")
  | .fileK, "noticeText" => some (.cellK "notice")
  | .fileK, "licenseConcluded" => some (.anyK "licenceConcluded")
  | .fileK, "licenseInfoInFile" => some (.anyListK "licenceInfoInFile")
  | .fileK, "licenseComments" => some (.cellK "licenceComments")
  | .fileK, "fileContributor" => some (.listK "contributor")
  | .fileK, "fileDependency" => some (.refListK typeFile "dependency")
  | .fileK, "artifactOf" => some (.refListK typeArtifactOf "artifactOf")
  | .artifactK, "doap:name" => some (.cellK "name")
  | .artifactK, "doap:homepage" => some (.cellK "homePage")
  | .extractedK, "licenseId" => some (.cellK "id")
  | .extractedK, "name" => some (.listK "name")
  | .extractedK, "extractedText" => some (.cellK "text")
  | .extractedK, "rdfs:comment" => some (.cellK "comment")
  | .extractedK, "rdfs:seeAlso" => some (.listK "crossReference")
  | .licSetK, "member" => some .memberK
  | .licSetK, "ns:type" => some .nsTypeK
  | _, _ => none

/-- builder.has of parser.go. -/
def bHas (b : Bldr) (p : String) : Bool := (updaters b.kind p).isSome

/-- A fresh entity seeded with a source location. -/
def mkEnt (meta : Option Meta) : Entity := { meta := meta }

/-- Builder produced by documentMap (on a fresh spdx.Document). -/
def documentMap (meta : Option Meta) : Bldr := ⟨typeDocument, .documentK, mkEnt meta⟩

/-- Builder produced by creationInfoMap. -/
def creationInfoMap (meta : Option Meta) : Bldr := ⟨typeCreationInfo, .criK, mkEnt meta⟩

/-- Builder produced by packageMap. -/
def packageMap (meta : Option Meta) : Bldr := ⟨typePackage, .packageK, mkEnt meta⟩

/-- Builder produced by checksumMap. -/
def checksumMap (meta : Option Meta) : Bldr := ⟨typeChecksum, .checksumK, mkEnt meta⟩

/-- Builder produced by verificationCodeMap. -/
def verificationCodeMap (meta : Option Meta) : Bldr :=
  ⟨typeVerificationCode, .vcK, mkEnt meta⟩

/-- Builder produced by fileMap. -/
def fileMap (meta : Option Meta) : Bldr := ⟨typeFile, .fileK, mkEnt meta⟩

/-- Builder produced by reviewMap. -/
def reviewMap (meta : Option Meta) : Bldr := ⟨typeReview, .reviewK, mkEnt meta⟩

/-- Builder produced by artifactOfMap; when the node is a URI term its
ProjectUri is seeded from the node itself. -/
def artifactOfMap (node : Term) (meta : Option Meta) : Bldr :=
  let e0 := mkEnt meta
  let e1 := match node with
    | .uriT _ => setScal e0 "projectUri" ⟨termStr node, meta, false⟩
    | _ => e0
  ⟨typeArtifactOf, .artifactK, e1⟩

/-- Builder produced by extractedLicensingInfoMap. -/
def extractedLicensingInfoMap (meta : Option Meta) : Bldr :=
  ⟨typeExtractedLicence, .extractedK, mkEnt meta⟩

/-- Builder produced by licenceReferenceBuilder: a spdx.Licence made by
NewLicence from the node URI minus the licence-list namespace; it has no
updater table. -/
def licenceReferenceBuilder (node : Term) (meta : Option Meta) : Bldr :=
  ⟨typeLicence, .licRefK,
    setScal (mkEnt meta) "id" ⟨trimPfx licenceUri (termStr node), meta, false⟩⟩

/-- Builder produced by licenceSetMap on a fresh abstract spdx.LicenceSet
with no members. -/
def licenceSetMap (meta : Option Meta) : Bldr :=
  ⟨typeAbstractLicenceSet, .licSetK,
    { mkEnt meta with form := .abstractS, anyL := [("members", [])] }⟩

/-- Builder produced by conjunctiveSetBuilder: licenceSetMap over a fresh
ConjunctiveLicenceSet, with the type tag overridden. -/
def conjunctiveSetBuilder (meta : Option Meta) : Bldr :=
  ⟨typeConjunctiveSet, .licSetK,
    { mkEnt meta with form := .conjS, anyL := [("members", [])] }⟩

/-- Builder produced by disjuntiveSetBuilder (sic). -/
def disjuntiveSetBuilder (meta : Option Meta) : Bldr :=
  ⟨typeDisjunctiveSet, .licSetK,
    { mkEnt meta with form := .disjS, anyL := [("members", [])] }⟩

/-- The new-builder-by-type switch of setType in parser.go.  Returns none
for an unknown type; returns some none when no builder variant is assigned
(the generic AnyLicence type with a literal node term leaves the Go bldr
variable nil). -/
def newBuilder (node t : Term) (meta : Option Meta) : Option (Option Bldr) :=
  if t == typeDocument then some (some (documentMap meta))
  else if t == typeCreationInfo then some (some (creationInfoMap meta))
  else if t == typePackage then some (some (packageMap meta))
  else if t == typeChecksum then some (some (checksumMap meta))
  else if t == typeVerificationCode then some (some (verificationCodeMap meta))
  else if t == typeFile then some (some (fileMap meta))
  else if t == typeReview then some (some (reviewMap meta))
  else if t == typeArtifactOf then some (some (artifactOfMap node meta))
  else if t == typeExtractedLicence then some (some (extractedLicensingInfoMap meta))
  else if t == typeAnyLicence then
    match node with
    | .uriT _ => some (some (licenceReferenceBuilder node meta))
    | .blankT s =>
      if startsWithL (lowerStr s) "licenseref" then
        some (some (extractedLicensingInfoMap meta))
      else some (some (licenceSetMap meta))
    | .literalT _ => some none
  else if t == typeLicence then some (some (licenceReferenceBuilder node meta))
  else if t == typeAbstractLicenceSet then some (some (licenceSetMap meta))
  else if t == typeConjunctiveSet then some (some (conjunctiveSetBuilder meta))
  else if t == typeDisjunctiveSet then some (some (disjuntiveSetBuilder meta))
  else none

/-- reqAnyLicence's type switch on the element found for a node: a Licence
yields a copied value, an ExtractedLicence yields the pointer (its key), a
promoted set yields a copied set value, and anything else (notably a still
abstract spdx.LicenceSet) falls to the default error case. -/
def anyFromState (st : PState) (key : String) : PErr ⊕ AnyLic :=
  match lookupA st.index key with
  | some (some b) =>
    match b.kind with
    | .licRefK => .inr (.licRef (getScal b.ent "id").val b.ent.meta)
    | .extractedK => .inr (.extrPtr key)
    | .licSetK =>
      match b.ent.form with
      | .conjS => .inr (.conjCopy b.ent.meta (getAnyL b.ent "members"))
      | .disjS => .inr (.disjCopy b.ent.meta (getAnyL b.ent "members"))
      | .abstractS => .inl (.goErr (.unexpectedAnyLicence key))
    | _ => .inl (.goErr (.unexpectedAnyLicence key))
  | _ => .inl (.goErr (.unexpectedAnyLicence key))

/-- The outcome of one engine call: success, an error value, a Go runtime
panic (nil-pointer dereference), or interpreter fuel exhaustion. -/
inductive Outcome where
  | ok
  | err (e : PErr)
  | crash
  | fuelOut
deriving DecidableEq

/-- The calls of the mutually recursive core of parser.go: processTruple,
setType, reqType, builder.apply (dispatch by predicate), one updater
invocation, and the buffered-statement replay loop of setType. -/
inductive Call where
  | procT (stm : Stmt) (meta : Option Meta)
  | setT (node : Term) (t : Term) (meta : Option Meta)
  | reqT (node : Term) (t : Term)
  | applyP (key : String) (pred : Term) (obj : Term) (meta : Option Meta)
  | applyU (key : String) (u : UpdK) (obj : Term) (meta : Option Meta)
  | runBuf (key : String) (entries : List BufEntry)

/-- Type of the recursion callback handed to the one-step functions. -/
def Rec : Type := Call → PState → Outcome × PState

/-- Overwrite the builder stored at key, if any (a write through the entity
pointer the Go closure captured). -/
def modB (st : PState) (key : String) (f : Bldr → Bldr) : PState :=
  match lookupA st.index key with
  | some (some b) => { st with index := insertA st.index key (some (f b)) }
  | _ => st

/-- One single-valued updater call (upd, updCutPrefix, updCreator, updDate
and the checksum algorithm closure, with mk the value transformation):
error when the cell is already set, otherwise store the transformed value
and location and mark the cell set. -/
def cellStep (st : PState) (key f : String) (mk : String → String) (obj : Term)
    (meta : Option Meta) : Outcome × PState :=
  match lookupA st.index key with
  | some (some b) =>
    if (getScal b.ent f).isSet then (.err (.parseErr .alreadyDefined meta), st)
    else
      let b1 := { b with ent := setScal b.ent f ⟨mk (termStr obj), meta, true⟩ }
      (.ok, { st with index := insertA st.index key (some b1) })
  | _ => (.crash, st)

/-- One updList (or updListCreator) call: always append. -/
def listStep (st : PState) (key f : String) (obj : Term) (meta : Option Meta) :
    Outcome × PState :=
  match lookupA st.index key with
  | some (some b) =>
    let b1 := { b with ent := pushList b.ent f ⟨termStr obj, meta⟩ }
    (.ok, { st with index := insertA st.index key (some b1) })
  | _ => (.crash, st)

/-- A single-valued reference updater (creationInfo, packageVerificationCode,
checksum): require the object node to have type t, then assign the result
(nil on error) to the field and return the request's error. -/
def refStep (rec : Rec) (st : PState) (key : String) (t : Term) (f : String)
    (obj : Term) : Outcome × PState :=
  match rec (.reqT obj t) st with
  | (.ok, st1) =>
    (.ok, modB st1 key (fun b => { b with ent := setRefS b.ent f (some (termStr obj)) }))
  | (.err e, st1) =>
    (.err e, modB st1 key (fun b => { b with ent := setRefS b.ent f none }))
  | (o, st1) => (o, st1)

/-- A list-valued reference updater (describesPackage, referencesFile,
reviewed, hasExtractedLicensingInfo, hasFile, fileDependency, artifactOf):
require the type, and append only on success. -/
def refListStep (rec : Rec) (st : PState) (key : String) (t : Term) (f : String)
    (obj : Term) : Outcome × PState :=
  match rec (.reqT obj t) st with
  | (.ok, st1) =>
    (.ok, modB st1 key (fun b => { b with ent := pushRefL b.ent f (termStr obj) }))
  | (o, st1) => (o, st1)

/-- A single-valued AnyLicence updater (licenseConcluded, licenseDeclared):
reqAnyLicence then assign the value (nil on error) and return the error. -/
def anyStep (rec : Rec) (st : PState) (key f : String) (obj : Term) :
    Outcome × PState :=
  match rec (.reqT obj typeAnyLicence) st with
  | (.ok, st1) =>
    match anyFromState st1 (termStr obj) with
    | .inr lic =>
      (.ok, modB st1 key (fun b => { b with ent := setAnyS b.ent f (some lic) }))
    | .inl e =>
      (.err e, modB st1 key (fun b => { b with ent := setAnyS b.ent f none }))
  | (.err e, st1) =>
    (.err e, modB st1 key (fun b => { b with ent := setAnyS b.ent f none }))
  | (o, st1) => (o, st1)

/-- A list-valued AnyLicence updater (licenseInfoFromFiles,
licenseInfoInFile): append only on success. -/
def anyListStep (rec : Rec) (st : PState) (key f : String) (obj : Term) :
    Outcome × PState :=
  match rec (.reqT obj typeAnyLicence) st with
  | (.ok, st1) =>
    match anyFromState st1 (termStr obj) with
    | .inr lic =>
      (.ok, modB st1 key (fun b => { b with ent := pushAnyL b.ent f lic }))
    | .inl e => (.err e, st1)
  | (o, st1) => (o, st1)

/-- The member updater of licenceSetMap: reqAnyLicence then Add to the
current backing set. -/
def memberStep (rec : Rec) (st : PState) (key : String) (obj : Term) :
    Outcome × PState :=
  match rec (.reqT obj typeAnyLicence) st with
  | (.ok, st1) =>
    match anyFromState st1 (termStr obj) with
    | .inr lic =>
      (.ok, modB st1 key (fun b => { b with ent := pushAnyL b.ent "members" lic }))
    | .inl e => (.err e, st1)
  | (o, st1) => (o, st1)

/-- The ns:type promotion updater of licenceSetMap: only an abstract set can
be promoted (otherwise Already-Defined); the backing value and type tag are
replaced in place by a Conjunctive or Disjunctive set seeded with the
accumulated members, keeping the set's own location when it has one. -/
def nsTypeStep (st : PState) (key : String) (obj : Term) (meta : Option Meta) :
    Outcome × PState :=
  match lookupA st.index key with
  | some (some b) =>
    if !(equalTypes b.t [typeAbstractLicenceSet]) then
      (.err (.parseErr .alreadyDefined meta), st)
    else
      let goodMeta := match b.ent.meta with
        | none => meta
        | some m => some m
      if equalTypes obj [typeConjunctiveSet] then
        let b1 : Bldr := ⟨typeConjunctiveSet, b.kind, { b.ent with form := .conjS, meta := goodMeta }⟩
        (.ok, { st with index := insertA st.index key (some b1) })
      else if equalTypes obj [typeDisjunctiveSet] then
        let b1 : Bldr := ⟨typeDisjunctiveSet, b.kind, { b.ent with form := .disjS, meta := goodMeta }⟩
        (.ok, { st with index := insertA st.index key (some b1) })
      else
        (.err (.parseErr
          (.incompatibleTypes "Licence Set" (termStr b.t) (termStr obj)) meta), st)
  | _ => (.crash, st)

/-- Dispatch one updater by its table entry. -/
def applyUStep (rec : Rec) (st : PState) (key : String) (u : UpdK) (obj : Term)
    (meta : Option Meta) : Outcome × PState :=
  match u with
  | .cellK f => cellStep st key f (fun s => s) obj meta
  | .cellCutK pfx f => cellStep st key f (trimPfx pfx) obj meta
  | .listK f => listStep st key f obj meta
  | .refK t f => refStep rec st key t f obj
  | .refListK t f => refListStep rec st key t f obj
  | .anyK f => anyStep rec st key f obj
  | .anyListK f => anyListStep rec st key f obj
  | .algoK => cellStep st key "algo" (fun s => upperStr (replaceOnce s algoPfx)) obj meta
  | .memberK => memberStep rec st key obj
  | .nsTypeK => nsTypeStep st key obj meta

/-- builder.apply of parser.go: look up the short form of the predicate in
the builder's table; absent means Property-Not-Supported; a nil builder
pointer dereferences nil.  -/
def applyPStep (rec : Rec) (st : PState) (key : String) (pred obj : Term)
    (meta : Option Meta) : Outcome × PState :=
  match lookupA st.index key with
  | some (some b) =>
    let property := shortPfx (termStr pred)
    match updaters b.kind property with
    | none =>
      (.err (.parseErr (.propertyNotSupported property (termStr b.t)) meta), st)
    | some u => rec (.applyU key u obj meta) st
  | some none => (.crash, st)
  | none => (.crash, st)

/-- The buffered-statement replay loop of setType: apply each entry in FIFO
order through the builder's dispatch, stopping at the first failure. -/
def runBufStep (rec : Rec) (st : PState) (key : String) :
    List BufEntry → Outcome × PState
  | [] => (.ok, st)
  | e :: rest =>
    match rec (.applyP key e.stm.pred e.stm.obj e.meta) st with
    | (.ok, st1) => rec (.runBuf key rest) st1
    | (o, st1) => (o, st1)

/-- setType of parser.go.  Index hit: attempt the in-place type change when
the tags differ and the table still accepts ns:type, else check
compatibility.  Index miss: construct a builder by type (unknown type is an
error), register it, replay the node's buffer, and delete the buffer entry
only after a fully successful replay; a nil registered builder is then
dereferenced. -/
def regState (st : PState) (nodeStr : String) (t : Term) (optB : Option Bldr) :
    PState :=
  if t == typeDocument then
    { st with doc := some nodeStr, index := insertA st.index nodeStr optB }
  else
    { st with index := insertA st.index nodeStr optB }

def setTStep (rec : Rec) (st : PState) (node t : Term) (meta : Option Meta) :
    Outcome × PState :=
  match lookupA st.index (termStr node) with
  | some none => (.crash, st)
  | some (some b) =>
    if !(equalTypes b.t [t]) && bHas b "ns:type" then
      rec (.applyP (termStr node) (uri "ns:type") t meta) st
    else if !(compatibleTypes b.t t) then
      (.err (.parseErr
        (.incompatibleTypes (termStr node) (termStr b.t) (termStr t)) meta), st)
    else (.ok, st)
  | none =>
    match newBuilder node t meta with
    | none => (.err (.parseErr (.unknownType (termStr t)) meta), st)
    | some optB =>
      match rec (.runBuf (termStr node)
          ((lookupA (regState st (termStr node) t optB).buffer (termStr node)).getD []))
          (regState st (termStr node) t optB) with
      | (.ok, st2) =>
        (match optB with
         | none => Outcome.crash
         | some _ => Outcome.ok,
         { st2 with buffer := eraseA st2.buffer (termStr node) })
      | (o, st2) => (o, st2)

/-- reqType of parser.go: on an index hit only check compatibility (with a
plain fmt.Errorf error on failure); otherwise resolve the node as if the
type had been asserted, with no source location. -/
def reqTStep (rec : Rec) (st : PState) (node t : Term) : Outcome × PState :=
  match lookupA st.index (termStr node) with
  | some (some b) =>
    if !(compatibleTypes b.t t) then
      (.err (.goErr (.incompatibleTypes (termStr node) (termStr b.t) (termStr t))), st)
    else (.ok, st)
  | some none => (.crash, st)
  | none => rec (.setT node t none) st

/-- processTruple of parser.go: a type assertion goes to setType; a subject
with a builder goes to that builder's dispatch; anything else is appended to
the subject's buffer in arrival order. -/
def bufAppend (st : PState) (key : String) (e : BufEntry) : PState :=
  { st with buffer := insertA st.buffer key ((lookupA st.buffer key).getD [] ++ [e]) }

def procTStep (rec : Rec) (st : PState) (stm : Stmt) (meta : Option Meta) :
    Outcome × PState :=
  if stm.pred == uri_nstype then
    rec (.setT stm.subj stm.obj meta) st
  else
    match lookupA st.index (termStr stm.subj) with
    | some (some _) => rec (.applyP (termStr stm.subj) stm.pred stm.obj meta) st
    | some none => (.crash, st)
    | none => (.ok, bufAppend st (termStr stm.subj) ⟨stm, meta⟩)

/-- The fuelled interpreter tying the steps together; fuel only bounds the
recursion depth of the Go original, which has no base case of its own. -/
def interp : Nat → Call → PState → Outcome × PState
  | 0, _, st => (.fuelOut, st)
  | Nat.succ n, c, st =>
    match c with
    | .procT stm meta => procTStep (interp n) st stm meta
    | .setT node t meta => setTStep (interp n) st node t meta
    | .reqT node t => reqTStep (interp n) st node t
    | .applyP key pred obj meta => applyPStep (interp n) st key pred obj meta
    | .applyU key u obj meta => applyUStep (interp n) st key u obj meta
    | .runBuf key entries => runBufStep (interp n) st key entries

/-- processTruple entry point. -/
def processTruple (fuel : Nat) (st : PState) (stm : Stmt) (meta : Option Meta) :
    Outcome × PState :=
  interp fuel (.procT stm meta) st

/-- setType entry point. -/
def setType (fuel : Nat) (st : PState) (node t : Term) (meta : Option Meta) :
    Outcome × PState :=
  interp fuel (.setT node t meta) st

/-- reqType entry point. -/
def reqType (fuel : Nat) (st : PState) (node t : Term) : Outcome × PState :=
  interp fuel (.reqT node t) st

/-- The fresh state NewParser produces. -/
def initState : PState := {}

/-- The Parse loop: feed each triple with its location to processTruple,
stopping at the first non-ok outcome; the remaining input is drained without
processing and the final doc reference and error are returned. -/
def runStream (fuel : Nat) : PState → List (Stmt × Nat) → Outcome × PState
  | st, [] => (.ok, st)
  | st, (stm, line) :: rest =>
    match interp fuel (.procT stm (some ⟨line⟩)) st with
    | (.ok, st1) => runStream fuel st1 rest
    | (o, st1) => (o, st1)

/-- Parse of parser.go on a located statement stream. -/
def ParseStream (fuel : Nat) (stms : List (Stmt × Nat)) : Outcome × PState :=
  runStream fuel initState stms


/-! Association-list and state-primitive lemmas. -/

theorem lookupA_insertA {α : Type} (l : List (String × α)) (k k' : String) (v : α) :
    lookupA (insertA l k v) k' = if k = k' then some v else lookupA l k' := by
  induction l with
  | nil =>
    by_cases h : k = k' <;> simp [insertA, lookupA, h]
  | cons p rest ih =>
    obtain ⟨a, w⟩ := p
    by_cases hak : a = k
    · subst hak
      by_cases h : a = k' <;> simp [insertA, lookupA, h]
    · by_cases h : a = k'
      · subst h
        simp [insertA, hak, lookupA, Ne.symm hak]
      · simp [insertA, hak, lookupA, h, ih]

theorem lookupA_insertA_self {α : Type} (l : List (String × α)) (k : String) (v : α) :
    lookupA (insertA l k v) k = some v := by
  simp [lookupA_insertA]

theorem lookupA_insertA_ne {α : Type} (l : List (String × α)) (k k' : String) (v : α)
    (h : k ≠ k') : lookupA (insertA l k v) k' = lookupA l k' := by
  simp [lookupA_insertA, h]

theorem lookupA_eraseA_ne {α : Type} (l : List (String × α)) (k k' : String)
    (h : k ≠ k') : lookupA (eraseA l k) k' = lookupA l k' := by
  induction l with
  | nil => simp [eraseA]
  | cons p rest ih =>
    obtain ⟨a, w⟩ := p
    by_cases hak : a = k
    · subst hak
      simp [eraseA, lookupA, h]
    · simp [eraseA, hak, lookupA, ih]

theorem modB_preserve (st : PState) (key : String) (f : Bldr → Bldr) (k : String)
    (h : key ≠ k) : lookupA (modB st key f).index k = lookupA st.index k := by
  unfold modB
  split
  · simp [lookupA_insertA, h]
  · rfl

theorem modB_buffer (st : PState) (key : String) (f : Bldr → Bldr) :
    (modB st key f).buffer = st.buffer := by
  unfold modB
  split <;> rfl

theorem modB_doc (st : PState) (key : String) (f : Bldr → Bldr) :
    (modB st key f).doc = st.doc := by
  unfold modB
  split <;> rfl

theorem modB_present (st : PState) (key : String) (f : Bldr → Bldr) (k : String)
    (ob : Option Bldr) (h : lookupA st.index k = some ob) :
    ∃ ob', lookupA (modB st key f).index k = some ob' := by
  unfold modB
  split
  · by_cases hk : key = k
    · subst hk
      exact ⟨_, lookupA_insertA_self _ _ _⟩
    · rw [lookupA_insertA_ne _ _ _ _ hk]
      exact ⟨ob, h⟩
  · exact ⟨ob, h⟩

/-! Structural invariants of the interpreter: index entries are never
removed, and the buffer of a key that already has an index entry is never
touched. -/

/-- Relation between a state and any state the engine can evolve it to:
index keys persist, and buffers of already-indexed keys are unchanged. -/
def stepRel (st st' : PState) : Prop :=
  (∀ k ob, lookupA st.index k = some ob → ∃ ob', lookupA st'.index k = some ob') ∧
  (∀ k, lookupA st.index k ≠ none → lookupA st'.buffer k = lookupA st.buffer k)

theorem stepRel_refl (st : PState) : stepRel st st :=
  ⟨fun _ ob h => ⟨ob, h⟩, fun _ _ => rfl⟩

theorem stepRel_trans {s1 s2 s3 : PState} (h12 : stepRel s1 s2) (h23 : stepRel s2 s3) :
    stepRel s1 s3 := by
  obtain ⟨a12, b12⟩ := h12
  obtain ⟨a23, b23⟩ := h23
  constructor
  · intro k ob h
    obtain ⟨ob', h'⟩ := a12 k ob h
    exact a23 k ob' h'
  · intro k h
    obtain ⟨ob, hob⟩ : ∃ ob, lookupA s1.index k = some ob := by
      cases hh : lookupA s1.index k with
      | none => exact absurd hh h
      | some x => exact ⟨x, rfl⟩
    obtain ⟨ob', h2⟩ := a12 k ob hob
    rw [b23 k (by simp [h2]), b12 k h]

theorem stepRel_insertIndex (st : PState) (key : String) (v : Option Bldr) :
    stepRel st { st with index := insertA st.index key v } := by
  constructor
  · intro k ob h
    by_cases hk : key = k
    · subst hk
      exact ⟨v, lookupA_insertA_self _ _ _⟩
    · refine ⟨ob, ?_⟩
      simpa [lookupA_insertA_ne _ _ _ _ hk] using h
  · intro k _
    rfl

theorem stepRel_modB (st : PState) (key : String) (f : Bldr → Bldr) :
    stepRel st (modB st key f) := by
  constructor
  · intro k ob h
    exact modB_present st key f k ob h
  · intro k _
    rw [modB_buffer]

theorem stepRel_setDoc (st : PState) (d : Option String) :
    stepRel st { st with doc := d } :=
  ⟨fun _ ob h => ⟨ob, h⟩, fun _ _ => rfl⟩

theorem stepRel_eraseBuf {st st2 : PState} (key : String)
    (habs : lookupA st.index key = none) (h : stepRel st st2) :
    stepRel st { st2 with buffer := eraseA st2.buffer key } := by
  obtain ⟨a, b⟩ := h
  constructor
  · exact a
  · intro k hk
    have hne : key ≠ k := by
      intro hh
      subst hh
      exact hk habs
    rw [show ({ st2 with buffer := eraseA st2.buffer key } : PState).buffer
        = eraseA st2.buffer key from rfl]
    rw [lookupA_eraseA_ne _ _ _ hne]
    exact b k hk

theorem stepRel_bufAppend {st : PState} (key : String) (e : BufEntry)
    (habs : lookupA st.index key = none) :
    stepRel st (bufAppend st key e) := by
  constructor
  · intro k ob h
    exact ⟨ob, h⟩
  · intro k hk
    have hne : key ≠ k := by
      intro hh
      subst hh
      exact hk habs
    exact lookupA_insertA_ne _ _ _ _ hne

theorem stepRel_regState (st : PState) (nodeStr : String) (t : Term)
    (optB : Option Bldr) : stepRel st (regState st nodeStr t optB) := by
  unfold regState
  split
  · constructor
    · intro k ob h
      by_cases hk : nodeStr = k
      · subst hk
        exact ⟨optB, lookupA_insertA_self _ _ _⟩
      · refine ⟨ob, ?_⟩
        simpa [lookupA_insertA_ne _ _ _ _ hk] using h
    · intro k _
      rfl
  · exact stepRel_insertIndex st nodeStr optB

/-- Any interpreter call evolves the state along stepRel: index entries
persist and buffers of indexed keys are untouched. -/
theorem interp_stepRel (fuel : Nat) :
    ∀ (c : Call) (st : PState), stepRel st (interp fuel c st).2 := by
  induction fuel with
  | zero =>
    intro c st
    exact stepRel_refl st
  | succ n ih =>
    intro c st
    cases c with
    | procT stm meta =>
      simp only [interp, procTStep]
      split
      · exact ih _ st
      · split
        · exact ih _ st
        · exact stepRel_refl st
        · rename_i hnone
          exact stepRel_bufAppend _ _ hnone
    | setT node t meta =>
      simp only [interp, setTStep]
      split
      · exact stepRel_refl st
      · split
        · exact ih _ st
        · split
          · exact stepRel_refl st
          · exact stepRel_refl st
      · rename_i habs
        split
        · exact stepRel_refl st
        · rename_i optB hnb
          split
          · rename_i st2 hdr
            have h1 := stepRel_regState st (termStr node) t optB
            have h2 := ih (.runBuf (termStr node)
              ((lookupA (regState st (termStr node) t optB).buffer (termStr node)).getD []))
              (regState st (termStr node) t optB)
            rw [hdr] at h2
            exact stepRel_eraseBuf _ habs (stepRel_trans h1 h2)
          · rename_i o st2 hne hdr
            have h1 := stepRel_regState st (termStr node) t optB
            have h2 := ih (.runBuf (termStr node)
              ((lookupA (regState st (termStr node) t optB).buffer (termStr node)).getD []))
              (regState st (termStr node) t optB)
            rw [hdr] at h2
            exact stepRel_trans h1 h2
    | reqT node t =>
      simp only [interp, reqTStep]
      split
      · split
        · exact stepRel_refl st
        · exact stepRel_refl st
      · exact stepRel_refl st
      · exact ih _ st
    | applyP key pred obj meta =>
      simp only [interp, applyPStep]
      split
      · split
        · exact stepRel_refl st
        · exact ih _ st
      · exact stepRel_refl st
      · exact stepRel_refl st
    | applyU key u obj meta =>
      cases u with
      | cellK f =>
        simp only [interp, applyUStep, cellStep]
        split
        · split
          · exact stepRel_refl st
          · exact stepRel_insertIndex st key _
        · exact stepRel_refl st
      | cellCutK pfx f =>
        simp only [interp, applyUStep, cellStep]
        split
        · split
          · exact stepRel_refl st
          · exact stepRel_insertIndex st key _
        · exact stepRel_refl st
      | algoK =>
        simp only [interp, applyUStep, cellStep]
        split
        · split
          · exact stepRel_refl st
          · exact stepRel_insertIndex st key _
        · exact stepRel_refl st
      | listK f =>
        simp only [interp, applyUStep, listStep]
        split
        · exact stepRel_insertIndex st key _
        · exact stepRel_refl st
      | refK t f =>
        simp only [interp, applyUStep, refStep]
        split
        · rename_i st1 hreq
          have h1 := ih (.reqT obj t) st
          rw [hreq] at h1
          exact stepRel_trans h1 (stepRel_modB st1 key _)
        · rename_i e st1 hreq
          have h1 := ih (.reqT obj t) st
          rw [hreq] at h1
          exact stepRel_trans h1 (stepRel_modB st1 key _)
        · rename_i o st1 hne1 hne2 hreq
          have h1 := ih (.reqT obj t) st
          rw [hreq] at h1
          exact h1
      | refListK t f =>
        simp only [interp, applyUStep, refListStep]
        split
        · rename_i st1 hreq
          have h1 := ih (.reqT obj t) st
          rw [hreq] at h1
          exact stepRel_trans h1 (stepRel_modB st1 key _)
        · rename_i o st1 hne hreq
          have h1 := ih (.reqT obj t) st
          rw [hreq] at h1
          exact h1
      | anyK f =>
        simp only [interp, applyUStep, anyStep]
        split
        · rename_i st1 hreq
          have h1 := ih (.reqT obj typeAnyLicence) st
          rw [hreq] at h1
          split
          · exact stepRel_trans h1 (stepRel_modB st1 key _)
          · exact stepRel_trans h1 (stepRel_modB st1 key _)
        · rename_i e st1 hreq
          have h1 := ih (.reqT obj typeAnyLicence) st
          rw [hreq] at h1
          exact stepRel_trans h1 (stepRel_modB st1 key _)
        · rename_i o st1 hne1 hne2 hreq
          have h1 := ih (.reqT obj typeAnyLicence) st
          rw [hreq] at h1
          exact h1
      | anyListK f =>
        simp only [interp, applyUStep, anyListStep]
        split
        · rename_i st1 hreq
          have h1 := ih (.reqT obj typeAnyLicence) st
          rw [hreq] at h1
          split
          · exact stepRel_trans h1 (stepRel_modB st1 key _)
          · exact h1
        · rename_i o st1 hne hreq
          have h1 := ih (.reqT obj typeAnyLicence) st
          rw [hreq] at h1
          exact h1
      | memberK =>
        simp only [interp, applyUStep, memberStep]
        split
        · rename_i st1 hreq
          have h1 := ih (.reqT obj typeAnyLicence) st
          rw [hreq] at h1
          split
          · exact stepRel_trans h1 (stepRel_modB st1 key _)
          · exact h1
        · rename_i o st1 hne hreq
          have h1 := ih (.reqT obj typeAnyLicence) st
          rw [hreq] at h1
          exact h1
      | nsTypeK =>
        simp only [interp, applyUStep, nsTypeStep]
        split
        · split
          · exact stepRel_refl st
          · split
            · exact stepRel_insertIndex st key _
            · split
              · exact stepRel_insertIndex st key _
              · exact stepRel_refl st
        · exact stepRel_refl st
    | runBuf key entries =>
      cases entries with
      | nil =>
        simp only [interp, runBufStep]
        exact stepRel_refl st
      | cons e rest =>
        simp only [interp, runBufStep]
        split
        · rename_i st1 happ
          have h1 := ih (.applyP key e.stm.pred e.stm.obj e.meta) st
          rw [happ] at h1
          have h2 := ih (.runBuf key rest) st1
          exact stepRel_trans h1 h2
        · rename_i o st1 hne happ
          have h1 := ih (.applyP key e.stm.pred e.stm.obj e.meta) st
          rw [happ] at h1
          exact h1

theorem regState_index (st : PState) (n : String) (t : Term) (optB : Option Bldr) :
    (regState st n t optB).index = insertA st.index n optB := by
  unfold regState
  split <;> rfl

theorem regState_buffer (st : PState) (n : String) (t : Term) (optB : Option Bldr) :
    (regState st n t optB).buffer = st.buffer := by
  unfold regState
  split <;> rfl

/-- The node key whose index entry a call may rewrite: the subject of a
processed or replayed statement, or the node of a type assertion.  reqType
never rewrites an existing entry (it either reads it or constructs a
missing one). -/
def targetsKey : Call → String → Prop
  | .procT stm _, k => termStr stm.subj = k
  | .setT node _ _, k => termStr node = k
  | .reqT _ _, _ => False
  | .applyP key _ _ _, k => key = k
  | .applyU key _ _ _, k => key = k
  | .runBuf key _, k => key = k

/-- Frame property: a call that does not target key k leaves k's index
entry exactly as it was. -/
theorem interp_frame (fuel : Nat) :
    ∀ (c : Call) (st : PState) (k : String) (ob : Option Bldr),
      lookupA st.index k = some ob → ¬ targetsKey c k →
      lookupA (interp fuel c st).2.index k = some ob := by
  induction fuel with
  | zero =>
    intro c st k ob h _
    exact h
  | succ n ih =>
    intro c st k ob h hnt
    cases c with
    | procT stm meta =>
      have hsub : ¬ (termStr stm.subj = k) := hnt
      simp only [interp, procTStep]
      split
      · exact ih _ st k ob h hsub
      · split
        · exact ih _ st k ob h hsub
        · exact h
        · exact h
    | setT node t meta =>
      have hsub : ¬ (termStr node = k) := hnt
      simp only [interp, setTStep]
      split
      · exact h
      · split
        · exact ih _ st k ob h hsub
        · split
          · exact h
          · exact h
      · rename_i habs
        split
        · exact h
        · rename_i optB hnb
          have hreg : lookupA (regState st (termStr node) t optB).index k = some ob := by
            rw [regState_index, lookupA_insertA_ne _ _ _ _ hsub]
            exact h
          split
          · rename_i st2 hdr
            have h1 := ih (.runBuf (termStr node)
              ((lookupA (regState st (termStr node) t optB).buffer (termStr node)).getD []))
              (regState st (termStr node) t optB) k ob hreg hsub
            rw [hdr] at h1
            exact h1
          · rename_i o st2 hne hdr
            have h1 := ih (.runBuf (termStr node)
              ((lookupA (regState st (termStr node) t optB).buffer (termStr node)).getD []))
              (regState st (termStr node) t optB) k ob hreg hsub
            rw [hdr] at h1
            exact h1
    | reqT node t =>
      simp only [interp, reqTStep]
      split
      · split
        · exact h
        · exact h
      · exact h
      · rename_i hmiss
        have hne : ¬ (termStr node = k) := by
          intro hh
          rw [hh] at hmiss
          rw [hmiss] at h
          exact Option.noConfusion h
        exact ih _ st k ob h hne
    | applyP key pred obj meta =>
      have hk : ¬ (key = k) := hnt
      simp only [interp, applyPStep]
      split
      · split
        · exact h
        · exact ih _ st k ob h hk
      · exact h
      · exact h
    | applyU key u obj meta =>
      have hk : ¬ (key = k) := hnt
      cases u with
      | cellK f =>
        simp only [interp, applyUStep, cellStep]
        split
        · split
          · exact h
          · show lookupA (insertA st.index key _) k = some ob
            rw [lookupA_insertA_ne _ _ _ _ hk]
            exact h
        · exact h
      | cellCutK pfx f =>
        simp only [interp, applyUStep, cellStep]
        split
        · split
          · exact h
          · show lookupA (insertA st.index key _) k = some ob
            rw [lookupA_insertA_ne _ _ _ _ hk]
            exact h
        · exact h
      | algoK =>
        simp only [interp, applyUStep, cellStep]
        split
        · split
          · exact h
          · show lookupA (insertA st.index key _) k = some ob
            rw [lookupA_insertA_ne _ _ _ _ hk]
            exact h
        · exact h
      | listK f =>
        simp only [interp, applyUStep, listStep]
        split
        · show lookupA (insertA st.index key _) k = some ob
          rw [lookupA_insertA_ne _ _ _ _ hk]
          exact h
        · exact h
      | refK t f =>
        simp only [interp, applyUStep, refStep]
        split
        · rename_i st1 hreq
          have h1 := ih (.reqT obj t) st k ob h (fun hf => hf)
          rw [hreq] at h1
          rw [modB_preserve _ _ _ _ hk]
          exact h1
        · rename_i e st1 hreq
          have h1 := ih (.reqT obj t) st k ob h (fun hf => hf)
          rw [hreq] at h1
          rw [modB_preserve _ _ _ _ hk]
          exact h1
        · rename_i o st1 hne1 hne2 hreq
          have h1 := ih (.reqT obj t) st k ob h (fun hf => hf)
          rw [hreq] at h1
          exact h1
      | refListK t f =>
        simp only [interp, applyUStep, refListStep]
        split
        · rename_i st1 hreq
          have h1 := ih (.reqT obj t) st k ob h (fun hf => hf)
          rw [hreq] at h1
          rw [modB_preserve _ _ _ _ hk]
          exact h1
        · rename_i o st1 hne hreq
          have h1 := ih (.reqT obj t) st k ob h (fun hf => hf)
          rw [hreq] at h1
          exact h1
      | anyK f =>
        simp only [interp, applyUStep, anyStep]
        split
        · rename_i st1 hreq
          have h1 := ih (.reqT obj typeAnyLicence) st k ob h (fun hf => hf)
          rw [hreq] at h1
          split
          · rw [modB_preserve _ _ _ _ hk]
            exact h1
          · rw [modB_preserve _ _ _ _ hk]
            exact h1
        · rename_i e st1 hreq
          have h1 := ih (.reqT obj typeAnyLicence) st k ob h (fun hf => hf)
          rw [hreq] at h1
          rw [modB_preserve _ _ _ _ hk]
          exact h1
        · rename_i o st1 hne1 hne2 hreq
          have h1 := ih (.reqT obj typeAnyLicence) st k ob h (fun hf => hf)
          rw [hreq] at h1
          exact h1
      | anyListK f =>
        simp only [interp, applyUStep, anyListStep]
        split
        · rename_i st1 hreq
          have h1 := ih (.reqT obj typeAnyLicence) st k ob h (fun hf => hf)
          rw [hreq] at h1
          split
          · rw [modB_preserve _ _ _ _ hk]
            exact h1
          · exact h1
        · rename_i o st1 hne hreq
          have h1 := ih (.reqT obj typeAnyLicence) st k ob h (fun hf => hf)
          rw [hreq] at h1
          exact h1
      | memberK =>
        simp only [interp, applyUStep, memberStep]
        split
        · rename_i st1 hreq
          have h1 := ih (.reqT obj typeAnyLicence) st k ob h (fun hf => hf)
          rw [hreq] at h1
          split
          · rw [modB_preserve _ _ _ _ hk]
            exact h1
          · exact h1
        · rename_i o st1 hne hreq
          have h1 := ih (.reqT obj typeAnyLicence) st k ob h (fun hf => hf)
          rw [hreq] at h1
          exact h1
      | nsTypeK =>
        simp only [interp, applyUStep, nsTypeStep]
        split
        · split
          · exact h
          · split
            · show lookupA (insertA st.index key _) k = some ob
              rw [lookupA_insertA_ne _ _ _ _ hk]
              exact h
            · split
              · show lookupA (insertA st.index key _) k = some ob
                rw [lookupA_insertA_ne _ _ _ _ hk]
                exact h
              · exact h
        · exact h
    | runBuf key entries =>
      have hk : ¬ (key = k) := hnt
      cases entries with
      | nil =>
        simp only [interp, runBufStep]
        exact h
      | cons e rest =>
        simp only [interp, runBufStep]
        split
        · rename_i st1 happ
          have h1 := ih (.applyP key e.stm.pred e.stm.obj e.meta) st k ob h hk
          rw [happ] at h1
          exact ih (.runBuf key rest) st1 k ob h1 hk
        · rename_i o st1 hne happ
          have h1 := ih (.applyP key e.stm.pred e.stm.obj e.meta) st k ob h hk
          rw [happ] at h1
          exact h1

/-! Simulation machinery: a run that buffers statements under one extra key
K is equivalent, on everything except K's buffer entry, to the run without
those statements. -/

/-- Drop every binding of key K (used to compare buffers up to K). -/
def removeK {α : Type} (K : String) : List (String × α) → List (String × α)
  | [] => []
  | (k, v) :: rest => if k = K then removeK K rest else (k, v) :: removeK K rest

theorem lookupA_removeK_ne {α : Type} (K J : String) (hJ : J ≠ K) :
    ∀ l : List (String × α), lookupA (removeK K l) J = lookupA l J := by
  intro l
  induction l with
  | nil => rfl
  | cons p rest ih =>
    obtain ⟨k, v⟩ := p
    by_cases hk : k = K
    · subst hk
      simp [removeK, lookupA, Ne.symm hJ, ih]
    · by_cases hkJ : k = J
      · subst hkJ
        simp [removeK, hk, lookupA]
      · simp [removeK, hk, lookupA, hkJ, ih]

theorem removeK_insertA_ne {α : Type} (K J : String) (hJ : J ≠ K) (v : α) :
    ∀ l : List (String × α), removeK K (insertA l J v) = insertA (removeK K l) J v := by
  intro l
  induction l with
  | nil => simp [insertA, removeK, hJ]
  | cons p rest ih =>
    obtain ⟨k, w⟩ := p
    by_cases hkJ : k = J
    · subst hkJ
      simp [insertA, removeK, hJ]
    · by_cases hk : k = K
      · subst hk
        simp [insertA, removeK, Ne.symm hJ, ih]
      · simp [insertA, removeK, hkJ, hk, ih]

theorem removeK_insertA_self {α : Type} (K : String) (v : α) :
    ∀ l : List (String × α), removeK K (insertA l K v) = removeK K l := by
  intro l
  induction l with
  | nil => simp [insertA, removeK]
  | cons p rest ih =>
    obtain ⟨k, w⟩ := p
    by_cases hk : k = K
    · subst hk
      simp [insertA, removeK]
    · simp [insertA, removeK, hk, ih]

theorem removeK_eraseA_ne {α : Type} (K n : String) (hn : n ≠ K) :
    ∀ l : List (String × α), removeK K (eraseA l n) = eraseA (removeK K l) n := by
  intro l
  induction l with
  | nil => rfl
  | cons p rest ih =>
    obtain ⟨k, w⟩ := p
    by_cases hkn : k = n
    · subst hkn
      simp [eraseA, removeK, hn]
    · by_cases hk : k = K
      · subst hk
        simp [eraseA, removeK, Ne.symm hn, ih]
      · simp [eraseA, removeK, hkn, hk, ih]

theorem interp_index_none_pre (fuel : Nat) (c : Call) (st : PState) (K : String)
    (h : lookupA (interp fuel c st).2.index K = none) :
    lookupA st.index K = none := by
  cases hL : lookupA st.index K with
  | none => rfl
  | some ob =>
    obtain ⟨ob', h'⟩ := (interp_stepRel fuel c st).1 K ob hL
    rw [h'] at h
    exact Option.noConfusion h

theorem modB_index_none {st : PState} {key : String} {f : Bldr → Bldr} {K : String}
    (h : lookupA (modB st key f).index K = none) : lookupA st.index K = none := by
  unfold modB at h
  split at h
  · by_cases hk : key = K
    · subst hk
      rw [lookupA_insertA_self] at h
      exact Option.noConfusion h
    · rwa [lookupA_insertA_ne _ _ _ _ hk] at h
  · exact h

theorem insertA_lookup_none {α : Type} {l : List (String × α)} {key K : String} {v : α}
    (h : lookupA (insertA l key v) K = none) : key ≠ K ∧ lookupA l K = none := by
  by_cases hk : key = K
  · subst hk
    rw [lookupA_insertA_self] at h
    exact absurd h (by simp)
  · exact ⟨hk, by rwa [lookupA_insertA_ne _ _ _ _ hk] at h⟩

/-- State equivalence up to the buffer entry of one key K. -/
def simR (K : String) (s1 s2 : PState) : Prop :=
  s1.index = s2.index ∧ s1.doc = s2.doc ∧
    removeK K s1.buffer = removeK K s2.buffer

theorem simR_refl (K : String) (s : PState) : simR K s s := ⟨rfl, rfl, rfl⟩

theorem simR_lookupBuf {K : String} {s1 s2 : PState} (h : simR K s1 s2) (J : String)
    (hJ : J ≠ K) : lookupA s1.buffer J = lookupA s2.buffer J := by
  rw [← lookupA_removeK_ne K J hJ s1.buffer, ← lookupA_removeK_ne K J hJ s2.buffer,
    h.2.2]

theorem regState_doc (st : PState) (n : String) (t : Term) (optB : Option Bldr) :
    (regState st n t optB).doc
      = if (t == typeDocument) = true then some n else st.doc := by
  unfold regState
  split
  · rfl
  · rfl

theorem simR_setIndex {K : String} {s1 s2 : PState} (h : simR K s1 s2) (key : String)
    (v : Option Bldr) :
    simR K { s1 with index := insertA s1.index key v }
      { s2 with index := insertA s2.index key v } := by
  obtain ⟨hIdx, hDoc, hBuf⟩ := h
  refine ⟨?_, hDoc, hBuf⟩
  show insertA s1.index key v = insertA s2.index key v
  rw [hIdx]

theorem simR_modB {K : String} {s1 s2 : PState} (h : simR K s1 s2) (key : String)
    (f : Bldr → Bldr) : simR K (modB s1 key f) (modB s2 key f) := by
  obtain ⟨hIdx, hDoc, hBuf⟩ := h
  unfold modB
  rw [← hIdx]
  cases lookupA s1.index key with
  | none => exact ⟨hIdx, hDoc, hBuf⟩
  | some ob =>
    cases ob with
    | none => exact ⟨hIdx, hDoc, hBuf⟩
    | some b => exact ⟨rfl, hDoc, hBuf⟩

theorem anyFromState_simR {K : String} {s1 s2 : PState} (h : simR K s1 s2)
    (key : String) : anyFromState s1 key = anyFromState s2 key := by
  unfold anyFromState
  rw [h.1]

theorem simR_eraseBufK {K : String} {s1 s2 : PState} (h : simR K s1 s2) (key : String)
    (hkK : key ≠ K) :
    simR K { s1 with buffer := eraseA s1.buffer key }
      { s2 with buffer := eraseA s2.buffer key } := by
  obtain ⟨hIdx, hDoc, hBuf⟩ := h
  refine ⟨hIdx, hDoc, ?_⟩
  show removeK K (eraseA s1.buffer key) = removeK K (eraseA s2.buffer key)
  rw [removeK_eraseA_ne K key hkK, removeK_eraseA_ne K key hkK, hBuf]

theorem simR_regState {K : String} {s1 s2 : PState} (h : simR K s1 s2) (n : String)
    (t : Term) (optB : Option Bldr) :
    simR K (regState s1 n t optB) (regState s2 n t optB) := by
  obtain ⟨hIdx, hDoc, hBuf⟩ := h
  refine ⟨?_, ?_, ?_⟩
  · rw [regState_index, regState_index, hIdx]
  · rw [regState_doc, regState_doc, hDoc]
  · show removeK K (regState s1 n t optB).buffer = removeK K (regState s2 n t optB).buffer
    rw [regState_buffer, regState_buffer]
    exact hBuf

theorem simR_bufAppend {K : String} {s1 s2 : PState} (h : simR K s1 s2)
    (node : String) (e : BufEntry) :
    simR K (bufAppend s1 node e) (bufAppend s2 node e) := by
  obtain ⟨hIdx, hDoc, hBuf⟩ := h
  refine ⟨hIdx, hDoc, ?_⟩
  by_cases hnK : node = K
  · subst hnK
    show removeK node (insertA s1.buffer node _) = removeK node (insertA s2.buffer node _)
    rw [removeK_insertA_self, removeK_insertA_self]
    exact hBuf
  · have hv : (lookupA s1.buffer node).getD [] = (lookupA s2.buffer node).getD [] := by
      rw [← lookupA_removeK_ne K node hnK s1.buffer,
        ← lookupA_removeK_ne K node hnK s2.buffer, hBuf]
    show removeK K (insertA s1.buffer node _) = removeK K (insertA s2.buffer node _)
    rw [removeK_insertA_ne K node hnK, removeK_insertA_ne K node hnK, hv, hBuf]

/-- Simulation: if a run never resolves key K (K has no index entry in the
final state), the same call on a state that differs only in K's buffer entry
produces the same outcome and a state differing only in K's buffer entry. -/
theorem interp_sim (fuel : Nat) :
    ∀ (c : Call) (K : String) (s1 s2 : PState) (o : Outcome) (s1' : PState),
      simR K s1 s2 → interp fuel c s1 = (o, s1') →
      lookupA s1'.index K = none →
      ∃ s2', interp fuel c s2 = (o, s2') ∧ simR K s1' s2' := by
  induction fuel with
  | zero =>
    intro c K s1 s2 o s1' hsim heq hK
    simp only [interp] at heq
    injection heq with h1 h2
    subst h1
    subst h2
    exact ⟨s2, rfl, hsim⟩
  | succ n ih =>
    intro c K s1 s2 o s1' hsim heq hK
    obtain ⟨hIdx, hDoc, hBuf⟩ := hsim
    cases c with
    | procT stm meta =>
      simp only [interp, procTStep] at heq ⊢
      by_cases hp : (stm.pred == uri_nstype) = true
      · rw [if_pos hp] at heq ⊢
        exact ih _ K s1 s2 o s1' ⟨hIdx, hDoc, hBuf⟩ heq hK
      · rw [if_neg hp] at heq ⊢
        rw [← hIdx]
        cases hL : lookupA s1.index (termStr stm.subj) with
        | none =>
          simp only [hL] at heq
          injection heq with h1 h2
          subst h1
          subst h2
          exact ⟨bufAppend s2 (termStr stm.subj) ⟨stm, meta⟩, rfl,
            simR_bufAppend ⟨hIdx, hDoc, hBuf⟩ _ _⟩
        | some ob =>
          cases ob with
          | none =>
            simp only [hL] at heq
            injection heq with h1 h2
            subst h1
            subst h2
            exact ⟨s2, rfl, ⟨hIdx, hDoc, hBuf⟩⟩
          | some b =>
            simp only [hL] at heq
            exact ih _ K s1 s2 o s1' ⟨hIdx, hDoc, hBuf⟩ heq hK
    | setT node t meta =>
      simp only [interp, setTStep] at heq ⊢
      rw [← hIdx]
      cases hL : lookupA s1.index (termStr node) with
      | some ob =>
        cases ob with
        | none =>
          simp only [hL] at heq
          injection heq with h1 h2
          subst h1
          subst h2
          exact ⟨s2, rfl, ⟨hIdx, hDoc, hBuf⟩⟩
        | some b =>
          simp only [hL] at heq
          dsimp only
          by_cases hc1 : (!(equalTypes b.t [t]) && bHas b "ns:type") = true
          · rw [if_pos hc1] at heq ⊢
            exact ih _ K s1 s2 o s1' ⟨hIdx, hDoc, hBuf⟩ heq hK
          · rw [if_neg hc1] at heq ⊢
            by_cases hc2 : (!(compatibleTypes b.t t)) = true
            · rw [if_pos hc2] at heq ⊢
              injection heq with h1 h2
              subst h1
              subst h2
              exact ⟨s2, rfl, ⟨hIdx, hDoc, hBuf⟩⟩
            · rw [if_neg hc2] at heq ⊢
              injection heq with h1 h2
              subst h1
              subst h2
              exact ⟨s2, rfl, ⟨hIdx, hDoc, hBuf⟩⟩
      | none =>
        simp only [hL] at heq
        cases hN : newBuilder node t meta with
        | none =>
          simp only [hN] at heq
          injection heq with h1 h2
          subst h1
          subst h2
          exact ⟨s2, rfl, ⟨hIdx, hDoc, hBuf⟩⟩
        | some optB =>
          simp only [hN] at heq
          dsimp only
          rcases hrb : interp n (.runBuf (termStr node)
              ((lookupA (regState s1 (termStr node) t optB).buffer (termStr node)).getD []))
              (regState s1 (termStr node) t optB) with ⟨or, str⟩
          have hregsim := simR_regState ⟨hIdx, hDoc, hBuf⟩ (termStr node) t optB
          cases or with
          | ok =>
            simp only [hrb] at heq
            injection heq with h1 h2
            subst h1
            subst h2
            have hstrK : lookupA str.index K = none := hK
            have hpre : lookupA (regState s1 (termStr node) t optB).index K = none :=
              interp_index_none_pre n (.runBuf (termStr node)
                ((lookupA (regState s1 (termStr node) t optB).buffer (termStr node)).getD []))
                (regState s1 (termStr node) t optB) K (by rw [hrb]; exact hstrK)
            rw [regState_index] at hpre
            obtain ⟨hkK, hs1K⟩ := insertA_lookup_none hpre
            have hbb : (lookupA (regState s2 (termStr node) t optB).buffer (termStr node)).getD []
                = (lookupA (regState s1 (termStr node) t optB).buffer (termStr node)).getD [] := by
              rw [regState_buffer, regState_buffer,
                simR_lookupBuf ⟨hIdx, hDoc, hBuf⟩ (termStr node) hkK]
            rw [hbb]
            obtain ⟨str2, hrb2, hsim2⟩ := ih _ K _ _ .ok str hregsim hrb hstrK
            simp only [hrb2]
            exact ⟨{ str2 with buffer := eraseA str2.buffer (termStr node) }, rfl,
              simR_eraseBufK hsim2 (termStr node) hkK⟩
          | err e =>
            simp only [hrb] at heq
            injection heq with h1 h2
            subst h1
            subst h2
            have hstrK : lookupA str.index K = none := hK
            have hpre : lookupA (regState s1 (termStr node) t optB).index K = none :=
              interp_index_none_pre n (.runBuf (termStr node)
                ((lookupA (regState s1 (termStr node) t optB).buffer (termStr node)).getD []))
                (regState s1 (termStr node) t optB) K (by rw [hrb]; exact hstrK)
            rw [regState_index] at hpre
            obtain ⟨hkK, hs1K⟩ := insertA_lookup_none hpre
            have hbb : (lookupA (regState s2 (termStr node) t optB).buffer (termStr node)).getD []
                = (lookupA (regState s1 (termStr node) t optB).buffer (termStr node)).getD [] := by
              rw [regState_buffer, regState_buffer,
                simR_lookupBuf ⟨hIdx, hDoc, hBuf⟩ (termStr node) hkK]
            rw [hbb]
            obtain ⟨str2, hrb2, hsim2⟩ := ih _ K _ _ _ str hregsim hrb hstrK
            simp only [hrb2]
            exact ⟨str2, rfl, hsim2⟩
          | crash =>
            simp only [hrb] at heq
            injection heq with h1 h2
            subst h1
            subst h2
            have hstrK : lookupA str.index K = none := hK
            have hpre : lookupA (regState s1 (termStr node) t optB).index K = none :=
              interp_index_none_pre n (.runBuf (termStr node)
                ((lookupA (regState s1 (termStr node) t optB).buffer (termStr node)).getD []))
                (regState s1 (termStr node) t optB) K (by rw [hrb]; exact hstrK)
            rw [regState_index] at hpre
            obtain ⟨hkK, hs1K⟩ := insertA_lookup_none hpre
            have hbb : (lookupA (regState s2 (termStr node) t optB).buffer (termStr node)).getD []
                = (lookupA (regState s1 (termStr node) t optB).buffer (termStr node)).getD [] := by
              rw [regState_buffer, regState_buffer,
                simR_lookupBuf ⟨hIdx, hDoc, hBuf⟩ (termStr node) hkK]
            rw [hbb]
            obtain ⟨str2, hrb2, hsim2⟩ := ih _ K _ _ _ str hregsim hrb hstrK
            simp only [hrb2]
            exact ⟨str2, rfl, hsim2⟩
          | fuelOut =>
            simp only [hrb] at heq
            injection heq with h1 h2
            subst h1
            subst h2
            have hstrK : lookupA str.index K = none := hK
            have hpre : lookupA (regState s1 (termStr node) t optB).index K = none :=
              interp_index_none_pre n (.runBuf (termStr node)
                ((lookupA (regState s1 (termStr node) t optB).buffer (termStr node)).getD []))
                (regState s1 (termStr node) t optB) K (by rw [hrb]; exact hstrK)
            rw [regState_index] at hpre
            obtain ⟨hkK, hs1K⟩ := insertA_lookup_none hpre
            have hbb : (lookupA (regState s2 (termStr node) t optB).buffer (termStr node)).getD []
                = (lookupA (regState s1 (termStr node) t optB).buffer (termStr node)).getD [] := by
              rw [regState_buffer, regState_buffer,
                simR_lookupBuf ⟨hIdx, hDoc, hBuf⟩ (termStr node) hkK]
            rw [hbb]
            obtain ⟨str2, hrb2, hsim2⟩ := ih _ K _ _ _ str hregsim hrb hstrK
            simp only [hrb2]
            exact ⟨str2, rfl, hsim2⟩
    | reqT node t =>
      simp only [interp, reqTStep] at heq ⊢
      rw [← hIdx]
      cases hL : lookupA s1.index (termStr node) with
      | some ob =>
        cases ob with
        | none =>
          simp only [hL] at heq
          injection heq with h1 h2
          subst h1
          subst h2
          exact ⟨s2, rfl, ⟨hIdx, hDoc, hBuf⟩⟩
        | some b =>
          simp only [hL] at heq
          dsimp only
          by_cases hc : (!(compatibleTypes b.t t)) = true
          · rw [if_pos hc] at heq ⊢
            injection heq with h1 h2
            subst h1
            subst h2
            exact ⟨s2, rfl, ⟨hIdx, hDoc, hBuf⟩⟩
          · rw [if_neg hc] at heq ⊢
            injection heq with h1 h2
            subst h1
            subst h2
            exact ⟨s2, rfl, ⟨hIdx, hDoc, hBuf⟩⟩
      | none =>
        simp only [hL] at heq
        exact ih _ K s1 s2 o s1' ⟨hIdx, hDoc, hBuf⟩ heq hK
    | applyP key pred obj meta =>
      simp only [interp, applyPStep] at heq ⊢
      rw [← hIdx]
      cases hL : lookupA s1.index key with
      | some ob =>
        cases ob with
        | none =>
          simp only [hL] at heq
          injection heq with h1 h2
          subst h1
          subst h2
          exact ⟨s2, rfl, ⟨hIdx, hDoc, hBuf⟩⟩
        | some b =>
          simp only [hL] at heq
          dsimp only
          cases hU : updaters b.kind (shortPfx (termStr pred)) with
          | none =>
            simp only [hU] at heq
            injection heq with h1 h2
            subst h1
            subst h2
            exact ⟨s2, rfl, ⟨hIdx, hDoc, hBuf⟩⟩
          | some u =>
            simp only [hU] at heq
            exact ih _ K s1 s2 o s1' ⟨hIdx, hDoc, hBuf⟩ heq hK
      | none =>
        simp only [hL] at heq
        injection heq with h1 h2
        subst h1
        subst h2
        exact ⟨s2, rfl, ⟨hIdx, hDoc, hBuf⟩⟩
    | applyU key u obj meta =>
      cases u with
      | cellK f =>
        simp only [interp, applyUStep, cellStep] at heq ⊢
        rw [← hIdx]
        cases hL : lookupA s1.index key with
        | some ob =>
          cases ob with
          | none =>
            simp only [hL] at heq
            injection heq with h1 h2
            subst h1
            subst h2
            exact ⟨s2, rfl, ⟨hIdx, hDoc, hBuf⟩⟩
          | some b =>
            simp only [hL] at heq
            dsimp only
            by_cases hset : (getScal b.ent f).isSet = true
            · rw [if_pos hset] at heq ⊢
              injection heq with h1 h2
              subst h1
              subst h2
              exact ⟨s2, rfl, ⟨hIdx, hDoc, hBuf⟩⟩
            · rw [if_neg hset] at heq ⊢
              injection heq with h1 h2
              subst h1
              subst h2
              exact ⟨_, rfl, ⟨rfl, hDoc, hBuf⟩⟩
        | none =>
          simp only [hL] at heq
          injection heq with h1 h2
          subst h1
          subst h2
          exact ⟨s2, rfl, ⟨hIdx, hDoc, hBuf⟩⟩
      | cellCutK pfx f =>
        simp only [interp, applyUStep, cellStep] at heq ⊢
        rw [← hIdx]
        cases hL : lookupA s1.index key with
        | some ob =>
          cases ob with
          | none =>
            simp only [hL] at heq
            injection heq with h1 h2
            subst h1
            subst h2
            exact ⟨s2, rfl, ⟨hIdx, hDoc, hBuf⟩⟩
          | some b =>
            simp only [hL] at heq
            dsimp only
            by_cases hset : (getScal b.ent f).isSet = true
            · rw [if_pos hset] at heq ⊢
              injection heq with h1 h2
              subst h1
              subst h2
              exact ⟨s2, rfl, ⟨hIdx, hDoc, hBuf⟩⟩
            · rw [if_neg hset] at heq ⊢
              injection heq with h1 h2
              subst h1
              subst h2
              exact ⟨_, rfl, ⟨rfl, hDoc, hBuf⟩⟩
        | none =>
          simp only [hL] at heq
          injection heq with h1 h2
          subst h1
          subst h2
          exact ⟨s2, rfl, ⟨hIdx, hDoc, hBuf⟩⟩
      | algoK =>
        simp only [interp, applyUStep, cellStep] at heq ⊢
        rw [← hIdx]
        cases hL : lookupA s1.index key with
        | some ob =>
          cases ob with
          | none =>
            simp only [hL] at heq
            injection heq with h1 h2
            subst h1
            subst h2
            exact ⟨s2, rfl, ⟨hIdx, hDoc, hBuf⟩⟩
          | some b =>
            simp only [hL] at heq
            dsimp only
            by_cases hset : (getScal b.ent "algo").isSet = true
            · rw [if_pos hset] at heq ⊢
              injection heq with h1 h2
              subst h1
              subst h2
              exact ⟨s2, rfl, ⟨hIdx, hDoc, hBuf⟩⟩
            · rw [if_neg hset] at heq ⊢
              injection heq with h1 h2
              subst h1
              subst h2
              exact ⟨_, rfl, ⟨rfl, hDoc, hBuf⟩⟩
        | none =>
          simp only [hL] at heq
          injection heq with h1 h2
          subst h1
          subst h2
          exact ⟨s2, rfl, ⟨hIdx, hDoc, hBuf⟩⟩
      | listK f =>
        simp only [interp, applyUStep, listStep] at heq ⊢
        rw [← hIdx]
        cases hL : lookupA s1.index key with
        | some ob =>
          cases ob with
          | none =>
            simp only [hL] at heq
            injection heq with h1 h2
            subst h1
            subst h2
            exact ⟨s2, rfl, ⟨hIdx, hDoc, hBuf⟩⟩
          | some b =>
            simp only [hL] at heq
            injection heq with h1 h2
            subst h1
            subst h2
            exact ⟨_, rfl, ⟨rfl, hDoc, hBuf⟩⟩
        | none =>
          simp only [hL] at heq
          injection heq with h1 h2
          subst h1
          subst h2
          exact ⟨s2, rfl, ⟨hIdx, hDoc, hBuf⟩⟩
      | refK t f =>
        simp only [interp, applyUStep, refStep] at heq ⊢
        rcases hreq : interp n (.reqT obj t) s1 with ⟨or, st1⟩
        cases or with
        | ok =>
          simp only [hreq] at heq
          injection heq with h1 h2
          subst h1
          subst h2
          have hst1K : lookupA st1.index K = none := modB_index_none hK
          obtain ⟨st2, hreq2, hsim2⟩ := ih _ K s1 s2 .ok st1 ⟨hIdx, hDoc, hBuf⟩ hreq hst1K
          simp only [hreq2]
          exact ⟨_, rfl, simR_modB hsim2 key _⟩
        | err e =>
          simp only [hreq] at heq
          injection heq with h1 h2
          subst h1
          subst h2
          have hst1K : lookupA st1.index K = none := modB_index_none hK
          obtain ⟨st2, hreq2, hsim2⟩ := ih _ K s1 s2 _ st1 ⟨hIdx, hDoc, hBuf⟩ hreq hst1K
          simp only [hreq2]
          exact ⟨_, rfl, simR_modB hsim2 key _⟩
        | crash =>
          simp only [hreq] at heq
          injection heq with h1 h2
          subst h1
          subst h2
          obtain ⟨st2, hreq2, hsim2⟩ := ih _ K s1 s2 _ st1 ⟨hIdx, hDoc, hBuf⟩ hreq hK
          simp only [hreq2]
          exact ⟨st2, rfl, hsim2⟩
        | fuelOut =>
          simp only [hreq] at heq
          injection heq with h1 h2
          subst h1
          subst h2
          obtain ⟨st2, hreq2, hsim2⟩ := ih _ K s1 s2 _ st1 ⟨hIdx, hDoc, hBuf⟩ hreq hK
          simp only [hreq2]
          exact ⟨st2, rfl, hsim2⟩
      | refListK t f =>
        simp only [interp, applyUStep, refListStep] at heq ⊢
        rcases hreq : interp n (.reqT obj t) s1 with ⟨or, st1⟩
        cases or with
        | ok =>
          simp only [hreq] at heq
          injection heq with h1 h2
          subst h1
          subst h2
          have hst1K : lookupA st1.index K = none := modB_index_none hK
          obtain ⟨st2, hreq2, hsim2⟩ := ih _ K s1 s2 .ok st1 ⟨hIdx, hDoc, hBuf⟩ hreq hst1K
          simp only [hreq2]
          exact ⟨_, rfl, simR_modB hsim2 key _⟩
        | err e =>
          simp only [hreq] at heq
          injection heq with h1 h2
          subst h1
          subst h2
          obtain ⟨st2, hreq2, hsim2⟩ := ih _ K s1 s2 _ st1 ⟨hIdx, hDoc, hBuf⟩ hreq hK
          simp only [hreq2]
          exact ⟨st2, rfl, hsim2⟩
        | crash =>
          simp only [hreq] at heq
          injection heq with h1 h2
          subst h1
          subst h2
          obtain ⟨st2, hreq2, hsim2⟩ := ih _ K s1 s2 _ st1 ⟨hIdx, hDoc, hBuf⟩ hreq hK
          simp only [hreq2]
          exact ⟨st2, rfl, hsim2⟩
        | fuelOut =>
          simp only [hreq] at heq
          injection heq with h1 h2
          subst h1
          subst h2
          obtain ⟨st2, hreq2, hsim2⟩ := ih _ K s1 s2 _ st1 ⟨hIdx, hDoc, hBuf⟩ hreq hK
          simp only [hreq2]
          exact ⟨st2, rfl, hsim2⟩
      | anyK f =>
        simp only [interp, applyUStep, anyStep] at heq ⊢
        rcases hreq : interp n (.reqT obj typeAnyLicence) s1 with ⟨or, st1⟩
        cases or with
        | ok =>
          simp only [hreq] at heq
          rcases hany : anyFromState st1 (termStr obj) with e | lic
          · simp only [hany] at heq
            injection heq with h1 h2
            subst h1
            subst h2
            have hst1K : lookupA st1.index K = none := modB_index_none hK
            obtain ⟨st2, hreq2, hsim2⟩ := ih _ K s1 s2 .ok st1 ⟨hIdx, hDoc, hBuf⟩ hreq hst1K
            simp only [hreq2]
            rw [← anyFromState_simR hsim2 (termStr obj)]
            simp only [hany]
            exact ⟨_, rfl, simR_modB hsim2 key _⟩
          · simp only [hany] at heq
            injection heq with h1 h2
            subst h1
            subst h2
            have hst1K : lookupA st1.index K = none := modB_index_none hK
            obtain ⟨st2, hreq2, hsim2⟩ := ih _ K s1 s2 .ok st1 ⟨hIdx, hDoc, hBuf⟩ hreq hst1K
            simp only [hreq2]
            rw [← anyFromState_simR hsim2 (termStr obj)]
            simp only [hany]
            exact ⟨_, rfl, simR_modB hsim2 key _⟩
        | err e =>
          simp only [hreq] at heq
          injection heq with h1 h2
          subst h1
          subst h2
          have hst1K : lookupA st1.index K = none := modB_index_none hK
          obtain ⟨st2, hreq2, hsim2⟩ := ih _ K s1 s2 _ st1 ⟨hIdx, hDoc, hBuf⟩ hreq hst1K
          simp only [hreq2]
          exact ⟨_, rfl, simR_modB hsim2 key _⟩
        | crash =>
          simp only [hreq] at heq
          injection heq with h1 h2
          subst h1
          subst h2
          obtain ⟨st2, hreq2, hsim2⟩ := ih _ K s1 s2 _ st1 ⟨hIdx, hDoc, hBuf⟩ hreq hK
          simp only [hreq2]
          exact ⟨st2, rfl, hsim2⟩
        | fuelOut =>
          simp only [hreq] at heq
          injection heq with h1 h2
          subst h1
          subst h2
          obtain ⟨st2, hreq2, hsim2⟩ := ih _ K s1 s2 _ st1 ⟨hIdx, hDoc, hBuf⟩ hreq hK
          simp only [hreq2]
          exact ⟨st2, rfl, hsim2⟩
      | anyListK f =>
        simp only [interp, applyUStep, anyListStep] at heq ⊢
        rcases hreq : interp n (.reqT obj typeAnyLicence) s1 with ⟨or, st1⟩
        cases or with
        | ok =>
          simp only [hreq] at heq
          rcases hany : anyFromState st1 (termStr obj) with e | lic
          · simp only [hany] at heq
            injection heq with h1 h2
            subst h1
            subst h2
            obtain ⟨st2, hreq2, hsim2⟩ := ih _ K s1 s2 .ok st1 ⟨hIdx, hDoc, hBuf⟩ hreq hK
            simp only [hreq2]
            rw [← anyFromState_simR hsim2 (termStr obj)]
            simp only [hany]
            exact ⟨st2, rfl, hsim2⟩
          · simp only [hany] at heq
            injection heq with h1 h2
            subst h1
            subst h2
            have hst1K : lookupA st1.index K = none := modB_index_none hK
            obtain ⟨st2, hreq2, hsim2⟩ := ih _ K s1 s2 .ok st1 ⟨hIdx, hDoc, hBuf⟩ hreq hst1K
            simp only [hreq2]
            rw [← anyFromState_simR hsim2 (termStr obj)]
            simp only [hany]
            exact ⟨_, rfl, simR_modB hsim2 key _⟩
        | err e =>
          simp only [hreq] at heq
          injection heq with h1 h2
          subst h1
          subst h2
          obtain ⟨st2, hreq2, hsim2⟩ := ih _ K s1 s2 _ st1 ⟨hIdx, hDoc, hBuf⟩ hreq hK
          simp only [hreq2]
          exact ⟨st2, rfl, hsim2⟩
        | crash =>
          simp only [hreq] at heq
          injection heq with h1 h2
          subst h1
          subst h2
          obtain ⟨st2, hreq2, hsim2⟩ := ih _ K s1 s2 _ st1 ⟨hIdx, hDoc, hBuf⟩ hreq hK
          simp only [hreq2]
          exact ⟨st2, rfl, hsim2⟩
        | fuelOut =>
          simp only [hreq] at heq
          injection heq with h1 h2
          subst h1
          subst h2
          obtain ⟨st2, hreq2, hsim2⟩ := ih _ K s1 s2 _ st1 ⟨hIdx, hDoc, hBuf⟩ hreq hK
          simp only [hreq2]
          exact ⟨st2, rfl, hsim2⟩
      | memberK =>
        simp only [interp, applyUStep, memberStep] at heq ⊢
        rcases hreq : interp n (.reqT obj typeAnyLicence) s1 with ⟨or, st1⟩
        cases or with
        | ok =>
          simp only [hreq] at heq
          rcases hany : anyFromState st1 (termStr obj) with e | lic
          · simp only [hany] at heq
            injection heq with h1 h2
            subst h1
            subst h2
            obtain ⟨st2, hreq2, hsim2⟩ := ih _ K s1 s2 .ok st1 ⟨hIdx, hDoc, hBuf⟩ hreq hK
            simp only [hreq2]
            rw [← anyFromState_simR hsim2 (termStr obj)]
            simp only [hany]
            exact ⟨st2, rfl, hsim2⟩
          · simp only [hany] at heq
            injection heq with h1 h2
            subst h1
            subst h2
            have hst1K : lookupA st1.index K = none := modB_index_none hK
            obtain ⟨st2, hreq2, hsim2⟩ := ih _ K s1 s2 .ok st1 ⟨hIdx, hDoc, hBuf⟩ hreq hst1K
            simp only [hreq2]
            rw [← anyFromState_simR hsim2 (termStr obj)]
            simp only [hany]
            exact ⟨_, rfl, simR_modB hsim2 key _⟩
        | err e =>
          simp only [hreq] at heq
          injection heq with h1 h2
          subst h1
          subst h2
          obtain ⟨st2, hreq2, hsim2⟩ := ih _ K s1 s2 _ st1 ⟨hIdx, hDoc, hBuf⟩ hreq hK
          simp only [hreq2]
          exact ⟨st2, rfl, hsim2⟩
        | crash =>
          simp only [hreq] at heq
          injection heq with h1 h2
          subst h1
          subst h2
          obtain ⟨st2, hreq2, hsim2⟩ := ih _ K s1 s2 _ st1 ⟨hIdx, hDoc, hBuf⟩ hreq hK
          simp only [hreq2]
          exact ⟨st2, rfl, hsim2⟩
        | fuelOut =>
          simp only [hreq] at heq
          injection heq with h1 h2
          subst h1
          subst h2
          obtain ⟨st2, hreq2, hsim2⟩ := ih _ K s1 s2 _ st1 ⟨hIdx, hDoc, hBuf⟩ hreq hK
          simp only [hreq2]
          exact ⟨st2, rfl, hsim2⟩
      | nsTypeK =>
        simp only [interp, applyUStep, nsTypeStep] at heq ⊢
        rw [← hIdx]
        cases hL : lookupA s1.index key with
        | some ob =>
          cases ob with
          | none =>
            simp only [hL] at heq
            injection heq with h1 h2
            subst h1
            subst h2
            exact ⟨s2, rfl, ⟨hIdx, hDoc, hBuf⟩⟩
          | some b =>
            simp only [hL] at heq
            dsimp only
            by_cases h1c : (!(equalTypes b.t [typeAbstractLicenceSet])) = true
            · rw [if_pos h1c] at heq ⊢
              injection heq with h1 h2
              subst h1
              subst h2
              exact ⟨s2, rfl, ⟨hIdx, hDoc, hBuf⟩⟩
            · rw [if_neg h1c] at heq ⊢
              by_cases h2c : (equalTypes obj [typeConjunctiveSet]) = true
              · rw [if_pos h2c] at heq ⊢
                injection heq with h1 h2
                subst h1
                subst h2
                exact ⟨_, rfl, ⟨rfl, hDoc, hBuf⟩⟩
              · rw [if_neg h2c] at heq ⊢
                by_cases h3c : (equalTypes obj [typeDisjunctiveSet]) = true
                · rw [if_pos h3c] at heq ⊢
                  injection heq with h1 h2
                  subst h1
                  subst h2
                  exact ⟨_, rfl, ⟨rfl, hDoc, hBuf⟩⟩
                · rw [if_neg h3c] at heq ⊢
                  injection heq with h1 h2
                  subst h1
                  subst h2
                  exact ⟨s2, rfl, ⟨hIdx, hDoc, hBuf⟩⟩
        | none =>
          simp only [hL] at heq
          injection heq with h1 h2
          subst h1
          subst h2
          exact ⟨s2, rfl, ⟨hIdx, hDoc, hBuf⟩⟩
    | runBuf key entries =>
      cases entries with
      | nil =>
        simp only [interp, runBufStep] at heq ⊢
        injection heq with h1 h2
        subst h1
        subst h2
        exact ⟨s2, rfl, ⟨hIdx, hDoc, hBuf⟩⟩
      | cons e rest =>
        simp only [interp, runBufStep] at heq ⊢
        rcases happ : interp n (.applyP key e.stm.pred e.stm.obj e.meta) s1 with ⟨or, st1⟩
        cases or with
        | ok =>
          simp only [happ] at heq
          have hst1K : lookupA st1.index K = none :=
            interp_index_none_pre n (.runBuf key rest) st1 K (by rw [heq]; exact hK)
          obtain ⟨st2, happ2, hsim2⟩ :=
            ih _ K s1 s2 .ok st1 ⟨hIdx, hDoc, hBuf⟩ happ hst1K
          simp only [happ2]
          exact ih _ K st1 st2 o s1' hsim2 heq hK
        | err e2 =>
          simp only [happ] at heq
          injection heq with h1 h2
          subst h1
          subst h2
          obtain ⟨st2, happ2, hsim2⟩ :=
            ih _ K s1 s2 _ st1 ⟨hIdx, hDoc, hBuf⟩ happ hK
          simp only [happ2]
          exact ⟨st2, rfl, hsim2⟩
        | crash =>
          simp only [happ] at heq
          injection heq with h1 h2
          subst h1
          subst h2
          obtain ⟨st2, happ2, hsim2⟩ :=
            ih _ K s1 s2 _ st1 ⟨hIdx, hDoc, hBuf⟩ happ hK
          simp only [happ2]
          exact ⟨st2, rfl, hsim2⟩
        | fuelOut =>
          simp only [happ] at heq
          injection heq with h1 h2
          subst h1
          subst h2
          obtain ⟨st2, happ2, hsim2⟩ :=
            ih _ K s1 s2 _ st1 ⟨hIdx, hDoc, hBuf⟩ happ hK
          simp only [happ2]
          exact ⟨st2, rfl, hsim2⟩

/-- The statements kept when discarding the non-type statements of subject
key K. -/
def keepStmt (K : String) (p : Stmt × Nat) : Bool :=
  !(termStr p.1.subj == K && !(p.1.pred == uri_nstype))

theorem runStream_stepRel (fuel : Nat) :
    ∀ (stms : List (Stmt × Nat)) (st : PState),
      stepRel st (runStream fuel st stms).2 := by
  intro stms
  induction stms with
  | nil =>
    intro st
    exact stepRel_refl st
  | cons p rest ihs =>
    intro st
    obtain ⟨stm, line⟩ := p
    simp only [runStream]
    rcases hp1 : interp fuel (.procT stm (some ⟨line⟩)) st with ⟨o1, st1⟩
    have h1 := interp_stepRel fuel (.procT stm (some ⟨line⟩)) st
    rw [hp1] at h1
    cases o1 with
    | ok =>
      simp only [hp1]
      exact stepRel_trans h1 (ihs st1)
    | err e =>
      simp only [hp1]
      exact h1
    | crash =>
      simp only [hp1]
      exact h1
    | fuelOut =>
      simp only [hp1]
      exact h1

theorem runStream_index_none_pre (fuel : Nat) (stms : List (Stmt × Nat)) (st : PState)
    (K : String) (h : lookupA (runStream fuel st stms).2.index K = none) :
    lookupA st.index K = none := by
  cases hL : lookupA st.index K with
  | none => rfl
  | some ob =>
    obtain ⟨ob', h'⟩ := (runStream_stepRel fuel stms st).1 K ob hL
    rw [h'] at h
    exact Option.noConfusion h

theorem simR_bufAppendK {K : String} {s1 s2 : PState} (h : simR K s1 s2)
    (e : BufEntry) : simR K (bufAppend s1 K e) s2 := by
  obtain ⟨hIdx, hDoc, hBuf⟩ := h
  refine ⟨hIdx, hDoc, ?_⟩
  show removeK K (insertA s1.buffer K _) = removeK K s2.buffer
  rw [removeK_insertA_self]
  exact hBuf

/-- Stream-level simulation: when key K never acquires an index entry,
removing the non-type statements whose subject is K does not change the
run's outcome, and the final states agree except on K's buffer entry. -/
theorem runStream_sim (fuel : Nat) (K : String) :
    ∀ (stms : List (Stmt × Nat)) (s1 s2 : PState) (o : Outcome) (s1' : PState),
      simR K s1 s2 → runStream (fuel + 1) s1 stms = (o, s1') →
      lookupA s1'.index K = none →
      ∃ s2', runStream (fuel + 1) s2 (stms.filter (keepStmt K)) = (o, s2') ∧
        simR K s1' s2' := by
  intro stms
  induction stms with
  | nil =>
    intro s1 s2 o s1' hsim heq hK
    simp only [runStream] at heq
    injection heq with h1 h2
    subst h1
    subst h2
    exact ⟨s2, rfl, hsim⟩
  | cons p rest ihs =>
    intro s1 s2 o s1' hsim heq hK
    obtain ⟨stm, line⟩ := p
    simp only [runStream] at heq
    rcases hp1 : interp (fuel + 1) (.procT stm (some ⟨line⟩)) s1 with ⟨o1, st1⟩
    by_cases hkeep : keepStmt K (stm, line) = true
    · rw [List.filter_cons_of_pos hkeep]
      simp only [runStream]
      cases o1 with
      | ok =>
        simp only [hp1] at heq
        have hst1K : lookupA st1.index K = none :=
          runStream_index_none_pre (fuel + 1) rest st1 K (by rw [heq]; exact hK)
        obtain ⟨st2, hp2, hsim2⟩ :=
          interp_sim (fuel + 1) _ K s1 s2 .ok st1 hsim hp1 hst1K
        simp only [hp2]
        exact ihs st1 st2 o s1' hsim2 heq hK
      | err e =>
        simp only [hp1] at heq
        injection heq with h1 h2
        subst h1
        subst h2
        obtain ⟨st2, hp2, hsim2⟩ :=
          interp_sim (fuel + 1) _ K s1 s2 _ st1 hsim hp1 hK
        simp only [hp2]
        exact ⟨st2, rfl, hsim2⟩
      | crash =>
        simp only [hp1] at heq
        injection heq with h1 h2
        subst h1
        subst h2
        obtain ⟨st2, hp2, hsim2⟩ :=
          interp_sim (fuel + 1) _ K s1 s2 _ st1 hsim hp1 hK
        simp only [hp2]
        exact ⟨st2, rfl, hsim2⟩
      | fuelOut =>
        simp only [hp1] at heq
        injection heq with h1 h2
        subst h1
        subst h2
        obtain ⟨st2, hp2, hsim2⟩ :=
          interp_sim (fuel + 1) _ K s1 s2 _ st1 hsim hp1 hK
        simp only [hp2]
        exact ⟨st2, rfl, hsim2⟩
    · rw [List.filter_cons_of_neg hkeep]
      have hx : (termStr stm.subj == K && !(stm.pred == uri_nstype)) = true := by
        cases hxx : (termStr stm.subj == K && !(stm.pred == uri_nstype)) with
        | true => rfl
        | false =>
          exact absurd (by simp only [keepStmt, hxx, Bool.not_false]) hkeep
      obtain ⟨ha, hb⟩ := (Bool.and_eq_true _ _).mp hx
      have hsubj : termStr stm.subj = K := by
        exact eq_of_beq ha
      have hpred : (stm.pred == uri_nstype) = false := by
        cases hpp : (stm.pred == uri_nstype) with
        | false => rfl
        | true =>
          rw [hpp] at hb
          simp at hb
      have hst1K : lookupA st1.index K = none := by
        cases o1 with
        | ok =>
          simp only [hp1] at heq
          exact runStream_index_none_pre (fuel + 1) rest st1 K (by rw [heq]; exact hK)
        | err e =>
          simp only [hp1] at heq
          injection heq with h1 h2
          rw [← h2] at hK
          exact hK
        | crash =>
          simp only [hp1] at heq
          injection heq with h1 h2
          rw [← h2] at hK
          exact hK
        | fuelOut =>
          simp only [hp1] at heq
          injection heq with h1 h2
          rw [← h2] at hK
          exact hK
      have hs1K : lookupA s1.index K = none :=
        interp_index_none_pre (fuel + 1) _ s1 K (by rw [hp1]; exact hst1K)
      have hstep : interp (fuel + 1) (.procT stm (some ⟨line⟩)) s1
          = (.ok, bufAppend s1 (termStr stm.subj) ⟨stm, some ⟨line⟩⟩) := by
        simp only [interp, procTStep, hpred, Bool.false_eq_true, if_false]
        rw [hsubj, hs1K]
      rw [hstep] at hp1
      injection hp1 with ho1 hst1
      subst ho1
      simp only [hstep] at heq
      have hsim1 : simR K (bufAppend s1 (termStr stm.subj) ⟨stm, some ⟨line⟩⟩) s2 := by
        rw [hsubj]
        exact simR_bufAppendK hsim _
      exact ihs _ s2 o s1' hsim1 heq hK

/-! Claim theorems. -/

/-- The builder stored at a key, with a dummy default, so concrete
witnesses can name the builder appearing in a hypothesis. -/
def bAt (st : PState) (k : String) : Bldr :=
  match lookupA st.index k with
  | some (some b) => b
  | _ => ⟨typeDocument, .documentK, {}⟩

theorem getScal_setScal_self (e : Entity) (f : String) (c : VStr) :
    getScal (setScal e f c) f = c := by
  simp [getScal, setScal, lookupA_insertA_self]

theorem getAnyL_pushAnyL (e : Entity) (f : String) (v : AnyLic) :
    getAnyL (pushAnyL e f v) f = getAnyL e f ++ [v] := by
  simp [getAnyL, pushAnyL, lookupA_insertA_self]

/-- C3: processTruple is exactly the three-way dispatch of parser.go: a
type-assertion triple delegates to setType on (subject, object, location)
and returns its result; otherwise a subject whose key has a Builder in the
index is dispatched to that Builder's apply and its error returned;
otherwise the statement is appended to the subject's buffer in arrival
order and no error is returned. -/
theorem processTruple_dispatch (fuel : Nat) (st : PState) (stm : Stmt)
    (meta : Option Meta) :
    (stm.pred = uri_nstype →
      processTruple (fuel + 1) st stm meta
        = interp fuel (.setT stm.subj stm.obj meta) st) ∧
    (stm.pred ≠ uri_nstype → ∀ b, lookupA st.index (termStr stm.subj) = some (some b) →
      processTruple (fuel + 1) st stm meta
        = interp fuel (.applyP (termStr stm.subj) stm.pred stm.obj meta) st) ∧
    (stm.pred ≠ uri_nstype → lookupA st.index (termStr stm.subj) = none →
      processTruple (fuel + 1) st stm meta
        = (.ok, bufAppend st (termStr stm.subj) ⟨stm, meta⟩)) := by
  have hstep : processTruple (fuel + 1) st stm meta
      = procTStep (interp fuel) st stm meta := rfl
  refine ⟨?_, ?_, ?_⟩
  · intro h
    rw [hstep]
    unfold procTStep
    rw [if_pos (by simp [h])]
  · intro h b hL
    rw [hstep]
    unfold procTStep
    rw [if_neg (by simp [h])]
    simp only [hL]
  · intro h hL
    rw [hstep]
    unfold procTStep
    rw [if_neg (by simp [h])]
    simp only [hL]

/-- Witness for C3 at a concrete buffering input. -/
theorem processTruple_dispatch_witness :
    processTruple 1 initState ⟨blank "w3", prefixT "name", .literalT "v"⟩ none
      = (.ok, bufAppend initState "w3" ⟨⟨blank "w3", prefixT "name", .literalT "v"⟩, none⟩) :=
  (processTruple_dispatch 0 initState ⟨blank "w3", prefixT "name", .literalT "v"⟩ none).2.2
    (by decide) rfl

/-- The single-valued update rules: upd, updCutPrefix, updCreator, updDate
and the checksum algorithm closure of parser.go. -/
def isSingleValued : UpdK → Bool
  | .cellK _ => true
  | .cellCutK _ _ => true
  | .algoK => true
  | _ => false

/-- The entity cell a single-valued rule writes. -/
def cellFieldOf : UpdK → String
  | .cellK f => f
  | .cellCutK _ f => f
  | _ => "algo"

/-- The value transformation a single-valued rule applies before storing. -/
def cellMkOf : UpdK → String → String
  | .cellCutK pfx _ => trimPfx pfx
  | .algoK => fun s => upperStr (replaceOnce s algoPfx)
  | _ => fun s => s

theorem applyUStep_single (rec : Rec) (st : PState) (key : String) (u : UpdK)
    (obj : Term) (meta : Option Meta) (hs : isSingleValued u = true) :
    applyUStep rec st key u obj meta
      = cellStep st key (cellFieldOf u) (cellMkOf u) obj meta := by
  cases u with
  | cellK f => rfl
  | cellCutK pfx f => rfl
  | algoK => rfl
  | listK f => exact absurd hs (by simp [isSingleValued])
  | refK t f => exact absurd hs (by simp [isSingleValued])
  | refListK t f => exact absurd hs (by simp [isSingleValued])
  | anyK f => exact absurd hs (by simp [isSingleValued])
  | anyListK f => exact absurd hs (by simp [isSingleValued])
  | memberK => exact absurd hs (by simp [isSingleValued])
  | nsTypeK => exact absurd hs (by simp [isSingleValued])

/-- C6: for every single-valued property of every builder kind, the first
write succeeds and stores the (transformed) value with its location, and a
second write to the same property on the same node returns the
Already-Defined parse error regardless of the value written, leaving the
builder, hence the stored first value and its location, unchanged. -/
theorem singleValued_first_write_wins (fuel1 fuel2 : Nat) (st : PState) (key : String)
    (b : Bldr) (prop : String) (u : UpdK) (obj1 obj2 : Term) (m1 m2 : Option Meta)
    (hk : lookupA st.index key = some (some b))
    (hu : updaters b.kind prop = some u)
    (hs : isSingleValued u = true)
    (hunset : (getScal b.ent (cellFieldOf u)).isSet = false) :
    ∃ st1 b1,
      interp (fuel1 + 1) (.applyU key u obj1 m1) st = (.ok, st1) ∧
      lookupA st1.index key = some (some b1) ∧
      getScal b1.ent (cellFieldOf u) = ⟨cellMkOf u (termStr obj1), m1, true⟩ ∧
      b1.t = b.t ∧ b1.kind = b.kind ∧
      interp (fuel2 + 1) (.applyU key u obj2 m2) st1
        = (.err (.parseErr .alreadyDefined m2), st1) := by
  have hstep1 : interp (fuel1 + 1) (.applyU key u obj1 m1) st
      = applyUStep (interp fuel1) st key u obj1 m1 := rfl
  rw [hstep1, applyUStep_single (interp fuel1) st key u obj1 m1 hs]
  unfold cellStep
  simp only [hk]
  rw [if_neg (by simp [hunset])]
  refine ⟨_, _, rfl, lookupA_insertA_self _ _ _, getScal_setScal_self _ _ _, rfl, rfl, ?_⟩
  have hstep2 : ∀ s : PState, interp (fuel2 + 1) (.applyU key u obj2 m2) s
      = applyUStep (interp fuel2) s key u obj2 m2 := fun _ => rfl
  rw [hstep2, applyUStep_single (interp fuel2) _ key u obj2 m2 hs]
  unfold cellStep
  simp only [lookupA_insertA_self]
  rw [if_pos (by simp [getScal_setScal_self])]

/-- Concrete state with one Package builder at key p1. -/
def c6state : PState := (setType 5 initState (blank "p1") typePackage (some ⟨1⟩)).2

/-- Witness for C6: a concrete double write of the Package name property. -/
theorem singleValued_first_write_wins_witness :
    ∃ st1 b1,
      interp 3 (.applyU "p1" (.cellK "name") (.literalT "alpha") (some ⟨2⟩)) c6state
        = (.ok, st1) ∧
      lookupA st1.index "p1" = some (some b1) ∧
      getScal b1.ent "name" = ⟨"alpha", some ⟨2⟩, true⟩ ∧
      b1.t = (bAt c6state "p1").t ∧ b1.kind = (bAt c6state "p1").kind ∧
      interp 3 (.applyU "p1" (.cellK "name") (.literalT "beta") (some ⟨3⟩)) st1
        = (.err (.parseErr .alreadyDefined (some ⟨3⟩)), st1) :=
  singleValued_first_write_wins 2 2 c6state "p1" (bAt c6state "p1") "name"
    (.cellK "name") (.literalT "alpha") (.literalT "beta") (some ⟨2⟩) (some ⟨3⟩)
    rfl rfl rfl rfl

/-- C7: compatibleTypes found need is true exactly when found equals need,
or need is the AnyLicence capability and found is one of License,
ExtractedLicensingInfo, ConjunctiveLicenseSet, DisjunctiveLicenseSet;
consequently reqType with the AnyLicence requirement accepts, unchanged, a
node whose builder carries any of those four type tags, and rejects a node
resolved with any other entity type tag (Package among them) with the
Incompatible-Type error. -/
theorem compatibleTypes_anyLicence :
    (∀ found need : Term, compatibleTypes found need = true ↔
      (found = need ∨ (need = typeAnyLicence ∧
        (found = typeLicence ∨ found = typeExtractedLicence ∨
          found = typeConjunctiveSet ∨ found = typeDisjunctiveSet)))) ∧
    (∀ (fuel : Nat) (st : PState) (node : Term) (b : Bldr),
      lookupA st.index (termStr node) = some (some b) →
      ((b.t = typeLicence ∨ b.t = typeExtractedLicence ∨
          b.t = typeConjunctiveSet ∨ b.t = typeDisjunctiveSet) →
        reqType (fuel + 1) st node typeAnyLicence = (.ok, st)) ∧
      (b.t ∈ [typeDocument, typeCreationInfo, typePackage, typeFile,
          typeChecksum, typeVerificationCode, typeReview, typeArtifactOf,
          typeAbstractLicenceSet] →
        reqType (fuel + 1) st node typeAnyLicence
          = (.err (.goErr (.incompatibleTypes (termStr node) (termStr b.t)
              (termStr typeAnyLicence))), st))) := by
  constructor
  · intro found need
    by_cases h1 : found = need
    · simp [compatibleTypes, equalTypes, h1]
    · by_cases h2 : need = typeAnyLicence
      · subst h2
        simp only [compatibleTypes, equalTypes, List.any_cons, List.any_nil,
          Bool.or_false, beq_iff_eq, if_neg h1]
        by_cases h3 : found = typeExtractedLicence
        · simp [h3]
        · by_cases h4 : found = typeConjunctiveSet
          · simp [h3, h4]
          · by_cases h5 : found = typeDisjunctiveSet
            · simp [h3, h4, h5]
            · by_cases h6 : found = typeLicence
              · simp [h3, h4, h5, h6]
              · simp [h3, h4, h5, h6, h1]
      · simp [compatibleTypes, equalTypes, h1, h2]
  · intro fuel st node b hk
    have hstep : reqType (fuel + 1) st node typeAnyLicence
        = reqTStep (interp fuel) st node typeAnyLicence := rfl
    constructor
    · intro h4
      rw [hstep]
      unfold reqTStep
      simp only [hk]
      rcases h4 with h | h | h | h
      · rw [if_neg (by rw [h]; decide)]
      · rw [if_neg (by rw [h]; decide)]
      · rw [if_neg (by rw [h]; decide)]
      · rw [if_neg (by rw [h]; decide)]
    · intro h9
      rw [hstep]
      unfold reqTStep
      simp only [hk]
      simp only [List.mem_cons, List.not_mem_nil, or_false] at h9
      rcases h9 with h | h | h | h | h | h | h | h | h <;> rw [h, if_pos (by decide)]

/-- Witness for C7: the concrete Package builder at p1 is rejected for the
AnyLicence requirement. -/
theorem compatibleTypes_anyLicence_witness :
    reqType 3 c6state (blank "p1") typeAnyLicence
      = (.err (.goErr (.incompatibleTypes "p1" (termStr typePackage)
          (termStr typeAnyLicence))), c6state) :=
  ((compatibleTypes_anyLicence).2 2 c6state (blank "p1") (bAt c6state "p1") rfl).2
    (by decide)

/-- C9: setType invoked with the generic AnyLicence type on a literal node
term constructs no builder variant: the nil builder is registered in the
index and then dereferenced, so instead of an Unknown-Type or
Incompatible-Type error the call crashes with a nil-pointer dereference,
leaving the nil entry registered. -/
theorem setType_literal_anyLicence_crashes (fuel : Nat) (st : PState) (s : String)
    (meta : Option Meta) (habs : lookupA st.index s = none) :
    ∃ st', setType (fuel + 3) st (.literalT s) typeAnyLicence meta = (.crash, st') ∧
      lookupA st'.index s = some none := by
  have hstep : setType (fuel + 3) st (.literalT s) typeAnyLicence meta
      = setTStep (interp (fuel + 2)) st (.literalT s) typeAnyLicence meta := rfl
  rw [hstep]
  unfold setTStep
  simp only [termStr, habs]
  have hnb : newBuilder (.literalT s) typeAnyLicence meta = some none := rfl
  simp only [hnb]
  have hreg : regState st s typeAnyLicence none
      = { st with index := insertA st.index s none } := rfl
  simp only [hreg]
  have hlook : lookupA (insertA st.index s none) s = some none :=
    lookupA_insertA_self _ _ _
  cases hbuf : lookupA ({ st with index := insertA st.index s none } : PState).buffer s with
  | none =>
    have hrb : interp (fuel + 2) (.runBuf s ((none : Option (List BufEntry)).getD []))
        { st with index := insertA st.index s none }
        = (.ok, { st with index := insertA st.index s none }) := rfl
    simp only [hbuf, hrb]
    exact ⟨_, rfl, hlook⟩
  | some l =>
    cases l with
    | nil =>
      have hrb : interp (fuel + 2) (.runBuf s ((some ([] : List BufEntry)).getD []))
          { st with index := insertA st.index s none }
          = (.ok, { st with index := insertA st.index s none }) := rfl
      simp only [hbuf, hrb]
      exact ⟨_, rfl, hlook⟩
    | cons e rest =>
      have happ : interp (fuel + 1)
          (.applyP s e.stm.pred e.stm.obj e.meta)
          { st with index := insertA st.index s none }
          = (.crash, { st with index := insertA st.index s none }) := by
        have h1 : interp (fuel + 1)
            (.applyP s e.stm.pred e.stm.obj e.meta)
            { st with index := insertA st.index s none }
            = applyPStep (interp fuel)
              { st with index := insertA st.index s none }
              s e.stm.pred e.stm.obj e.meta := rfl
        rw [h1]
        unfold applyPStep
        simp only [hlook]
      have hrb : interp (fuel + 2) (.runBuf s ((some (e :: rest)).getD []))
          { st with index := insertA st.index s none }
          = (.crash, { st with index := insertA st.index s none }) := by
        have h1 : interp (fuel + 2) (.runBuf s ((some (e :: rest)).getD []))
            { st with index := insertA st.index s none }
            = runBufStep (interp (fuel + 1))
              { st with index := insertA st.index s none } s (e :: rest) := rfl
        rw [h1]
        unfold runBufStep
        simp only [happ]
      simp only [hbuf, hrb]
      exact ⟨_, rfl, hlook⟩

/-- Witness for C9: a literal node typed AnyLicenseInfo from the fresh
state. -/
theorem setType_literal_anyLicence_crashes_witness :
    ∃ st', setType 3 initState (.literalT "lit1") typeAnyLicence (some ⟨7⟩)
        = (.crash, st') ∧ lookupA st'.index "lit1" = some none :=
  setType_literal_anyLicence_crashes 0 initState "lit1" (some ⟨7⟩) rfl

/-- C5 (amended): once a licence-set builder's type tag is
ConjunctiveLicenseSet (whether promoted or directly constructed), a later
type assertion naming DisjunctiveLicenseSet fails the parse, but with the
Already-Defined parse error of the promotion updater (the ns:type slot is
no longer usable), not with an Incompatible-Type error. -/
theorem conjunctiveSet_retype_disjunctive (fuel : Nat) (st : PState) (node : Term)
    (b : Bldr) (meta : Option Meta)
    (hk : lookupA st.index (termStr node) = some (some b))
    (hkind : b.kind = .licSetK)
    (ht : b.t = typeConjunctiveSet) :
    setType (fuel + 3) st node typeDisjunctiveSet meta
      = (.err (.parseErr .alreadyDefined meta), st) := by
  have h1 : setType (fuel + 3) st node typeDisjunctiveSet meta
      = setTStep (interp (fuel + 2)) st node typeDisjunctiveSet meta := rfl
  rw [h1]
  unfold setTStep
  simp only [hk]
  rw [if_pos (by unfold bHas; rw [ht, hkind]; decide)]
  have h2 : interp (fuel + 2)
      (.applyP (termStr node) (uri "ns:type") typeDisjunctiveSet meta) st
      = applyPStep (interp (fuel + 1)) st (termStr node) (uri "ns:type")
        typeDisjunctiveSet meta := rfl
  rw [h2]
  unfold applyPStep
  simp only [hk]
  have hsp : shortPfx (termStr (uri "ns:type")) = "ns:type" := rfl
  have hupd : updaters b.kind (shortPfx (termStr (uri "ns:type"))) = some .nsTypeK := by
    rw [hsp, hkind]
    rfl
  simp only [hupd]
  have h3 : interp (fuel + 1)
      (.applyU (termStr node) .nsTypeK typeDisjunctiveSet meta) st
      = applyUStep (interp fuel) st (termStr node) .nsTypeK typeDisjunctiveSet meta := rfl
  rw [h3]
  unfold applyUStep nsTypeStep
  simp only [hk]
  rw [if_pos (by rw [ht]; decide)]

/-- Concrete state with a directly constructed ConjunctiveLicenseSet at s1. -/
def c5state : PState := (setType 5 initState (blank "s1") typeConjunctiveSet (some ⟨1⟩)).2

/-- Witness for C5's amended statement at the concrete conjunctive set. -/
theorem conjunctiveSet_retype_disjunctive_witness :
    setType 8 c5state (blank "s1") typeDisjunctiveSet (some ⟨2⟩)
      = (.err (.parseErr .alreadyDefined (some ⟨2⟩)), c5state) :=
  conjunctiveSet_retype_disjunctive 5 c5state (blank "s1") (bAt c5state "s1")
    (some ⟨2⟩) rfl rfl rfl

/-- Stream asserting a set conjunctive and then disjunctive. -/
def c5stms : List (Stmt × Nat) :=
  [ (⟨blank "s1", uri_nstype, typeConjunctiveSet⟩, 1),
    (⟨blank "s1", uri_nstype, typeDisjunctiveSet⟩, 2) ]

/-- Counterexample for C5 as stated: retyping the conjunctive set yields
the Already-Defined parse error, not the Incompatible-Type error the claim
names. -/
theorem conjunctiveSet_retype_not_incompatible :
    (ParseStream 20 c5stms).1 = .err (.parseErr .alreadyDefined (some ⟨2⟩)) ∧
    (ParseStream 20 c5stms).1
      ≠ .err (.parseErr (.incompatibleTypes "s1" (termStr typeConjunctiveSet)
          (termStr typeDisjunctiveSet)) (some ⟨2⟩)) := by
  decide

/-- C1: a node resolved as an AbstractLicenceSet that has accumulated
members is, on a later type assertion naming DisjunctiveLicenseSet,
promoted in place: the builder at the same index key gets the
DisjunctiveLicenseSet tag and backing form with exactly the accumulated
members in order, every other index entry is untouched (the node keeps its
identity), and every subsequent successful member write on the key appends
exactly one licence to the promoted entity, preserving its tag, kind and
form. -/
theorem abstractSet_promotes_disjunctive (fuel : Nat) (st : PState) (node : Term)
    (b : Bldr) (meta : Option Meta)
    (hk : lookupA st.index (termStr node) = some (some b))
    (hkind : b.kind = .licSetK)
    (ht : b.t = typeAbstractLicenceSet) :
    (∃ b', setType (fuel + 3) st node typeDisjunctiveSet meta
        = (.ok, { st with index := insertA st.index (termStr node) (some b') }) ∧
      b'.t = typeDisjunctiveSet ∧ b'.kind = .licSetK ∧ b'.ent.form = .disjS ∧
      getAnyL b'.ent "members" = getAnyL b.ent "members" ∧
      (∀ k, k ≠ termStr node →
        lookupA (insertA st.index (termStr node) (some b')) k
          = lookupA st.index k)) ∧
    (∀ (fuel2 : Nat) (st2 st3 : PState) (b2 : Bldr) (obj : Term) (m2 : Option Meta),
      lookupA st2.index (termStr node) = some (some b2) → b2.kind = .licSetK →
      interp (fuel2 + 2) (.applyP (termStr node) (prefixT "member") obj m2) st2
        = (.ok, st3) →
      ∃ lic b3, lookupA st3.index (termStr node) = some (some b3) ∧
        getAnyL b3.ent "members" = getAnyL b2.ent "members" ++ [lic] ∧
        b3.t = b2.t ∧ b3.kind = b2.kind ∧ b3.ent.form = b2.ent.form) := by
  constructor
  · have h1 : setType (fuel + 3) st node typeDisjunctiveSet meta
        = setTStep (interp (fuel + 2)) st node typeDisjunctiveSet meta := rfl
    rw [h1]
    unfold setTStep
    simp only [hk]
    rw [if_pos (by unfold bHas; rw [ht, hkind]; decide)]
    have h2 : interp (fuel + 2)
        (.applyP (termStr node) (uri "ns:type") typeDisjunctiveSet meta) st
        = applyPStep (interp (fuel + 1)) st (termStr node) (uri "ns:type")
          typeDisjunctiveSet meta := rfl
    rw [h2]
    unfold applyPStep
    simp only [hk]
    have hupd : updaters b.kind (shortPfx (termStr (uri "ns:type")))
        = some .nsTypeK := by
      rw [show shortPfx (termStr (uri "ns:type")) = "ns:type" from rfl, hkind]
      rfl
    simp only [hupd]
    have h3 : interp (fuel + 1)
        (.applyU (termStr node) .nsTypeK typeDisjunctiveSet meta) st
        = applyUStep (interp fuel) st (termStr node) .nsTypeK
          typeDisjunctiveSet meta := rfl
    rw [h3]
    unfold applyUStep nsTypeStep
    simp only [hk]
    rw [if_neg (by rw [ht]; decide)]
    rw [if_neg (by decide)]
    rw [if_pos (by decide)]
    refine ⟨_, rfl, rfl, hkind, rfl, rfl, ?_⟩
    intro k hkk
    exact lookupA_insertA_ne _ _ _ _ (Ne.symm hkk)
  · intro fuel2 st2 st3 b2 obj m2 hk2 hkind2 happ
    have h1 : interp (fuel2 + 2)
        (.applyP (termStr node) (prefixT "member") obj m2) st2
        = applyPStep (interp (fuel2 + 1)) st2 (termStr node) (prefixT "member")
          obj m2 := rfl
    rw [h1] at happ
    unfold applyPStep at happ
    simp only [hk2] at happ
    have hupd : updaters b2.kind (shortPfx (termStr (prefixT "member")))
        = some .memberK := by
      rw [show shortPfx (termStr (prefixT "member")) = "member" by decide, hkind2]
      rfl
    simp only [hupd] at happ
    have h2 : interp (fuel2 + 1)
        (.applyU (termStr node) .memberK obj m2) st2
        = applyUStep (interp fuel2) st2 (termStr node) .memberK obj m2 := rfl
    rw [h2] at happ
    unfold applyUStep memberStep at happ
    rcases hreq : interp fuel2 (.reqT obj typeAnyLicence) st2 with ⟨or, st1⟩
    have hfr : lookupA st1.index (termStr node) = some (some b2) := by
      have h := interp_frame fuel2 (.reqT obj typeAnyLicence) st2 (termStr node)
        (some b2) hk2 (fun hf => hf)
      rw [hreq] at h
      exact h
    cases or with
    | ok =>
      simp only [hreq] at happ
      rcases hany : anyFromState st1 (termStr obj) with e | lic
      · simp only [hany] at happ
        injection happ with ho hs
        exact Outcome.noConfusion ho
      · simp only [hany] at happ
        injection happ with ho hs
        subst hs
        refine ⟨lic, { b2 with ent := pushAnyL b2.ent "members" lic }, ?_, ?_, rfl, rfl, rfl⟩
        · unfold modB
          simp only [hfr]
          exact lookupA_insertA_self _ _ _
        · exact getAnyL_pushAnyL _ _ _
    | err e =>
      simp only [hreq] at happ
      injection happ with ho hs
      exact Outcome.noConfusion ho
    | crash =>
      simp only [hreq] at happ
      injection happ with ho hs
      exact Outcome.noConfusion ho
    | fuelOut =>
      simp only [hreq] at happ
      injection happ with ho hs
      exact Outcome.noConfusion ho

/-- Stream that accumulates two members on an abstract licence set. -/
def c1stms : List (Stmt × Nat) :=
  [ (⟨blank "s1", uri_nstype, typeAnyLicence⟩, 1),
    (⟨blank "s1", prefixT "member", uri "http://spdx.org/licenses/MIT"⟩, 2),
    (⟨blank "s1", prefixT "member", uri "http://spdx.org/licenses/GPL-2.0"⟩, 3) ]

/-- The state holding the abstract set with members MIT, GPL-2.0. -/
def c1state : PState := (ParseStream 20 c1stms).2

/-- Witness for C1's promotion at the concrete two-member abstract set. -/
theorem abstractSet_promotes_disjunctive_witness :
    ∃ b', setType 20 c1state (blank "s1") typeDisjunctiveSet (some ⟨4⟩)
        = (.ok, { c1state with index := insertA c1state.index "s1" (some b') }) ∧
      b'.t = typeDisjunctiveSet ∧ b'.kind = .licSetK ∧ b'.ent.form = .disjS ∧
      getAnyL b'.ent "members" = getAnyL (bAt c1state "s1").ent "members" ∧
      (∀ k, k ≠ "s1" → lookupA (insertA c1state.index "s1" (some b')) k
        = lookupA c1state.index k) :=
  (abstractSet_promotes_disjunctive 17 c1state (blank "s1") (bAt c1state "s1")
    (some ⟨4⟩) rfl rfl rfl).1

/-- Drain outcome of a registered builder entry: the nil entry crashes. -/
def drainOut (optB : Option Bldr) : Outcome :=
  match optB with
  | none => .crash
  | some _ => .ok

/-- C4 (amended): setType on an unresolved key with a recognized type
registers the constructed builder in the index first, replays the key's
buffered statements through the builder's dispatch in FIFO order stopping
at the first failure, and deletes the buffer entry only when the whole
replay succeeds: after a failed replay the buffer entry is unchanged while
the builder stays registered, so a key can hold both a builder and a buffer
entry after setType returns. -/
theorem setType_registers_then_drains (fuel : Nat) (st : PState) (node t : Term)
    (meta : Option Meta) (optB : Option Bldr)
    (habs : lookupA st.index (termStr node) = none)
    (hnew : newBuilder node t meta = some optB) :
    lookupA (regState st (termStr node) t optB).index (termStr node) = some optB ∧
    ∃ o st2, interp (fuel + 1) (.runBuf (termStr node)
        ((lookupA (regState st (termStr node) t optB).buffer (termStr node)).getD []))
        (regState st (termStr node) t optB) = (o, st2) ∧
      (∀ b0, o = .ok → optB = some b0 →
        setType (fuel + 2) st node t meta
          = (.ok, { st2 with buffer := eraseA st2.buffer (termStr node) })) ∧
      (∀ e, o = .err e →
        setType (fuel + 2) st node t meta = (.err e, st2) ∧
        lookupA st2.buffer (termStr node) = lookupA st.buffer (termStr node) ∧
        ∃ ob, lookupA st2.index (termStr node) = some ob) := by
  have hregL : lookupA (regState st (termStr node) t optB).index (termStr node)
      = some optB := by
    rw [regState_index]
    exact lookupA_insertA_self _ _ _
  refine ⟨hregL, ?_⟩
  have hmain : setType (fuel + 2) st node t meta
      = (match interp (fuel + 1) (.runBuf (termStr node)
          ((lookupA (regState st (termStr node) t optB).buffer (termStr node)).getD []))
          (regState st (termStr node) t optB) with
        | (.ok, s) =>
          (drainOut optB, { s with buffer := eraseA s.buffer (termStr node) })
        | (o2, s) => (o2, s)) := by
    have h1 : setType (fuel + 2) st node t meta
        = setTStep (interp (fuel + 1)) st node t meta := rfl
    rw [h1]
    unfold setTStep
    rw [habs]
    dsimp only
    rw [hnew]
    rfl
  rcases hrb : interp (fuel + 1) (.runBuf (termStr node)
      ((lookupA (regState st (termStr node) t optB).buffer (termStr node)).getD []))
      (regState st (termStr node) t optB) with ⟨o, st2⟩
  rw [hrb] at hmain
  refine ⟨o, st2, rfl, ?_, ?_⟩
  · intro b0 ho hb0
    subst ho
    subst hb0
    exact hmain
  · intro e ho
    subst ho
    refine ⟨hmain, ?_, ?_⟩
    · have hb := (interp_stepRel (fuel + 1) (.runBuf (termStr node)
        ((lookupA (regState st (termStr node) t optB).buffer (termStr node)).getD []))
        (regState st (termStr node) t optB)).2 (termStr node) (by rw [hregL]; simp)
      rw [hrb] at hb
      rw [hb, regState_buffer]
    · obtain ⟨ob', hob⟩ := (interp_stepRel (fuel + 1) (.runBuf (termStr node)
        ((lookupA (regState st (termStr node) t optB).buffer (termStr node)).getD []))
        (regState st (termStr node) t optB)).1 (termStr node) optB hregL
      rw [hrb] at hob
      exact ⟨ob', hob⟩

/-- Stream whose first statement is buffered and fails on replay. -/
def c4stms : List (Stmt × Nat) :=
  [ (⟨blank "p1", prefixT "bogusProp", .literalT "v"⟩, 1),
    (⟨blank "p1", uri_nstype, typePackage⟩, 2) ]

/-- Whether a key has a builder in the index. -/
def hasBldr (st : PState) (k : String) : Bool :=
  match lookupA st.index k with
  | some (some _) => true
  | _ => false

/-- Counterexample for C4 as stated: after the replay of p1's buffer fails,
the parse stops with the replay error and the final state holds both a
builder and a buffer entry for p1, so the buffer entry was not deleted. -/
theorem setType_failed_drain_keeps_buffer :
    hasBldr (ParseStream 20 c4stms).2 "p1" = true ∧
    (lookupA (ParseStream 20 c4stms).2.buffer "p1").isSome = true ∧
    (ParseStream 20 c4stms).1
      = .err (.parseErr (.propertyNotSupported "bogusProp" (termStr typePackage))
          (some ⟨1⟩)) := by
  decide

/-- The state holding one buffered statement for p1. -/
def c4state : PState :=
  (ParseStream 20 [ ((⟨blank "p1", prefixT "bogusProp", .literalT "v"⟩ : Stmt), 1) ]).2

/-- Witness for C4's amended statement at the concrete buffered state. -/
theorem setType_registers_then_drains_witness :
    lookupA (regState c4state "p1" typePackage (some (packageMap (some ⟨2⟩)))).index "p1"
      = some (some (packageMap (some ⟨2⟩))) ∧
    ∃ o st2, interp 19 (.runBuf "p1"
        ((lookupA (regState c4state "p1" typePackage
          (some (packageMap (some ⟨2⟩)))).buffer "p1").getD []))
        (regState c4state "p1" typePackage (some (packageMap (some ⟨2⟩)))) = (o, st2) ∧
      (∀ b0, o = .ok → some (packageMap (some ⟨2⟩)) = some b0 →
        setType 20 c4state (blank "p1") typePackage (some ⟨2⟩)
          = (.ok, { st2 with buffer := eraseA st2.buffer "p1" })) ∧
      (∀ e, o = .err e →
        setType 20 c4state (blank "p1") typePackage (some ⟨2⟩) = (.err e, st2) ∧
        lookupA st2.buffer "p1" = lookupA c4state.buffer "p1" ∧
        ∃ ob, lookupA st2.index "p1" = some ob) :=
  setType_registers_then_drains 18 c4state (blank "p1") typePackage (some ⟨2⟩)
    (some (packageMap (some ⟨2⟩))) rfl rfl

/-- The error carried by an outcome, if any. -/
def errOf : Outcome → Option PErr
  | .err e => some e
  | _ => none

/-- Stream whose checksum reference finds its target already resolved to an
incompatible kind, so the failure comes from reqType. -/
def c8stms : List (Stmt × Nat) :=
  [ (⟨blank "c1", uri_nstype, typePackage⟩, 1),
    (⟨blank "p1", uri_nstype, typePackage⟩, 2),
    (⟨blank "p1", prefixT "checksum", blank "c1"⟩, 3) ]

/-- Counterexample for C8 as stated: the Incompatible-Type error raised when
the checksum reference finds node c1 already resolved as a Package surfaces
from the parse with no source location at all (metaOf = none), because
reqType builds it with a plain formatted error. -/
theorem parse_error_without_location :
    (ParseStream 20 c8stms).1
      = .err (.goErr (.incompatibleTypes "c1" (termStr typePackage)
          (termStr typeChecksum))) ∧
    (errOf (ParseStream 20 c8stms).1).map PErr.metaOf = some none := by
  decide

/-- C8 (amended): an Incompatible-Type failure detected by setType is a
parse error carrying the node and type identifiers together with the source
location of the triggering triple, but the same incompatibility detected by
reqType on behalf of a reference-valued property is surfaced as a plain
formatted error that carries the identifiers and no source location. -/
theorem error_location_carriage (fuel : Nat) (st : PState) (node t : Term)
    (b : Bldr) (meta : Option Meta)
    (hb : lookupA st.index (termStr node) = some (some b))
    (hinc : compatibleTypes b.t t = false)
    (hns : bHas b "ns:type" = false) :
    setType (fuel + 1) st node t meta
      = (.err (.parseErr
          (.incompatibleTypes (termStr node) (termStr b.t) (termStr t)) meta), st) ∧
    PErr.metaOf (.parseErr
      (.incompatibleTypes (termStr node) (termStr b.t) (termStr t)) meta) = meta ∧
    reqType (fuel + 1) st node t
      = (.err (.goErr
          (.incompatibleTypes (termStr node) (termStr b.t) (termStr t))), st) ∧
    PErr.metaOf (.goErr
      (.incompatibleTypes (termStr node) (termStr b.t) (termStr t))) = none := by
  have heq : equalTypes b.t [t] = false := by
    cases hE : equalTypes b.t [t] with
    | false => rfl
    | true =>
      unfold compatibleTypes at hinc
      rw [hE] at hinc
      simp at hinc
  refine ⟨?_, rfl, ?_, rfl⟩
  · have h1 : setType (fuel + 1) st node t meta
        = setTStep (interp fuel) st node t meta := rfl
    rw [h1]
    unfold setTStep
    rw [hb]
    dsimp only
    rw [heq, hns, hinc]
    rfl
  · have h1 : reqType (fuel + 1) st node t
        = reqTStep (interp fuel) st node t := rfl
    rw [h1]
    unfold reqTStep
    rw [hb]
    dsimp only
    rw [hinc]
    rfl

/-- The state holding c1 resolved as a Package builder. -/
def c8state : PState :=
  (ParseStream 20 [ ((⟨blank "c1", uri_nstype, typePackage⟩ : Stmt), 1) ]).2

/-- Witness for C8's amended statement: retyping c1 as a Checksum fails with
a located parse error through setType and a location-free error through
reqType. -/
theorem error_location_carriage_witness :
    setType 20 c8state (blank "c1") typeChecksum (some ⟨3⟩)
      = (.err (.parseErr
          (.incompatibleTypes (termStr (blank "c1")) (termStr (bAt c8state "c1").t)
            (termStr typeChecksum)) (some ⟨3⟩)), c8state) ∧
    PErr.metaOf (.parseErr
      (.incompatibleTypes (termStr (blank "c1")) (termStr (bAt c8state "c1").t)
        (termStr typeChecksum)) (some ⟨3⟩)) = some ⟨3⟩ ∧
    reqType 20 c8state (blank "c1") typeChecksum
      = (.err (.goErr
          (.incompatibleTypes (termStr (blank "c1")) (termStr (bAt c8state "c1").t)
            (termStr typeChecksum))), c8state) ∧
    PErr.metaOf (.goErr
      (.incompatibleTypes (termStr (blank "c1")) (termStr (bAt c8state "c1").t)
        (termStr typeChecksum))) = none :=
  error_location_carriage 19 c8state (blank "c1") typeChecksum (bAt c8state "c1")
    (some ⟨3⟩) rfl (by decide) (by decide)

/-- Strip the source location from a scalar cell. -/
def eraseVStr (c : VStr) : VStr := { c with meta := none }

/-- Strip the source location from a list element. -/
def eraseValS (v : ValS) : ValS := { v with meta := none }

mutual
/-- Strip every source location inside an AnyLicence value. -/
def eraseAny : AnyLic → AnyLic
  | .licRef i _ => .licRef i none
  | .extrPtr k => .extrPtr k
  | .conjCopy _ ms => .conjCopy none (eraseAnyL ms)
  | .disjCopy _ ms => .disjCopy none (eraseAnyL ms)
/-- Strip every source location inside a list of AnyLicence values. -/
def eraseAnyL : List AnyLic → List AnyLic
  | [] => []
  | a :: rest => eraseAny a :: eraseAnyL rest
end

/-- Strip every source location from an entity's own meta and from all its
field values, keeping everything else. -/
def eraseEnt (e : Entity) : Entity :=
  { meta := none,
    scal := e.scal.map (fun p => (p.1, eraseVStr p.2)),
    lists := e.lists.map (fun p => (p.1, p.2.map eraseValS)),
    refS := e.refS,
    refL := e.refL,
    anyS := e.anyS.map (fun p => (p.1, p.2.map eraseAny)),
    anyL := e.anyL.map (fun p => (p.1, eraseAnyL p.2)),
    form := e.form }

/-- Strip source locations from a builder's entity. -/
def eraseBldr (b : Bldr) : Bldr := { b with ent := eraseEnt b.ent }

/-- Strip source locations from every entity in the index. -/
def eraseIndex (ix : List (String × Option Bldr)) : List (String × Option Bldr) :=
  ix.map (fun p => (p.1, p.2.map eraseBldr))

/-- Document and creationInfo: the target's type assertion first. -/
def c2aStms : List (Stmt × Nat) :=
  [ (⟨uri "d", uri_nstype, typeDocument⟩, 1),
    (⟨blank "m1", uri_nstype, typeCreationInfo⟩, 2),
    (⟨uri "d", prefixT "creationInfo", blank "m1"⟩, 3) ]

/-- Document and creationInfo: the reference first. -/
def c2bStms : List (Stmt × Nat) :=
  [ (⟨uri "d", uri_nstype, typeDocument⟩, 1),
    (⟨uri "d", prefixT "creationInfo", blank "m1"⟩, 2),
    (⟨blank "m1", uri_nstype, typeCreationInfo⟩, 3) ]


/-- Counterexample for C2 as stated: both orders parse successfully and the
Document reaches the CreationInfo node m1 through its creationInfo field in
both, but m1's entity records source location 2 when its type triple comes
first and no location at all when the reference comes first (reqType
synthesizes the type with a nil location), so the returned documents are not
identical in all fields of every reachable entity. -/
theorem reference_order_changes_document :
    (ParseStream 20 c2aStms).1 = .ok ∧ (ParseStream 20 c2bStms).1 = .ok ∧
    getRefS (bAt (ParseStream 20 c2aStms).2 "d").ent "creationInfo" = some "m1" ∧
    getRefS (bAt (ParseStream 20 c2bStms).2 "d").ent "creationInfo" = some "m1" ∧
    (bAt (ParseStream 20 c2aStms).2 "m1").ent.meta = some ⟨2⟩ ∧
    (bAt (ParseStream 20 c2bStms).2 "m1").ent.meta = none := by
  decide

/-- C10: non-type statements for a key that never receives a builder during
the whole stream are silently discarded: deleting them from the stream
changes neither the outcome (no structural error is ever reported for them)
nor the index nor the root document. -/
theorem parse_discards_untyped_statements (fuel : Nat) (stms : List (Stmt × Nat))
    (K : String) (o : Outcome) (s1 : PState)
    (hrun : ParseStream (fuel + 1) stms = (o, s1))
    (hK : lookupA s1.index K = none) :
    ∃ s2, ParseStream (fuel + 1) (stms.filter (keepStmt K)) = (o, s2) ∧
      s2.index = s1.index ∧ s2.doc = s1.doc := by
  obtain ⟨s2, h2, hsim⟩ := runStream_sim fuel K stms initState initState o s1
    (simR_refl K initState) hrun hK
  exact ⟨s2, h2, hsim.1.symm, hsim.2.1.symm⟩

/-- A stream with a stray property statement about the never-typed key zz. -/
def c10stms : List (Stmt × Nat) :=
  [ (⟨uri "d", uri_nstype, typeDocument⟩, 1),
    (⟨blank "zz", prefixT "name", .literalT "x"⟩, 2),
    (⟨uri "d", prefixT "specVersion", .literalT "SPDX-1.2"⟩, 3) ]

/-- Witness for C10 at the concrete stream: dropping zz's stray statement
leaves the outcome, index and document unchanged. -/
theorem parse_discards_untyped_statements_witness :
    ∃ s2, ParseStream 20 (c10stms.filter (keepStmt "zz"))
        = ((ParseStream 20 c10stms).1, s2) ∧
      s2.index = (ParseStream 20 c10stms).2.index ∧
      s2.doc = (ParseStream 20 c10stms).2.doc :=
  parse_discards_untyped_statements 19 c10stms "zz" (ParseStream 20 c10stms).1
    (ParseStream 20 c10stms).2 rfl rfl

/-! Location-erasure congruence: the engine's control flow never reads a
stored source location, so two states whose indexes agree after erasing all
locations (and whose buffers and doc agree exactly) stay in lockstep. -/

/-- Association-list lookup commutes with mapping the values. -/
theorem lookupA_map {α β : Type} (g : α → β) (l : List (String × α)) (k : String) :
    lookupA (l.map (fun p => (p.1, g p.2))) k = (lookupA l k).map g := by
  induction l with
  | nil => rfl
  | cons p rest ih =>
    obtain ⟨a, v⟩ := p
    simp only [List.map_cons, lookupA]
    by_cases hk : a = k
    · simp [hk]
    · simp [hk, ih]

/-- Association-list insert commutes with mapping the values. -/
theorem insertA_map {α β : Type} (g : α → β) (l : List (String × α)) (k : String)
    (v : α) :
    (insertA l k v).map (fun p => (p.1, g p.2))
      = insertA (l.map (fun p => (p.1, g p.2))) k (g v) := by
  induction l with
  | nil => rfl
  | cons p rest ih =>
    obtain ⟨a, w⟩ := p
    simp only [insertA, List.map_cons]
    by_cases hk : a = k
    · simp [hk, insertA]
    · simp [hk, insertA, ih]

theorem option_getD_map {α β : Type} (g : α → β) (x : Option α) (d : α) :
    (x.map g).getD (g d) = g (x.getD d) := by
  cases x <;> rfl

theorem eraseAnyL_append (a b : List AnyLic) :
    eraseAnyL (a ++ b) = eraseAnyL a ++ eraseAnyL b := by
  induction a with
  | nil => simp [eraseAnyL]
  | cons x xs ih => simp [eraseAnyL, ih]

/-- States that agree up to recorded source locations: indexes equal after
erasing every location, buffers and root document equal exactly. -/
def eqE (s1 s2 : PState) : Prop :=
  eraseIndex s1.index = eraseIndex s2.index ∧ s1.buffer = s2.buffer ∧
    s1.doc = s2.doc

theorem eqE_refl (s : PState) : eqE s s := ⟨rfl, rfl, rfl⟩

theorem lookupA_eraseIndex (ix : List (String × Option Bldr)) (k : String) :
    lookupA (eraseIndex ix) k = (lookupA ix k).map (Option.map eraseBldr) := by
  unfold eraseIndex
  rw [lookupA_map (Option.map eraseBldr)]

theorem eraseIndex_insertA (ix : List (String × Option Bldr)) (k : String)
    (v : Option Bldr) :
    eraseIndex (insertA ix k v) = insertA (eraseIndex ix) k (v.map eraseBldr) := by
  unfold eraseIndex
  rw [insertA_map (Option.map eraseBldr)]

theorem eqE_lookup {s1 s2 : PState} (h : eqE s1 s2) (k : String) :
    (lookupA s1.index k).map (Option.map eraseBldr)
      = (lookupA s2.index k).map (Option.map eraseBldr) := by
  rw [← lookupA_eraseIndex, ← lookupA_eraseIndex, h.1]

theorem eqE_lookup_none {s1 s2 : PState} (h : eqE s1 s2) (k : String)
    (h1 : lookupA s1.index k = none) : lookupA s2.index k = none := by
  have h2 := eqE_lookup h k
  rw [h1] at h2
  cases hy : lookupA s2.index k with
  | none => rfl
  | some ob =>
    rw [hy] at h2
    exact Option.noConfusion h2

theorem eqE_lookup_nil {s1 s2 : PState} (h : eqE s1 s2) (k : String)
    (h1 : lookupA s1.index k = some none) : lookupA s2.index k = some none := by
  have h2 := eqE_lookup h k
  rw [h1] at h2
  cases hy : lookupA s2.index k with
  | none =>
    rw [hy] at h2
    exact Option.noConfusion h2
  | some ob =>
    rw [hy] at h2
    cases ob with
    | none => rfl
    | some b =>
      simp only [Option.map] at h2
      injection h2 with h3
      exact Option.noConfusion h3

theorem eqE_lookup_some {s1 s2 : PState} (h : eqE s1 s2) (k : String) {b1 : Bldr}
    (h1 : lookupA s1.index k = some (some b1)) :
    ∃ b2, lookupA s2.index k = some (some b2) ∧ eraseBldr b1 = eraseBldr b2 := by
  have h2 := eqE_lookup h k
  rw [h1] at h2
  cases hy : lookupA s2.index k with
  | none =>
    rw [hy] at h2
    exact Option.noConfusion h2
  | some ob =>
    rw [hy] at h2
    cases ob with
    | none =>
      simp only [Option.map] at h2
      injection h2 with h3
      exact Option.noConfusion h3
    | some b2 =>
      simp only [Option.map] at h2
      injection h2 with h3
      injection h3 with h4
      exact ⟨b2, rfl, h4⟩

theorem eraseBldr_t {b1 b2 : Bldr} (h : eraseBldr b1 = eraseBldr b2) :
    b1.t = b2.t := show (eraseBldr b1).t = (eraseBldr b2).t from congrArg Bldr.t h

theorem eraseBldr_kind {b1 b2 : Bldr} (h : eraseBldr b1 = eraseBldr b2) :
    b1.kind = b2.kind :=
  show (eraseBldr b1).kind = (eraseBldr b2).kind from congrArg Bldr.kind h

theorem eraseBldr_ent {b1 b2 : Bldr} (h : eraseBldr b1 = eraseBldr b2) :
    eraseEnt b1.ent = eraseEnt b2.ent :=
  show (eraseBldr b1).ent = (eraseBldr b2).ent from congrArg Bldr.ent h

theorem eraseEnt_form {e1 e2 : Entity} (h : eraseEnt e1 = eraseEnt e2) :
    e1.form = e2.form :=
  show (eraseEnt e1).form = (eraseEnt e2).form from congrArg Entity.form h

theorem eraseEnt_refS {e1 e2 : Entity} (h : eraseEnt e1 = eraseEnt e2) :
    e1.refS = e2.refS :=
  show (eraseEnt e1).refS = (eraseEnt e2).refS from congrArg Entity.refS h

theorem eraseEnt_refL {e1 e2 : Entity} (h : eraseEnt e1 = eraseEnt e2) :
    e1.refL = e2.refL :=
  show (eraseEnt e1).refL = (eraseEnt e2).refL from congrArg Entity.refL h

theorem eraseEnt_getScal {e1 e2 : Entity} (h : eraseEnt e1 = eraseEnt e2)
    (f : String) : eraseVStr (getScal e1 f) = eraseVStr (getScal e2 f) := by
  have h1 := congrArg (fun l => lookupA l f) (congrArg Entity.scal h)
  simp only [eraseEnt] at h1
  rw [lookupA_map eraseVStr, lookupA_map eraseVStr] at h1
  have h2 : ((lookupA e1.scal f).map eraseVStr).getD (eraseVStr {})
      = ((lookupA e2.scal f).map eraseVStr).getD (eraseVStr {}) := by rw [h1]
  rw [option_getD_map, option_getD_map] at h2
  exact h2

theorem eraseEnt_getList {e1 e2 : Entity} (h : eraseEnt e1 = eraseEnt e2)
    (f : String) : (getList e1 f).map eraseValS = (getList e2 f).map eraseValS := by
  have h1 := congrArg (fun l => lookupA l f) (congrArg Entity.lists h)
  simp only [eraseEnt] at h1
  rw [lookupA_map (List.map eraseValS), lookupA_map (List.map eraseValS)] at h1
  have h2 : ((lookupA e1.lists f).map (List.map eraseValS)).getD
        (List.map eraseValS [])
      = ((lookupA e2.lists f).map (List.map eraseValS)).getD
        (List.map eraseValS []) := by rw [h1]
  rw [option_getD_map, option_getD_map] at h2
  exact h2

theorem eraseEnt_getAnyS {e1 e2 : Entity} (h : eraseEnt e1 = eraseEnt e2)
    (f : String) : (getAnyS e1 f).map eraseAny = (getAnyS e2 f).map eraseAny := by
  have h1 := congrArg (fun l => lookupA l f) (congrArg Entity.anyS h)
  simp only [eraseEnt] at h1
  rw [lookupA_map (Option.map eraseAny), lookupA_map (Option.map eraseAny)] at h1
  have h2 : ((lookupA e1.anyS f).map (Option.map eraseAny)).getD
        (Option.map eraseAny none)
      = ((lookupA e2.anyS f).map (Option.map eraseAny)).getD
        (Option.map eraseAny none) := by rw [h1]
  rw [option_getD_map, option_getD_map] at h2
  exact h2

theorem eraseEnt_getAnyL {e1 e2 : Entity} (h : eraseEnt e1 = eraseEnt e2)
    (f : String) : eraseAnyL (getAnyL e1 f) = eraseAnyL (getAnyL e2 f) := by
  have h1 := congrArg (fun l => lookupA l f) (congrArg Entity.anyL h)
  simp only [eraseEnt] at h1
  rw [lookupA_map eraseAnyL, lookupA_map eraseAnyL] at h1
  have h2 : ((lookupA e1.anyL f).map eraseAnyL).getD (eraseAnyL [])
      = ((lookupA e2.anyL f).map eraseAnyL).getD (eraseAnyL []) := by rw [h1]
  rw [option_getD_map, option_getD_map] at h2
  exact h2

theorem eraseEnt_setScal_eq (e : Entity) (f : String) (c : VStr) :
    eraseEnt (setScal e f c)
      = { eraseEnt e with scal := insertA (eraseEnt e).scal f (eraseVStr c) } := by
  simp only [eraseEnt, setScal]
  rw [insertA_map eraseVStr]

theorem eraseEnt_setScal {e1 e2 : Entity} (h : eraseEnt e1 = eraseEnt e2)
    (f : String) (c : VStr) :
    eraseEnt (setScal e1 f c) = eraseEnt (setScal e2 f c) := by
  rw [eraseEnt_setScal_eq, eraseEnt_setScal_eq, h]

theorem eraseEnt_pushList_eq (e : Entity) (f : String) (v : ValS) :
    eraseEnt (pushList e f v)
      = { eraseEnt e with lists := insertA (eraseEnt e).lists f ((getList e f).map eraseValS ++ [eraseValS v]) } := by
  simp only [eraseEnt, pushList]
  rw [insertA_map (List.map eraseValS)]
  simp [List.map_append]

theorem eraseEnt_pushList {e1 e2 : Entity} (h : eraseEnt e1 = eraseEnt e2)
    (f : String) (v : ValS) :
    eraseEnt (pushList e1 f v) = eraseEnt (pushList e2 f v) := by
  rw [eraseEnt_pushList_eq, eraseEnt_pushList_eq, h, eraseEnt_getList h]

theorem eraseEnt_setRefS_eq (e : Entity) (f : String) (v : Option String) :
    eraseEnt (setRefS e f v)
      = { eraseEnt e with refS := insertA (eraseEnt e).refS f v } := rfl

theorem eraseEnt_setRefS {e1 e2 : Entity} (h : eraseEnt e1 = eraseEnt e2)
    (f : String) (v : Option String) :
    eraseEnt (setRefS e1 f v) = eraseEnt (setRefS e2 f v) := by
  rw [eraseEnt_setRefS_eq, eraseEnt_setRefS_eq, h]

theorem eraseEnt_pushRefL_eq (e : Entity) (f : String) (v : String) :
    eraseEnt (pushRefL e f v)
      = { eraseEnt e with refL := insertA (eraseEnt e).refL f (getRefL e f ++ [v]) } :=
  rfl

theorem eraseEnt_pushRefL {e1 e2 : Entity} (h : eraseEnt e1 = eraseEnt e2)
    (f : String) (v : String) :
    eraseEnt (pushRefL e1 f v) = eraseEnt (pushRefL e2 f v) := by
  rw [eraseEnt_pushRefL_eq, eraseEnt_pushRefL_eq, h]
  have h2 : getRefL e1 f = getRefL e2 f := by
    unfold getRefL
    rw [eraseEnt_refL h]
  rw [h2]

theorem eraseEnt_setAnyS_eq (e : Entity) (f : String) (v : Option AnyLic) :
    eraseEnt (setAnyS e f v)
      = { eraseEnt e with anyS := insertA (eraseEnt e).anyS f (v.map eraseAny) } := by
  simp only [eraseEnt, setAnyS]
  rw [insertA_map (Option.map eraseAny)]

theorem eraseEnt_setAnyS {e1 e2 : Entity} (h : eraseEnt e1 = eraseEnt e2)
    (f : String) {v1 v2 : Option AnyLic} (hv : v1.map eraseAny = v2.map eraseAny) :
    eraseEnt (setAnyS e1 f v1) = eraseEnt (setAnyS e2 f v2) := by
  rw [eraseEnt_setAnyS_eq, eraseEnt_setAnyS_eq, h, hv]

theorem eraseEnt_pushAnyL_eq (e : Entity) (f : String) (v : AnyLic) :
    eraseEnt (pushAnyL e f v)
      = { eraseEnt e with anyL := insertA (eraseEnt e).anyL f (eraseAnyL (getAnyL e f) ++ [eraseAny v]) } := by
  simp only [eraseEnt, pushAnyL]
  rw [insertA_map eraseAnyL, eraseAnyL_append]
  simp [eraseAnyL]

theorem eraseEnt_pushAnyL {e1 e2 : Entity} (h : eraseEnt e1 = eraseEnt e2)
    (f : String) {v1 v2 : AnyLic} (hv : eraseAny v1 = eraseAny v2) :
    eraseEnt (pushAnyL e1 f v1) = eraseEnt (pushAnyL e2 f v2) := by
  rw [eraseEnt_pushAnyL_eq, eraseEnt_pushAnyL_eq, h, eraseEnt_getAnyL h, hv]

/-- The promoted licence-set entity erases independently of the chosen
meta. -/
theorem eraseEnt_formMeta (e : Entity) (F : SetForm) (m : Option Meta) :
    eraseEnt { e with form := F, meta := m } = { eraseEnt e with form := F } := rfl

/-- Builder congruence for an entity update. -/
theorem eraseBldr_entUpd {b1 b2 : Bldr} (h : eraseBldr b1 = eraseBldr b2)
    {e1 e2 : Entity} (he : eraseEnt e1 = eraseEnt e2) :
    eraseBldr { b1 with ent := e1 } = eraseBldr { b2 with ent := e2 } := by
  show Bldr.mk b1.t b1.kind (eraseEnt e1) = Bldr.mk b2.t b2.kind (eraseEnt e2)
  rw [eraseBldr_t h, eraseBldr_kind h, he]

theorem eqE_insertIdx {s1 s2 : PState} (h : eqE s1 s2) (key : String)
    {v1 v2 : Option Bldr} (hv : v1.map eraseBldr = v2.map eraseBldr) :
    eqE { s1 with index := insertA s1.index key v1 }
      { s2 with index := insertA s2.index key v2 } := by
  refine ⟨?_, h.2.1, h.2.2⟩
  show eraseIndex (insertA s1.index key v1) = eraseIndex (insertA s2.index key v2)
  rw [eraseIndex_insertA, eraseIndex_insertA, h.1, hv]

theorem eqE_modB {s1 s2 : PState} (h : eqE s1 s2) (key : String)
    (f1 f2 : Bldr → Bldr)
    (hf : ∀ b1 b2, eraseBldr b1 = eraseBldr b2 → eraseBldr (f1 b1) = eraseBldr (f2 b2)) :
    eqE (modB s1 key f1) (modB s2 key f2) := by
  unfold modB
  cases hL1 : lookupA s1.index key with
  | none =>
    rw [eqE_lookup_none h key hL1]
    exact h
  | some ob =>
    cases ob with
    | none =>
      rw [eqE_lookup_nil h key hL1]
      exact h
    | some b1 =>
      obtain ⟨b2, hL2, hbe⟩ := eqE_lookup_some h key hL1
      rw [hL2]
      exact eqE_insertIdx h key (by rw [Option.map, Option.map, hf b1 b2 hbe])

theorem eqE_regState {s1 s2 : PState} (h : eqE s1 s2) (key : String) (t : Term)
    {v1 v2 : Option Bldr} (hv : v1.map eraseBldr = v2.map eraseBldr) :
    eqE (regState s1 key t v1) (regState s2 key t v2) := by
  unfold regState
  split
  · exact ⟨(eqE_insertIdx h key hv).1, h.2.1, rfl⟩
  · exact eqE_insertIdx h key hv

theorem eqE_eraseBuf {s1 s2 : PState} (h : eqE s1 s2) (key : String) :
    eqE { s1 with buffer := eraseA s1.buffer key }
      { s2 with buffer := eraseA s2.buffer key } := by
  refine ⟨h.1, ?_, h.2.2⟩
  show eraseA s1.buffer key = eraseA s2.buffer key
  rw [h.2.1]

theorem eqE_bufAppend {s1 s2 : PState} (h : eqE s1 s2) (key : String)
    (e : BufEntry) : eqE (bufAppend s1 key e) (bufAppend s2 key e) := by
  refine ⟨h.1, ?_, h.2.2⟩
  show insertA s1.buffer key ((lookupA s1.buffer key).getD [] ++ [e])
    = insertA s2.buffer key ((lookupA s2.buffer key).getD [] ++ [e])
  rw [h.2.1]

/-- reqAnyLicence's type switch is insensitive to stored locations: same
error, or values equal after erasure. -/
theorem anyFromState_cong {s1 s2 : PState} (h : eqE s1 s2) (key : String) :
    (∀ e, anyFromState s1 key = .inl e → anyFromState s2 key = .inl e) ∧
    (∀ l1, anyFromState s1 key = .inr l1 →
      ∃ l2, anyFromState s2 key = .inr l2 ∧ eraseAny l1 = eraseAny l2) := by
  unfold anyFromState
  cases hL1 : lookupA s1.index key with
  | none =>
    rw [eqE_lookup_none h key hL1]
    exact ⟨fun e he => he, fun l1 hl => Sum.noConfusion hl⟩
  | some ob =>
    cases ob with
    | none =>
      rw [eqE_lookup_nil h key hL1]
      exact ⟨fun e he => he, fun l1 hl => Sum.noConfusion hl⟩
    | some b1 =>
      obtain ⟨b2, hL2, hbe⟩ := eqE_lookup_some h key hL1
      rw [hL2]
      dsimp only
      rw [← eraseBldr_kind hbe]
      cases hk : b1.kind with
      | licRefK =>
        refine ⟨fun e he => Sum.noConfusion he, fun l1 hl => ?_⟩
        injection hl with hl1
        refine ⟨.licRef (getScal b2.ent "id").val b2.ent.meta, rfl, ?_⟩
        rw [← hl1]
        show AnyLic.licRef (getScal b1.ent "id").val none
          = AnyLic.licRef (getScal b2.ent "id").val none
        rw [show (getScal b1.ent "id").val = (getScal b2.ent "id").val from
          show (eraseVStr (getScal b1.ent "id")).val
              = (eraseVStr (getScal b2.ent "id")).val from
            congrArg VStr.val (eraseEnt_getScal (eraseBldr_ent hbe) "id")]
      | extractedK =>
        refine ⟨fun e he => Sum.noConfusion he, fun l1 hl => ?_⟩
        injection hl with hl1
        exact ⟨.extrPtr key, rfl, by rw [← hl1]⟩
      | licSetK =>
        rw [← eraseEnt_form (eraseBldr_ent hbe)]
        cases hform : b1.ent.form with
        | conjS =>
          refine ⟨fun e he => Sum.noConfusion he, fun l1 hl => ?_⟩
          injection hl with hl1
          refine ⟨.conjCopy b2.ent.meta (getAnyL b2.ent "members"), rfl, ?_⟩
          rw [← hl1]
          show AnyLic.conjCopy none (eraseAnyL (getAnyL b1.ent "members"))
            = AnyLic.conjCopy none (eraseAnyL (getAnyL b2.ent "members"))
          rw [eraseEnt_getAnyL (eraseBldr_ent hbe)]
        | disjS =>
          refine ⟨fun e he => Sum.noConfusion he, fun l1 hl => ?_⟩
          injection hl with hl1
          refine ⟨.disjCopy b2.ent.meta (getAnyL b2.ent "members"), rfl, ?_⟩
          rw [← hl1]
          show AnyLic.disjCopy none (eraseAnyL (getAnyL b1.ent "members"))
            = AnyLic.disjCopy none (eraseAnyL (getAnyL b2.ent "members"))
          rw [eraseEnt_getAnyL (eraseBldr_ent hbe)]
        | abstractS =>
          exact ⟨fun e he => he, fun l1 hl => Sum.noConfusion hl⟩
      | documentK => exact ⟨fun e he => he, fun l1 hl => Sum.noConfusion hl⟩
      | criK => exact ⟨fun e he => he, fun l1 hl => Sum.noConfusion hl⟩
      | packageK => exact ⟨fun e he => he, fun l1 hl => Sum.noConfusion hl⟩
      | fileK => exact ⟨fun e he => he, fun l1 hl => Sum.noConfusion hl⟩
      | checksumK => exact ⟨fun e he => he, fun l1 hl => Sum.noConfusion hl⟩
      | vcK => exact ⟨fun e he => he, fun l1 hl => Sum.noConfusion hl⟩
      | reviewK => exact ⟨fun e he => he, fun l1 hl => Sum.noConfusion hl⟩
      | artifactK => exact ⟨fun e he => he, fun l1 hl => Sum.noConfusion hl⟩

theorem eraseVStr_isSet {c1 c2 : VStr} (h : eraseVStr c1 = eraseVStr c2) :
    c1.isSet = c2.isSet :=
  show (eraseVStr c1).isSet = (eraseVStr c2).isSet from congrArg VStr.isSet h

theorem bHas_cong {b1 b2 : Bldr} (h : eraseBldr b1 = eraseBldr b2) (p : String) :
    bHas b1 p = bHas b2 p := by
  unfold bHas
  rw [eraseBldr_kind h]

/-- The promoted licence-set builder erases independently of the builders'
stored locations. -/
theorem nsPromote_erase {b1 b2 : Bldr} (hbe : eraseBldr b1 = eraseBldr b2)
    (tC : Term) (F : SetForm) (m1 m2 : Option Meta) :
    eraseBldr ⟨tC, b1.kind, { b1.ent with form := F, meta := m1 }⟩
      = eraseBldr ⟨tC, b2.kind, { b2.ent with form := F, meta := m2 }⟩ := by
  have h1 : eraseEnt { b1.ent with form := F, meta := m1 }
      = { eraseEnt b1.ent with form := F } := eraseEnt_formMeta _ _ _
  have h2 : eraseEnt { b2.ent with form := F, meta := m2 }
      = { eraseEnt b2.ent with form := F } := eraseEnt_formMeta _ _ _
  show Bldr.mk tC b1.kind (eraseEnt { b1.ent with form := F, meta := m1 })
    = Bldr.mk tC b2.kind (eraseEnt { b2.ent with form := F, meta := m2 })
  rw [h1, h2, eraseBldr_kind hbe, eraseBldr_ent hbe]

/-- Lockstep congruence: states that agree up to stored locations produce
the same outcome on every call and stay in agreement. -/
theorem interp_cong (fuel : Nat) :
    ∀ (c : Call) (s1 s2 : PState), eqE s1 s2 →
      (interp fuel c s1).1 = (interp fuel c s2).1 ∧
      eqE (interp fuel c s1).2 (interp fuel c s2).2 := by
  induction fuel with
  | zero =>
    intro c s1 s2 h
    exact ⟨by first | rfl | trivial, h⟩
  | succ n ih =>
    intro c s1 s2 h
    cases c with
    | procT stm meta =>
      simp only [interp, procTStep]
      by_cases hp : (stm.pred == uri_nstype) = true
      · simp only [if_pos hp]
        exact ih _ _ _ h
      · simp only [if_neg hp]
        cases hL1 : lookupA s1.index (termStr stm.subj) with
        | none =>
          rw [eqE_lookup_none h _ hL1]
          exact ⟨by first | rfl | trivial, eqE_bufAppend h _ _⟩
        | some ob =>
          cases ob with
          | none =>
            rw [eqE_lookup_nil h _ hL1]
            exact ⟨by first | rfl | trivial, h⟩
          | some b1 =>
            obtain ⟨b2, hL2, hbe⟩ := eqE_lookup_some h _ hL1
            rw [hL2]
            exact ih _ _ _ h
    | setT node t meta =>
      simp only [interp, setTStep]
      cases hL1 : lookupA s1.index (termStr node) with
      | some ob =>
        cases ob with
        | none =>
          rw [eqE_lookup_nil h _ hL1]
          exact ⟨by first | rfl | trivial, h⟩
        | some b1 =>
          obtain ⟨b2, hL2, hbe⟩ := eqE_lookup_some h _ hL1
          rw [hL2]
          dsimp only
          rw [← eraseBldr_t hbe, ← bHas_cong hbe]
          by_cases hg : (!(equalTypes b1.t [t]) && bHas b1 "ns:type") = true
          · simp only [if_pos hg]
            exact ih _ _ _ h
          · simp only [if_neg hg]
            by_cases hc : (!(compatibleTypes b1.t t)) = true
            · simp only [if_pos hc]
              exact ⟨by first | rfl | trivial, h⟩
            · simp only [if_neg hc]
              exact ⟨by first | rfl | trivial, h⟩
      | none =>
        rw [eqE_lookup_none h _ hL1]
        dsimp only
        cases hnb : newBuilder node t meta with
        | none => exact ⟨by first | rfl | trivial, h⟩
        | some optB =>
          dsimp only
          have hR : eqE (regState s1 (termStr node) t optB)
              (regState s2 (termStr node) t optB) := eqE_regState h _ _ rfl
          have hbuf : (lookupA (regState s1 (termStr node) t optB).buffer
                (termStr node)).getD []
              = (lookupA (regState s2 (termStr node) t optB).buffer
                (termStr node)).getD [] := by
            rw [regState_buffer, regState_buffer, h.2.1]
          rw [← hbuf]
          obtain ⟨ho, hE⟩ := ih (.runBuf (termStr node)
            ((lookupA (regState s1 (termStr node) t optB).buffer
              (termStr node)).getD []))
            (regState s1 (termStr node) t optB)
            (regState s2 (termStr node) t optB) hR
          cases hd1 : interp n (.runBuf (termStr node)
            ((lookupA (regState s1 (termStr node) t optB).buffer
              (termStr node)).getD []))
            (regState s1 (termStr node) t optB) with
          | mk o1 d1 =>
            cases hd2 : interp n (.runBuf (termStr node)
              ((lookupA (regState s1 (termStr node) t optB).buffer
                (termStr node)).getD []))
              (regState s2 (termStr node) t optB) with
            | mk o2 d2 =>
              rw [hd1, hd2] at ho hE
              simp only at ho hE
              subst ho
              cases o1 with
              | ok => exact ⟨by first | rfl | trivial, eqE_eraseBuf hE _⟩
              | err e => exact ⟨by first | rfl | trivial, hE⟩
              | crash => exact ⟨by first | rfl | trivial, hE⟩
              | fuelOut => exact ⟨by first | rfl | trivial, hE⟩
    | reqT node t =>
      simp only [interp, reqTStep]
      cases hL1 : lookupA s1.index (termStr node) with
      | none =>
        rw [eqE_lookup_none h _ hL1]
        exact ih _ _ _ h
      | some ob =>
        cases ob with
        | none =>
          rw [eqE_lookup_nil h _ hL1]
          exact ⟨by first | rfl | trivial, h⟩
        | some b1 =>
          obtain ⟨b2, hL2, hbe⟩ := eqE_lookup_some h _ hL1
          rw [hL2]
          dsimp only
          rw [← eraseBldr_t hbe]
          by_cases hc : (!(compatibleTypes b1.t t)) = true
          · simp only [if_pos hc]
            exact ⟨by first | rfl | trivial, h⟩
          · simp only [if_neg hc]
            exact ⟨by first | rfl | trivial, h⟩
    | applyP key pred obj meta =>
      simp only [interp, applyPStep]
      cases hL1 : lookupA s1.index key with
      | none =>
        rw [eqE_lookup_none h _ hL1]
        exact ⟨by first | rfl | trivial, h⟩
      | some ob =>
        cases ob with
        | none =>
          rw [eqE_lookup_nil h _ hL1]
          exact ⟨by first | rfl | trivial, h⟩
        | some b1 =>
          obtain ⟨b2, hL2, hbe⟩ := eqE_lookup_some h _ hL1
          rw [hL2]
          dsimp only
          rw [← eraseBldr_kind hbe, ← eraseBldr_t hbe]
          cases hu : updaters b1.kind (shortPfx (termStr pred)) with
          | none => exact ⟨by first | rfl | trivial, h⟩
          | some u => exact ih _ _ _ h
    | applyU key u obj meta =>
      cases u with
      | cellK f =>
        simp only [interp, applyUStep, cellStep]
        cases hL1 : lookupA s1.index key with
        | none =>
          rw [eqE_lookup_none h _ hL1]
          exact ⟨by first | rfl | trivial, h⟩
        | some ob =>
          cases ob with
          | none =>
            rw [eqE_lookup_nil h _ hL1]
            exact ⟨by first | rfl | trivial, h⟩
          | some b1 =>
            obtain ⟨b2, hL2, hbe⟩ := eqE_lookup_some h _ hL1
            rw [hL2]
            dsimp only
            rw [← eraseVStr_isSet (eraseEnt_getScal (eraseBldr_ent hbe) f)]
            by_cases hs : (getScal b1.ent f).isSet = true
            · simp only [if_pos hs]
              exact ⟨by first | rfl | trivial, h⟩
            · simp only [if_neg hs]
              refine ⟨by first | rfl | trivial, eqE_insertIdx h key ?_⟩
              rw [Option.map, Option.map,
                eraseBldr_entUpd hbe (eraseEnt_setScal (eraseBldr_ent hbe) f _)]
      | cellCutK pfx f =>
        simp only [interp, applyUStep, cellStep]
        cases hL1 : lookupA s1.index key with
        | none =>
          rw [eqE_lookup_none h _ hL1]
          exact ⟨by first | rfl | trivial, h⟩
        | some ob =>
          cases ob with
          | none =>
            rw [eqE_lookup_nil h _ hL1]
            exact ⟨by first | rfl | trivial, h⟩
          | some b1 =>
            obtain ⟨b2, hL2, hbe⟩ := eqE_lookup_some h _ hL1
            rw [hL2]
            dsimp only
            rw [← eraseVStr_isSet (eraseEnt_getScal (eraseBldr_ent hbe) f)]
            by_cases hs : (getScal b1.ent f).isSet = true
            · simp only [if_pos hs]
              exact ⟨by first | rfl | trivial, h⟩
            · simp only [if_neg hs]
              refine ⟨by first | rfl | trivial, eqE_insertIdx h key ?_⟩
              rw [Option.map, Option.map,
                eraseBldr_entUpd hbe (eraseEnt_setScal (eraseBldr_ent hbe) f _)]
      | algoK =>
        simp only [interp, applyUStep, cellStep]
        cases hL1 : lookupA s1.index key with
        | none =>
          rw [eqE_lookup_none h _ hL1]
          exact ⟨by first | rfl | trivial, h⟩
        | some ob =>
          cases ob with
          | none =>
            rw [eqE_lookup_nil h _ hL1]
            exact ⟨by first | rfl | trivial, h⟩
          | some b1 =>
            obtain ⟨b2, hL2, hbe⟩ := eqE_lookup_some h _ hL1
            rw [hL2]
            dsimp only
            rw [← eraseVStr_isSet (eraseEnt_getScal (eraseBldr_ent hbe) "algo")]
            by_cases hs : (getScal b1.ent "algo").isSet = true
            · simp only [if_pos hs]
              exact ⟨by first | rfl | trivial, h⟩
            · simp only [if_neg hs]
              refine ⟨by first | rfl | trivial, eqE_insertIdx h key ?_⟩
              rw [Option.map, Option.map,
                eraseBldr_entUpd hbe (eraseEnt_setScal (eraseBldr_ent hbe) "algo" _)]
      | listK f =>
        simp only [interp, applyUStep, listStep]
        cases hL1 : lookupA s1.index key with
        | none =>
          rw [eqE_lookup_none h _ hL1]
          exact ⟨by first | rfl | trivial, h⟩
        | some ob =>
          cases ob with
          | none =>
            rw [eqE_lookup_nil h _ hL1]
            exact ⟨by first | rfl | trivial, h⟩
          | some b1 =>
            obtain ⟨b2, hL2, hbe⟩ := eqE_lookup_some h _ hL1
            rw [hL2]
            dsimp only
            refine ⟨by first | rfl | trivial, eqE_insertIdx h key ?_⟩
            rw [Option.map, Option.map,
              eraseBldr_entUpd hbe (eraseEnt_pushList (eraseBldr_ent hbe) f _)]
      | refK t f =>
        simp only [interp, applyUStep, refStep]
        obtain ⟨ho, hE⟩ := ih (.reqT obj t) s1 s2 h
        cases hr1 : interp n (.reqT obj t) s1 with
        | mk o1 st1 =>
          cases hr2 : interp n (.reqT obj t) s2 with
          | mk o2 st2 =>
            rw [hr1, hr2] at ho hE
            simp only at ho hE
            subst ho
            cases o1 with
            | ok =>
              refine ⟨by first | rfl | trivial, eqE_modB hE key _ _ ?_⟩
              intro c1 c2 hce
              exact eraseBldr_entUpd hce (eraseEnt_setRefS (eraseBldr_ent hce) f _)
            | err e =>
              refine ⟨by first | rfl | trivial, eqE_modB hE key _ _ ?_⟩
              intro c1 c2 hce
              exact eraseBldr_entUpd hce (eraseEnt_setRefS (eraseBldr_ent hce) f _)
            | crash => exact ⟨by first | rfl | trivial, hE⟩
            | fuelOut => exact ⟨by first | rfl | trivial, hE⟩
      | refListK t f =>
        simp only [interp, applyUStep, refListStep]
        obtain ⟨ho, hE⟩ := ih (.reqT obj t) s1 s2 h
        cases hr1 : interp n (.reqT obj t) s1 with
        | mk o1 st1 =>
          cases hr2 : interp n (.reqT obj t) s2 with
          | mk o2 st2 =>
            rw [hr1, hr2] at ho hE
            simp only at ho hE
            subst ho
            cases o1 with
            | ok =>
              refine ⟨by first | rfl | trivial, eqE_modB hE key _ _ ?_⟩
              intro c1 c2 hce
              exact eraseBldr_entUpd hce (eraseEnt_pushRefL (eraseBldr_ent hce) f _)
            | err e => exact ⟨by first | rfl | trivial, hE⟩
            | crash => exact ⟨by first | rfl | trivial, hE⟩
            | fuelOut => exact ⟨by first | rfl | trivial, hE⟩
      | anyK f =>
        simp only [interp, applyUStep, anyStep]
        obtain ⟨ho, hE⟩ := ih (.reqT obj typeAnyLicence) s1 s2 h
        cases hr1 : interp n (.reqT obj typeAnyLicence) s1 with
        | mk o1 st1 =>
          cases hr2 : interp n (.reqT obj typeAnyLicence) s2 with
          | mk o2 st2 =>
            rw [hr1, hr2] at ho hE
            simp only at ho hE
            subst ho
            cases o1 with
            | ok =>
              dsimp only
              obtain ⟨hinl, hinr⟩ := anyFromState_cong hE (termStr obj)
              cases ha1 : anyFromState st1 (termStr obj) with
              | inl e =>
                simp only [hinl e ha1]
                refine ⟨by first | rfl | trivial, eqE_modB hE key _ _ ?_⟩
                intro c1 c2 hce
                exact eraseBldr_entUpd hce
                  (eraseEnt_setAnyS (eraseBldr_ent hce) f rfl)
              | inr l1 =>
                obtain ⟨l2, ha2, hle⟩ := hinr l1 ha1
                simp only [ha2]
                refine ⟨by first | rfl | trivial, eqE_modB hE key _ _ ?_⟩
                intro c1 c2 hce
                refine eraseBldr_entUpd hce
                  (eraseEnt_setAnyS (eraseBldr_ent hce) f ?_)
                rw [Option.map, Option.map, hle]
            | err e =>
              refine ⟨by first | rfl | trivial, eqE_modB hE key _ _ ?_⟩
              intro c1 c2 hce
              exact eraseBldr_entUpd hce (eraseEnt_setAnyS (eraseBldr_ent hce) f rfl)
            | crash => exact ⟨by first | rfl | trivial, hE⟩
            | fuelOut => exact ⟨by first | rfl | trivial, hE⟩
      | anyListK f =>
        simp only [interp, applyUStep, anyListStep]
        obtain ⟨ho, hE⟩ := ih (.reqT obj typeAnyLicence) s1 s2 h
        cases hr1 : interp n (.reqT obj typeAnyLicence) s1 with
        | mk o1 st1 =>
          cases hr2 : interp n (.reqT obj typeAnyLicence) s2 with
          | mk o2 st2 =>
            rw [hr1, hr2] at ho hE
            simp only at ho hE
            subst ho
            cases o1 with
            | ok =>
              dsimp only
              obtain ⟨hinl, hinr⟩ := anyFromState_cong hE (termStr obj)
              cases ha1 : anyFromState st1 (termStr obj) with
              | inl e =>
                simp only [hinl e ha1]
                exact ⟨by first | rfl | trivial, hE⟩
              | inr l1 =>
                obtain ⟨l2, ha2, hle⟩ := hinr l1 ha1
                simp only [ha2]
                refine ⟨by first | rfl | trivial, eqE_modB hE key _ _ ?_⟩
                intro c1 c2 hce
                exact eraseBldr_entUpd hce
                  (eraseEnt_pushAnyL (eraseBldr_ent hce) f hle)
            | err e => exact ⟨by first | rfl | trivial, hE⟩
            | crash => exact ⟨by first | rfl | trivial, hE⟩
            | fuelOut => exact ⟨by first | rfl | trivial, hE⟩
      | memberK =>
        simp only [interp, applyUStep, memberStep]
        obtain ⟨ho, hE⟩ := ih (.reqT obj typeAnyLicence) s1 s2 h
        cases hr1 : interp n (.reqT obj typeAnyLicence) s1 with
        | mk o1 st1 =>
          cases hr2 : interp n (.reqT obj typeAnyLicence) s2 with
          | mk o2 st2 =>
            rw [hr1, hr2] at ho hE
            simp only at ho hE
            subst ho
            cases o1 with
            | ok =>
              dsimp only
              obtain ⟨hinl, hinr⟩ := anyFromState_cong hE (termStr obj)
              cases ha1 : anyFromState st1 (termStr obj) with
              | inl e =>
                simp only [hinl e ha1]
                exact ⟨by first | rfl | trivial, hE⟩
              | inr l1 =>
                obtain ⟨l2, ha2, hle⟩ := hinr l1 ha1
                simp only [ha2]
                refine ⟨by first | rfl | trivial, eqE_modB hE key _ _ ?_⟩
                intro c1 c2 hce
                exact eraseBldr_entUpd hce
                  (eraseEnt_pushAnyL (eraseBldr_ent hce) "members" hle)
            | err e => exact ⟨by first | rfl | trivial, hE⟩
            | crash => exact ⟨by first | rfl | trivial, hE⟩
            | fuelOut => exact ⟨by first | rfl | trivial, hE⟩
      | nsTypeK =>
        simp only [interp, applyUStep, nsTypeStep]
        cases hL1 : lookupA s1.index key with
        | none =>
          rw [eqE_lookup_none h _ hL1]
          exact ⟨by first | rfl | trivial, h⟩
        | some ob =>
          cases ob with
          | none =>
            rw [eqE_lookup_nil h _ hL1]
            exact ⟨by first | rfl | trivial, h⟩
          | some b1 =>
            obtain ⟨b2, hL2, hbe⟩ := eqE_lookup_some h _ hL1
            rw [hL2]
            dsimp only
            rw [← eraseBldr_t hbe]
            by_cases ha : (!(equalTypes b1.t [typeAbstractLicenceSet])) = true
            · simp only [if_pos ha]
              exact ⟨by first | rfl | trivial, h⟩
            · simp only [if_neg ha]
              by_cases hcj : (equalTypes obj [typeConjunctiveSet]) = true
              · simp only [if_pos hcj]
                refine ⟨by first | rfl | trivial, eqE_insertIdx h key ?_⟩
                rw [Option.map, Option.map,
                  nsPromote_erase hbe typeConjunctiveSet .conjS _ _]
              · simp only [if_neg hcj]
                by_cases hdj : (equalTypes obj [typeDisjunctiveSet]) = true
                · simp only [if_pos hdj]
                  refine ⟨by first | rfl | trivial, eqE_insertIdx h key ?_⟩
                  rw [Option.map, Option.map,
                    nsPromote_erase hbe typeDisjunctiveSet .disjS _ _]
                · simp only [if_neg hdj]
                  exact ⟨by first | rfl | trivial, h⟩
    | runBuf key entries =>
      cases entries with
      | nil =>
        simp only [interp, runBufStep]
        exact ⟨by first | rfl | trivial, h⟩
      | cons e rest =>
        simp only [interp, runBufStep]
        obtain ⟨ho, hE⟩ := ih (.applyP key e.stm.pred e.stm.obj e.meta) s1 s2 h
        cases hr1 : interp n (.applyP key e.stm.pred e.stm.obj e.meta) s1 with
        | mk o1 st1 =>
          cases hr2 : interp n (.applyP key e.stm.pred e.stm.obj e.meta) s2 with
          | mk o2 st2 =>
            rw [hr1, hr2] at ho hE
            simp only at ho hE
            subst ho
            cases o1 with
            | ok => exact ih (.runBuf key rest) st1 st2 hE
            | err e2 => exact ⟨by first | rfl | trivial, hE⟩
            | crash => exact ⟨by first | rfl | trivial, hE⟩
            | fuelOut => exact ⟨by first | rfl | trivial, hE⟩

/-- Lockstep congruence lifted to whole statement streams. -/
theorem runStream_cong (fuel : Nat) :
    ∀ (stms : List (Stmt × Nat)) (s1 s2 : PState), eqE s1 s2 →
      (runStream fuel s1 stms).1 = (runStream fuel s2 stms).1 ∧
      eqE (runStream fuel s1 stms).2 (runStream fuel s2 stms).2 := by
  intro stms
  induction stms with
  | nil =>
    intro s1 s2 h
    exact ⟨rfl, h⟩
  | cons p rest ih =>
    obtain ⟨stm, line⟩ := p
    intro s1 s2 h
    simp only [runStream]
    obtain ⟨ho, hE⟩ := interp_cong fuel (.procT stm (some ⟨line⟩)) s1 s2 h
    cases hr1 : interp fuel (.procT stm (some ⟨line⟩)) s1 with
    | mk o1 st1 =>
      cases hr2 : interp fuel (.procT stm (some ⟨line⟩)) s2 with
      | mk o2 st2 =>
        rw [hr1, hr2] at ho hE
        simp only at ho hE
        subst ho
        cases o1 with
        | ok => exact ih st1 st2 hE
        | err e => exact ⟨rfl, hE⟩
        | crash => exact ⟨rfl, hE⟩
        | fuelOut => exact ⟨rfl, hE⟩

/-- Adding fuel does not change a run that did not exhaust its fuel. -/
theorem interp_mono (fuel : Nat) :
    ∀ (c : Call) (st : PState), (interp fuel c st).1 ≠ .fuelOut →
      interp (fuel + 1) c st = interp fuel c st := by
  induction fuel with
  | zero =>
    intro c st h
    exact absurd rfl h
  | succ n ih =>
    intro c st h
    cases c with
    | procT stm meta =>
      have e1 : interp (n + 1 + 1) (Call.procT stm meta) st
          = procTStep (interp (n + 1)) st stm meta := rfl
      have e2 : interp (n + 1) (Call.procT stm meta) st
          = procTStep (interp n) st stm meta := rfl
      rw [e2] at h
      rw [e1, e2]
      simp only [procTStep] at h ⊢
      by_cases hp : (stm.pred == uri_nstype) = true
      · simp only [if_pos hp] at h ⊢
        exact ih _ st h
      · simp only [if_neg hp] at h ⊢
        cases hL : lookupA st.index (termStr stm.subj) with
        | none => rfl
        | some ob =>
          cases ob with
          | none => rfl
          | some b =>
            simp only [hL] at h
            dsimp only
            exact ih _ st h
    | setT node t meta =>
      have e1 : interp (n + 1 + 1) (Call.setT node t meta) st
          = setTStep (interp (n + 1)) st node t meta := rfl
      have e2 : interp (n + 1) (Call.setT node t meta) st
          = setTStep (interp n) st node t meta := rfl
      rw [e2] at h
      rw [e1, e2]
      simp only [setTStep] at h ⊢
      cases hL : lookupA st.index (termStr node) with
      | some ob =>
        cases ob with
        | none => rfl
        | some b =>
          simp only [hL] at h
          dsimp only
          by_cases hg : (!(equalTypes b.t [t]) && bHas b "ns:type") = true
          · simp only [if_pos hg] at h ⊢
            exact ih _ st h
          · simp only [if_neg hg] at h ⊢
      | none =>
        simp only [hL] at h
        dsimp only
        cases hnb : newBuilder node t meta with
        | none => rfl
        | some optB =>
          simp only [hnb] at h
          dsimp only
          cases hd : interp n (.runBuf (termStr node)
              ((lookupA (regState st (termStr node) t optB).buffer
                (termStr node)).getD []))
              (regState st (termStr node) t optB) with
          | mk o1 d1 =>
            simp only [hd] at h
            have hno : o1 ≠ .fuelOut := by
              intro hfo
              subst hfo
              simp only [] at h
              exact h rfl
            rw [ih _ _ (by rw [hd]; exact hno), hd]
    | reqT node t =>
      have e1 : interp (n + 1 + 1) (Call.reqT node t) st
          = reqTStep (interp (n + 1)) st node t := rfl
      have e2 : interp (n + 1) (Call.reqT node t) st
          = reqTStep (interp n) st node t := rfl
      rw [e2] at h
      rw [e1, e2]
      simp only [reqTStep] at h ⊢
      cases hL : lookupA st.index (termStr node) with
      | none =>
        simp only [hL] at h
        dsimp only
        exact ih _ st h
      | some ob =>
        cases ob with
        | none => rfl
        | some b => rfl
    | applyP key pred obj meta =>
      have e1 : interp (n + 1 + 1) (Call.applyP key pred obj meta) st
          = applyPStep (interp (n + 1)) st key pred obj meta := rfl
      have e2 : interp (n + 1) (Call.applyP key pred obj meta) st
          = applyPStep (interp n) st key pred obj meta := rfl
      rw [e2] at h
      rw [e1, e2]
      simp only [applyPStep] at h ⊢
      cases hL : lookupA st.index key with
      | none => rfl
      | some ob =>
        cases ob with
        | none => rfl
        | some b =>
          simp only [hL] at h
          dsimp only
          cases hu : updaters b.kind (shortPfx (termStr pred)) with
          | none => rfl
          | some u =>
            simp only [hu] at h
            exact ih _ st h
    | applyU key u obj meta =>
      cases u with
      | cellK f => rfl
      | cellCutK pfx f => rfl
      | algoK => rfl
      | listK f => rfl
      | nsTypeK => rfl
      | refK t f =>
        have e1 : interp (n + 1 + 1) (Call.applyU key (.refK t f) obj meta) st
            = applyUStep (interp (n + 1)) st key (.refK t f) obj meta := rfl
        have e2 : interp (n + 1) (Call.applyU key (.refK t f) obj meta) st
            = applyUStep (interp n) st key (.refK t f) obj meta := rfl
        rw [e2] at h
        rw [e1, e2]
        simp only [applyUStep, refStep] at h ⊢
        cases hr : interp n (.reqT obj t) st with
        | mk o1 st1 =>
          simp only [hr] at h
          have hno : o1 ≠ .fuelOut := by
            intro hfo
            subst hfo
            simp only [] at h
            exact h rfl
          rw [ih _ st (by rw [hr]; exact hno), hr]
      | refListK t f =>
        have e1 : interp (n + 1 + 1) (Call.applyU key (.refListK t f) obj meta) st
            = applyUStep (interp (n + 1)) st key (.refListK t f) obj meta := rfl
        have e2 : interp (n + 1) (Call.applyU key (.refListK t f) obj meta) st
            = applyUStep (interp n) st key (.refListK t f) obj meta := rfl
        rw [e2] at h
        rw [e1, e2]
        simp only [applyUStep, refListStep] at h ⊢
        cases hr : interp n (.reqT obj t) st with
        | mk o1 st1 =>
          simp only [hr] at h
          have hno : o1 ≠ .fuelOut := by
            intro hfo
            subst hfo
            simp only [] at h
            exact h rfl
          rw [ih _ st (by rw [hr]; exact hno), hr]
      | anyK f =>
        have e1 : interp (n + 1 + 1) (Call.applyU key (.anyK f) obj meta) st
            = applyUStep (interp (n + 1)) st key (.anyK f) obj meta := rfl
        have e2 : interp (n + 1) (Call.applyU key (.anyK f) obj meta) st
            = applyUStep (interp n) st key (.anyK f) obj meta := rfl
        rw [e2] at h
        rw [e1, e2]
        simp only [applyUStep, anyStep] at h ⊢
        cases hr : interp n (.reqT obj typeAnyLicence) st with
        | mk o1 st1 =>
          simp only [hr] at h
          have hno : o1 ≠ .fuelOut := by
            intro hfo
            subst hfo
            simp only [] at h
            exact h rfl
          rw [ih _ st (by rw [hr]; exact hno), hr]
      | anyListK f =>
        have e1 : interp (n + 1 + 1) (Call.applyU key (.anyListK f) obj meta) st
            = applyUStep (interp (n + 1)) st key (.anyListK f) obj meta := rfl
        have e2 : interp (n + 1) (Call.applyU key (.anyListK f) obj meta) st
            = applyUStep (interp n) st key (.anyListK f) obj meta := rfl
        rw [e2] at h
        rw [e1, e2]
        simp only [applyUStep, anyListStep] at h ⊢
        cases hr : interp n (.reqT obj typeAnyLicence) st with
        | mk o1 st1 =>
          simp only [hr] at h
          have hno : o1 ≠ .fuelOut := by
            intro hfo
            subst hfo
            simp only [] at h
            exact h rfl
          rw [ih _ st (by rw [hr]; exact hno), hr]
      | memberK =>
        have e1 : interp (n + 1 + 1) (Call.applyU key .memberK obj meta) st
            = applyUStep (interp (n + 1)) st key .memberK obj meta := rfl
        have e2 : interp (n + 1) (Call.applyU key .memberK obj meta) st
            = applyUStep (interp n) st key .memberK obj meta := rfl
        rw [e2] at h
        rw [e1, e2]
        simp only [applyUStep, memberStep] at h ⊢
        cases hr : interp n (.reqT obj typeAnyLicence) st with
        | mk o1 st1 =>
          simp only [hr] at h
          have hno : o1 ≠ .fuelOut := by
            intro hfo
            subst hfo
            simp only [] at h
            exact h rfl
          rw [ih _ st (by rw [hr]; exact hno), hr]
    | runBuf key entries =>
      cases entries with
      | nil => rfl
      | cons e rest =>
        have e1 : interp (n + 1 + 1) (Call.runBuf key (e :: rest)) st
            = runBufStep (interp (n + 1)) st key (e :: rest) := rfl
        have e2 : interp (n + 1) (Call.runBuf key (e :: rest)) st
            = runBufStep (interp n) st key (e :: rest) := rfl
        rw [e2] at h
        rw [e1, e2]
        simp only [runBufStep] at h ⊢
        cases happ : interp n (.applyP key e.stm.pred e.stm.obj e.meta) st with
        | mk o1 st1 =>
          simp only [happ] at h
          have hno1 : o1 ≠ .fuelOut := by
            intro hfo
            subst hfo
            simp only [] at h
            exact h rfl
          rw [ih _ st (by rw [happ]; exact hno1), happ]
          cases o1 with
          | ok =>
            simp only [] at h
            dsimp only
            exact ih _ st1 h
          | err e2 => rfl
          | crash => rfl
          | fuelOut => exact absurd rfl hno1

/-- Builder-entry preservation: every resolved key keeps a builder of the
same constructor family, and keeps its type tag unless the tag was the
abstract licence-set placeholder (the only tag the ns:type promotion may
rewrite). -/
def tagRel (s1 s2 : PState) : Prop :=
  ∀ k b, lookupA s1.index k = some (some b) →
    ∃ b', lookupA s2.index k = some (some b') ∧ b'.kind = b.kind ∧
      (b.t ≠ typeAbstractLicenceSet → b'.t = b.t)

theorem tagRel_refl (st : PState) : tagRel st st :=
  fun _ b h => ⟨b, h, rfl, fun _ => rfl⟩

theorem tagRel_trans {s1 s2 s3 : PState} (h12 : tagRel s1 s2) (h23 : tagRel s2 s3) :
    tagRel s1 s3 := by
  intro k b h
  obtain ⟨b2, hL2, hk2, ht2⟩ := h12 k b h
  obtain ⟨b3, hL3, hk3, ht3⟩ := h23 k b2 hL2
  refine ⟨b3, hL3, hk3.trans hk2, fun hne => ?_⟩
  have ht2' := ht2 hne
  have hne2 : b2.t ≠ typeAbstractLicenceSet := by
    rw [ht2']
    exact hne
  rw [ht3 hne2, ht2']

theorem tagRel_indexEq {s1 s2 : PState} (h : s1.index = s2.index) :
    tagRel s1 s2 := by
  intro k b hL
  rw [← h]
  exact ⟨b, hL, rfl, fun _ => rfl⟩

theorem tagRel_insertSame {st : PState} {key : String} {b b' : Bldr}
    (hL : lookupA st.index key = some (some b)) (hk : b'.kind = b.kind)
    (ht : b.t ≠ typeAbstractLicenceSet → b'.t = b.t) :
    tagRel st { st with index := insertA st.index key (some b') } := by
  intro k bb h
  by_cases hkk : key = k
  · subst hkk
    rw [hL] at h
    injection h with h1
    injection h1 with h2
    subst h2
    exact ⟨b', by rw [show ({ st with index := insertA st.index key (some b') }
      : PState).index = insertA st.index key (some b') from rfl,
      lookupA_insertA_self], hk, ht⟩
  · refine ⟨bb, ?_, rfl, fun _ => rfl⟩
    rw [show ({ st with index := insertA st.index key (some b') }
      : PState).index = insertA st.index key (some b') from rfl,
      lookupA_insertA_ne _ _ _ _ hkk]
    exact h

theorem tagRel_insertNew {st : PState} {key : String}
    (habs : lookupA st.index key = none) (v : Option Bldr) :
    tagRel st { st with index := insertA st.index key v } := by
  intro k bb h
  by_cases hkk : key = k
  · subst hkk
    rw [habs] at h
    exact Option.noConfusion h
  · refine ⟨bb, ?_, rfl, fun _ => rfl⟩
    rw [show ({ st with index := insertA st.index key v }
      : PState).index = insertA st.index key v from rfl,
      lookupA_insertA_ne _ _ _ _ hkk]
    exact h

theorem tagRel_regState {st : PState} {nodeStr : String}
    (habs : lookupA st.index nodeStr = none) (t : Term) (optB : Option Bldr) :
    tagRel st (regState st nodeStr t optB) := by
  intro k bb h
  by_cases hkk : nodeStr = k
  · subst hkk
    rw [habs] at h
    exact Option.noConfusion h
  · refine ⟨bb, ?_, rfl, fun _ => rfl⟩
    rw [regState_index, lookupA_insertA_ne _ _ _ _ hkk]
    exact h

theorem tagRel_modB (st : PState) (key : String) (f : Bldr → Bldr)
    (hf : ∀ b, (f b).kind = b.kind ∧ (f b).t = b.t) :
    tagRel st (modB st key f) := by
  unfold modB
  cases hL : lookupA st.index key with
  | none => exact tagRel_refl st
  | some ob =>
    cases ob with
    | none => exact tagRel_refl st
    | some b0 =>
      exact tagRel_insertSame hL (hf b0).1 (fun _ => (hf b0).2)

/-- Every interpreter call preserves each resolved key's builder family and,
away from the abstract licence-set placeholder, its type tag. -/
theorem interp_tags (fuel : Nat) :
    ∀ (c : Call) (st : PState), tagRel st (interp fuel c st).2 := by
  induction fuel with
  | zero =>
    intro c st
    exact tagRel_refl st
  | succ n ih =>
    intro c st
    cases c with
    | procT stm meta =>
      simp only [interp, procTStep]
      split
      · exact ih _ st
      · split
        · exact ih _ st
        · exact tagRel_refl st
        · exact tagRel_indexEq rfl
    | setT node t meta =>
      simp only [interp, setTStep]
      split
      · exact tagRel_refl st
      · split
        · exact ih _ st
        · split
          · exact tagRel_refl st
          · exact tagRel_refl st
      · rename_i habs
        split
        · exact tagRel_refl st
        · rename_i optB hnb
          split
          · rename_i st2 hdr
            have h1 := tagRel_regState habs t optB
            have h2 := ih (.runBuf (termStr node)
              ((lookupA (regState st (termStr node) t optB).buffer
                (termStr node)).getD []))
              (regState st (termStr node) t optB)
            rw [hdr] at h2
            exact tagRel_trans (tagRel_trans h1 h2) (tagRel_indexEq rfl)
          · rename_i o st2 hne hdr
            have h1 := tagRel_regState habs t optB
            have h2 := ih (.runBuf (termStr node)
              ((lookupA (regState st (termStr node) t optB).buffer
                (termStr node)).getD []))
              (regState st (termStr node) t optB)
            rw [hdr] at h2
            exact tagRel_trans h1 h2
    | reqT node t =>
      simp only [interp, reqTStep]
      split
      · split
        · exact tagRel_refl st
        · exact tagRel_refl st
      · exact tagRel_refl st
      · exact ih _ st
    | applyP key pred obj meta =>
      simp only [interp, applyPStep]
      split
      · split
        · exact tagRel_refl st
        · exact ih _ st
      · exact tagRel_refl st
      · exact tagRel_refl st
    | applyU key u obj meta =>
      cases u with
      | cellK f =>
        simp only [interp, applyUStep, cellStep]
        split
        · rename_i b heq
          split
          · exact tagRel_refl st
          · exact tagRel_insertSame heq rfl (fun _ => rfl)
        · exact tagRel_refl st
      | cellCutK pfx f =>
        simp only [interp, applyUStep, cellStep]
        split
        · rename_i b heq
          split
          · exact tagRel_refl st
          · exact tagRel_insertSame heq rfl (fun _ => rfl)
        · exact tagRel_refl st
      | algoK =>
        simp only [interp, applyUStep, cellStep]
        split
        · rename_i b heq
          split
          · exact tagRel_refl st
          · exact tagRel_insertSame heq rfl (fun _ => rfl)
        · exact tagRel_refl st
      | listK f =>
        simp only [interp, applyUStep, listStep]
        split
        · rename_i b heq
          exact tagRel_insertSame heq rfl (fun _ => rfl)
        · exact tagRel_refl st
      | refK t f =>
        simp only [interp, applyUStep, refStep]
        split
        · rename_i st1 hreq
          have h1 := ih (.reqT obj t) st
          rw [hreq] at h1
          exact tagRel_trans h1 (tagRel_modB st1 key _ (fun b => ⟨rfl, rfl⟩))
        · rename_i e st1 hreq
          have h1 := ih (.reqT obj t) st
          rw [hreq] at h1
          exact tagRel_trans h1 (tagRel_modB st1 key _ (fun b => ⟨rfl, rfl⟩))
        · rename_i o st1 hne1 hne2 hreq
          have h1 := ih (.reqT obj t) st
          rw [hreq] at h1
          exact h1
      | refListK t f =>
        simp only [interp, applyUStep, refListStep]
        split
        · rename_i st1 hreq
          have h1 := ih (.reqT obj t) st
          rw [hreq] at h1
          exact tagRel_trans h1 (tagRel_modB st1 key _ (fun b => ⟨rfl, rfl⟩))
        · rename_i o st1 hne hreq
          have h1 := ih (.reqT obj t) st
          rw [hreq] at h1
          exact h1
      | anyK f =>
        simp only [interp, applyUStep, anyStep]
        split
        · rename_i st1 hreq
          have h1 := ih (.reqT obj typeAnyLicence) st
          rw [hreq] at h1
          split
          · exact tagRel_trans h1 (tagRel_modB st1 key _ (fun b => ⟨rfl, rfl⟩))
          · exact tagRel_trans h1 (tagRel_modB st1 key _ (fun b => ⟨rfl, rfl⟩))
        · rename_i e st1 hreq
          have h1 := ih (.reqT obj typeAnyLicence) st
          rw [hreq] at h1
          exact tagRel_trans h1 (tagRel_modB st1 key _ (fun b => ⟨rfl, rfl⟩))
        · rename_i o st1 hne1 hne2 hreq
          have h1 := ih (.reqT obj typeAnyLicence) st
          rw [hreq] at h1
          exact h1
      | anyListK f =>
        simp only [interp, applyUStep, anyListStep]
        split
        · rename_i st1 hreq
          have h1 := ih (.reqT obj typeAnyLicence) st
          rw [hreq] at h1
          split
          · exact tagRel_trans h1 (tagRel_modB st1 key _ (fun b => ⟨rfl, rfl⟩))
          · exact h1
        · rename_i o st1 hne hreq
          have h1 := ih (.reqT obj typeAnyLicence) st
          rw [hreq] at h1
          exact h1
      | memberK =>
        simp only [interp, applyUStep, memberStep]
        split
        · rename_i st1 hreq
          have h1 := ih (.reqT obj typeAnyLicence) st
          rw [hreq] at h1
          split
          · exact tagRel_trans h1 (tagRel_modB st1 key _ (fun b => ⟨rfl, rfl⟩))
          · exact h1
        · rename_i o st1 hne hreq
          have h1 := ih (.reqT obj typeAnyLicence) st
          rw [hreq] at h1
          exact h1
      | nsTypeK =>
        simp only [interp, applyUStep, nsTypeStep]
        split
        · rename_i b heq
          split
          · exact tagRel_refl st
          · rename_i habst
            have htEq : b.t = typeAbstractLicenceSet := by
              have hT : equalTypes b.t [typeAbstractLicenceSet] = true := by
                cases hE : equalTypes b.t [typeAbstractLicenceSet] with
                | true => rfl
                | false =>
                  exact absurd (by rw [hE]; rfl) habst
              simp [equalTypes] at hT
              exact hT
            split
            · exact tagRel_insertSame heq rfl (fun hne => absurd htEq hne)
            · split
              · exact tagRel_insertSame heq rfl (fun hne => absurd htEq hne)
              · exact tagRel_refl st
        · exact tagRel_refl st
    | runBuf key entries =>
      cases entries with
      | nil =>
        simp only [interp, runBufStep]
        exact tagRel_refl st
      | cons e rest =>
        simp only [interp, runBufStep]
        split
        · rename_i st1 happ
          have h1 := ih (.applyP key e.stm.pred e.stm.obj e.meta) st
          rw [happ] at h1
          have h2 := ih (.runBuf key rest) st1
          exact tagRel_trans h1 h2
        · rename_i o st1 hne happ
          have h1 := ih (.applyP key e.stm.pred e.stm.obj e.meta) st
          rw [happ] at h1
          exact h1

theorem equalTypes_self (t : Term) : equalTypes t [t] = true := by
  simp [equalTypes]

theorem compatibleTypes_self (t : Term) : compatibleTypes t t = true := by
  unfold compatibleTypes
  rw [if_pos (equalTypes_self t)]

/-- The new-builder switch succeeds or fails independently of the recorded
location, and the built builder erases to the same value. -/
theorem newBuilder_metaIndep (node t : Term) (m1 m2 : Option Meta) :
    (newBuilder node t m1).map (Option.map eraseBldr)
      = (newBuilder node t m2).map (Option.map eraseBldr) := by
  unfold newBuilder
  by_cases h1 : (t == typeDocument) = true
  · simp only [if_pos h1]
    rfl
  · simp only [if_neg h1]
    by_cases h2 : (t == typeCreationInfo) = true
    · simp only [if_pos h2]
      rfl
    · simp only [if_neg h2]
      by_cases h3 : (t == typePackage) = true
      · simp only [if_pos h3]
        rfl
      · simp only [if_neg h3]
        by_cases h4 : (t == typeChecksum) = true
        · simp only [if_pos h4]
          rfl
        · simp only [if_neg h4]
          by_cases h5 : (t == typeVerificationCode) = true
          · simp only [if_pos h5]
            rfl
          · simp only [if_neg h5]
            by_cases h6 : (t == typeFile) = true
            · simp only [if_pos h6]
              rfl
            · simp only [if_neg h6]
              by_cases h7 : (t == typeReview) = true
              · simp only [if_pos h7]
                rfl
              · simp only [if_neg h7]
                by_cases h8 : (t == typeArtifactOf) = true
                · simp only [if_pos h8]
                  cases node <;> rfl
                · simp only [if_neg h8]
                  by_cases h9 : (t == typeExtractedLicence) = true
                  · simp only [if_pos h9]
                    rfl
                  · simp only [if_neg h9]
                    by_cases h10 : (t == typeAnyLicence) = true
                    · simp only [if_pos h10]
                      cases node with
                      | uriT s => rfl
                      | literalT s => rfl
                      | blankT s =>
                        by_cases hb : (startsWithL (lowerStr s) "licenseref") = true
                        · simp only [if_pos hb]
                          rfl
                        · simp only [if_neg hb]
                          rfl
                    · simp only [if_neg h10]
                      by_cases h11 : (t == typeLicence) = true
                      · simp only [if_pos h11]
                        rfl
                      · simp only [if_neg h11]
                        by_cases h12 : (t == typeAbstractLicenceSet) = true
                        · simp only [if_pos h12]
                          rfl
                        · simp only [if_neg h12]
                          by_cases h13 : (t == typeConjunctiveSet) = true
                          · simp only [if_pos h13]
                            rfl
                          · simp only [if_neg h13]
                            by_cases h14 : (t == typeDisjunctiveSet) = true
                            · simp only [if_pos h14]
                              rfl
                            · simp only [if_neg h14]

theorem newBuilder_some {node t : Term} {m1 : Option Meta} {bM : Bldr}
    (h : newBuilder node t m1 = some (some bM)) (m2 : Option Meta) :
    ∃ bM', newBuilder node t m2 = some (some bM') ∧ eraseBldr bM' = eraseBldr bM := by
  have h1 := newBuilder_metaIndep node t m1 m2
  rw [h] at h1
  cases h2 : newBuilder node t m2 with
  | none =>
    rw [h2] at h1
    exact Option.noConfusion h1
  | some ob =>
    rw [h2] at h1
    cases ob with
    | none =>
      simp only [Option.map] at h1
      injection h1 with h3
      exact Option.noConfusion h3
    | some bM' =>
      simp only [Option.map] at h1
      injection h1 with h3
      injection h3 with h4
      exact ⟨bM', rfl, h4.symm⟩

/-- C2 (amended, universal): for a property whose updater stores a single
entity pointer, processing the target node's type assertion before or after
the referencing triple gives the same parse outcome, and on success the
final states agree on the root document and on the index up to recorded
source locations, whatever statements follow. -/
theorem reference_order_agrees_up_to_locations
    (fuel : Nat) (st : PState) (nodeN nodeM pred t : Term) (f : String)
    (bN bM : Bldr) (lm lr : Nat) (rest : List (Stmt × Nat))
    (oA oB : Outcome) (sA sB : PState)
    (hNb : lookupA st.index (termStr nodeN) = some (some bN))
    (hupd : updaters bN.kind (shortPfx (termStr pred)) = some (.refK t f))
    (hpred : (pred == uri_nstype) = false)
    (hM : lookupA st.index (termStr nodeM) = none)
    (hnew : newBuilder nodeM t (some ⟨lm⟩) = some (some bM))
    (hTag : bM.t = t)
    (hAbsT : t ≠ typeAbstractLicenceSet)
    (hA : runStream (fuel + 5) st
        ((⟨nodeM, uri_nstype, t⟩, lm) :: (⟨nodeN, pred, nodeM⟩, lr) :: rest)
        = (oA, sA))
    (hB : runStream (fuel + 5) st
        ((⟨nodeN, pred, nodeM⟩, lr) :: (⟨nodeM, uri_nstype, t⟩, lm) :: rest)
        = (oB, sB))
    (hBf : oB ≠ .fuelOut) :
    oA = oB ∧ (oA = .ok →
      eraseIndex sA.index = eraseIndex sB.index ∧ sA.doc = sB.doc) := by
  have hMN : termStr nodeM ≠ termStr nodeN := by
    intro he
    rw [he, hNb] at hM
    exact Option.noConfusion hM
  have hNM : termStr nodeN ≠ termStr nodeM := fun he => hMN he.symm
  obtain ⟨bMb, hnewB, hbeM⟩ := newBuilder_some hnew none
  have hbMbT : bMb.t = t := by rw [eraseBldr_t hbeM, hTag]
  have hA1 : interp (fuel + 5) (.procT ⟨nodeM, uri_nstype, t⟩ (some ⟨lm⟩)) st
      = interp (fuel + 4) (.setT nodeM t (some ⟨lm⟩)) st := by
    have e1 : interp (fuel + 5) (.procT ⟨nodeM, uri_nstype, t⟩ (some ⟨lm⟩)) st
        = procTStep (interp (fuel + 4)) st ⟨nodeM, uri_nstype, t⟩ (some ⟨lm⟩) := rfl
    rw [e1]
    unfold procTStep
    rw [if_pos (show (uri_nstype == uri_nstype) = true from by decide)]
  have hsetA : interp (fuel + 4) (.setT nodeM t (some ⟨lm⟩)) st
      = (match interp (fuel + 3) (.runBuf (termStr nodeM)
          ((lookupA (regState st (termStr nodeM) t (some bM)).buffer
            (termStr nodeM)).getD []))
          (regState st (termStr nodeM) t (some bM)) with
        | (.ok, st2) =>
          ((Outcome.ok : Outcome), { st2 with buffer := eraseA st2.buffer (termStr nodeM) })
        | (o, st2) => (o, st2)) := by
    have e1 : interp (fuel + 4) (.setT nodeM t (some ⟨lm⟩)) st
        = setTStep (interp (fuel + 3)) st nodeM t (some ⟨lm⟩) := rfl
    rw [e1]
    unfold setTStep
    rw [hM]
    dsimp only
    rw [hnew]
  have hpredP : ¬(((⟨nodeN, pred, nodeM⟩ : Stmt).pred == uri_nstype) = true) := by
    show ¬((pred == uri_nstype) = true)
    rw [hpred]
    decide
  have hB1 : interp (fuel + 5) (.procT ⟨nodeN, pred, nodeM⟩ (some ⟨lr⟩)) st
      = interp (fuel + 4) (.applyP (termStr nodeN) pred nodeM (some ⟨lr⟩)) st := by
    have e1 : interp (fuel + 5) (.procT ⟨nodeN, pred, nodeM⟩ (some ⟨lr⟩)) st
        = procTStep (interp (fuel + 4)) st ⟨nodeN, pred, nodeM⟩ (some ⟨lr⟩) := rfl
    rw [e1]
    unfold procTStep
    rw [if_neg hpredP]
    dsimp only
    rw [hNb]
  have hB2 : interp (fuel + 4) (.applyP (termStr nodeN) pred nodeM (some ⟨lr⟩)) st
      = interp (fuel + 3)
          (.applyU (termStr nodeN) (.refK t f) nodeM (some ⟨lr⟩)) st := by
    have e1 : interp (fuel + 4) (.applyP (termStr nodeN) pred nodeM (some ⟨lr⟩)) st
        = applyPStep (interp (fuel + 3)) st (termStr nodeN) pred nodeM (some ⟨lr⟩) :=
      rfl
    rw [e1]
    unfold applyPStep
    rw [hNb]
    dsimp only
    rw [hupd]
  have hB3 : interp (fuel + 3)
        (.applyU (termStr nodeN) (.refK t f) nodeM (some ⟨lr⟩)) st
      = refStep (interp (fuel + 2)) st (termStr nodeN) t f nodeM := rfl
  have hB4 : interp (fuel + 2) (.reqT nodeM t) st
      = interp (fuel + 1) (.setT nodeM t none) st := by
    have e1 : interp (fuel + 2) (.reqT nodeM t) st
        = reqTStep (interp (fuel + 1)) st nodeM t := rfl
    rw [e1]
    unfold reqTStep
    rw [hM]
  have hsetB : interp (fuel + 1) (.setT nodeM t none) st
      = (match interp fuel (.runBuf (termStr nodeM)
          ((lookupA (regState st (termStr nodeM) t (some bMb)).buffer
            (termStr nodeM)).getD []))
          (regState st (termStr nodeM) t (some bMb)) with
        | (.ok, st2) =>
          ((Outcome.ok : Outcome), { st2 with buffer := eraseA st2.buffer (termStr nodeM) })
        | (o, st2) => (o, st2)) := by
    have e1 : interp (fuel + 1) (.setT nodeM t none) st
        = setTStep (interp fuel) st nodeM t none := rfl
    rw [e1]
    unfold setTStep
    rw [hM]
    dsimp only
    rw [hnewB]
  have hbufE : (lookupA (regState st (termStr nodeM) t (some bMb)).buffer
        (termStr nodeM)).getD []
      = (lookupA (regState st (termStr nodeM) t (some bM)).buffer
        (termStr nodeM)).getD [] := by
    rw [regState_buffer, regState_buffer]
  rw [hbufE] at hsetB
  cases hdB : interp fuel (.runBuf (termStr nodeM)
      ((lookupA (regState st (termStr nodeM) t (some bM)).buffer
        (termStr nodeM)).getD []))
      (regState st (termStr nodeM) t (some bMb)) with
  | mk oDB sDB =>
  rw [hdB] at hsetB
  simp only [runStream] at hB
  rw [hB1, hB2, hB3] at hB
  unfold refStep at hB
  rw [hB4, hsetB] at hB
  have hDBnf : oDB ≠ .fuelOut := by
    intro hfo
    subst hfo
    simp only at hB
    injection hB with h1 h2
    exact hBf h1.symm
  have hdB3 : interp (fuel + 3) (.runBuf (termStr nodeM)
      ((lookupA (regState st (termStr nodeM) t (some bM)).buffer
        (termStr nodeM)).getD []))
      (regState st (termStr nodeM) t (some bMb)) = (oDB, sDB) := by
    have m1 := interp_mono fuel (.runBuf (termStr nodeM)
      ((lookupA (regState st (termStr nodeM) t (some bM)).buffer
        (termStr nodeM)).getD []))
      (regState st (termStr nodeM) t (some bMb)) (by rw [hdB]; exact hDBnf)
    have m2 := interp_mono (fuel + 1) (.runBuf (termStr nodeM)
      ((lookupA (regState st (termStr nodeM) t (some bM)).buffer
        (termStr nodeM)).getD []))
      (regState st (termStr nodeM) t (some bMb)) (by rw [m1, hdB]; exact hDBnf)
    have m3 := interp_mono (fuel + 2) (.runBuf (termStr nodeM)
      ((lookupA (regState st (termStr nodeM) t (some bM)).buffer
        (termStr nodeM)).getD []))
      (regState st (termStr nodeM) t (some bMb)) (by rw [m2, m1, hdB]; exact hDBnf)
    rw [m3, m2, m1, hdB]
  have hEr : eqE (regState st (termStr nodeM) t (some bM))
      (regState st (termStr nodeM) t (some bMb)) := by
    refine eqE_regState (eqE_refl st) _ t ?_
    rw [Option.map, Option.map, hbeM]
  cases hdA : interp (fuel + 3) (.runBuf (termStr nodeM)
      ((lookupA (regState st (termStr nodeM) t (some bM)).buffer
        (termStr nodeM)).getD []))
      (regState st (termStr nodeM) t (some bM)) with
  | mk oDA sDA =>
  obtain ⟨hoD, hED⟩ := interp_cong (fuel + 3) (.runBuf (termStr nodeM)
      ((lookupA (regState st (termStr nodeM) t (some bM)).buffer
        (termStr nodeM)).getD []))
      (regState st (termStr nodeM) t (some bM))
      (regState st (termStr nodeM) t (some bMb)) hEr
  rw [hdA, hdB3] at hoD hED
  simp only at hoD hED
  simp only [runStream] at hA
  rw [hA1, hsetA, hdA, hoD] at hA
  cases oDB with
  | fuelOut => exact absurd rfl hDBnf
  | err e =>
    simp only at hA hB
    injection hA with ha1 ha2
    injection hB with hb1 hb2
    refine ⟨?_, ?_⟩
    · rw [← ha1, ← hb1]
    · intro hok
      rw [← ha1] at hok
      exact Outcome.noConfusion hok
  | crash =>
    simp only at hA hB
    injection hA with ha1 ha2
    injection hB with hb1 hb2
    refine ⟨?_, ?_⟩
    · rw [← ha1, ← hb1]
    · intro hok
      rw [← ha1] at hok
      exact Outcome.noConfusion hok
  | ok =>
    simp only at hA hB
    have hTagA := interp_tags (fuel + 3) (.runBuf (termStr nodeM)
      ((lookupA (regState st (termStr nodeM) t (some bM)).buffer
        (termStr nodeM)).getD []))
      (regState st (termStr nodeM) t (some bM))
    rw [hdA] at hTagA
    have hTagB := interp_tags fuel (.runBuf (termStr nodeM)
      ((lookupA (regState st (termStr nodeM) t (some bM)).buffer
        (termStr nodeM)).getD []))
      (regState st (termStr nodeM) t (some bMb))
    rw [hdB] at hTagB
    have hNbRA : lookupA (regState st (termStr nodeM) t (some bM)).index
        (termStr nodeN) = some (some bN) := by
      rw [regState_index, lookupA_insertA_ne _ _ _ _ hMN]
      exact hNb
    obtain ⟨bN1, hNb1, hkN1, _⟩ := hTagA (termStr nodeN) bN hNbRA
    have hMRA : lookupA (regState st (termStr nodeM) t (some bM)).index
        (termStr nodeM) = some (some bM) := by
      rw [regState_index]
      exact lookupA_insertA_self _ _ _
    obtain ⟨bM1, hM1, _, htM1⟩ := hTagA (termStr nodeM) bM hMRA
    have hbM1t : bM1.t = t := by
      rw [htM1 (by rw [hTag]; exact hAbsT), hTag]
    have hMRB : lookupA (regState st (termStr nodeM) t (some bMb)).index
        (termStr nodeM) = some (some bMb) := by
      rw [regState_index]
      exact lookupA_insertA_self _ _ _
    obtain ⟨bM2, hM2, _, htM2⟩ := hTagB (termStr nodeM) bMb hMRB
    have hbM2t : bM2.t = t := by
      rw [htM2 (by rw [hbMbT]; exact hAbsT), hbMbT]
    have hNb1' : lookupA ({ sDA with buffer := eraseA sDA.buffer (termStr nodeM) }
        : PState).index (termStr nodeN) = some (some bN1) := hNb1
    have hM1' : lookupA ({ sDA with buffer := eraseA sDA.buffer (termStr nodeM) }
        : PState).index (termStr nodeM) = some (some bM1) := hM1
    have hA2 : interp (fuel + 5) (.procT ⟨nodeN, pred, nodeM⟩ (some ⟨lr⟩))
        { sDA with buffer := eraseA sDA.buffer (termStr nodeM) }
        = ((Outcome.ok : Outcome),
          modB { sDA with buffer := eraseA sDA.buffer (termStr nodeM) }
            (termStr nodeN)
            (fun b => { b with ent := setRefS b.ent f (some (termStr nodeM)) })) := by
      have e1 : interp (fuel + 5) (.procT ⟨nodeN, pred, nodeM⟩ (some ⟨lr⟩))
          { sDA with buffer := eraseA sDA.buffer (termStr nodeM) }
          = procTStep (interp (fuel + 4))
            { sDA with buffer := eraseA sDA.buffer (termStr nodeM) }
            ⟨nodeN, pred, nodeM⟩ (some ⟨lr⟩) := rfl
      rw [e1]
      unfold procTStep
      rw [if_neg hpredP]
      dsimp only
      rw [hNb1']
      dsimp only
      have e2 : interp (fuel + 4) (.applyP (termStr nodeN) pred nodeM (some ⟨lr⟩))
          { sDA with buffer := eraseA sDA.buffer (termStr nodeM) }
          = applyPStep (interp (fuel + 3))
            { sDA with buffer := eraseA sDA.buffer (termStr nodeM) }
            (termStr nodeN) pred nodeM (some ⟨lr⟩) := rfl
      rw [e2]
      unfold applyPStep
      rw [hNb1']
      dsimp only
      rw [hkN1, hupd]
      dsimp only
      have e3 : interp (fuel + 3)
          (.applyU (termStr nodeN) (.refK t f) nodeM (some ⟨lr⟩))
          { sDA with buffer := eraseA sDA.buffer (termStr nodeM) }
          = refStep (interp (fuel + 2))
            { sDA with buffer := eraseA sDA.buffer (termStr nodeM) }
            (termStr nodeN) t f nodeM := rfl
      rw [e3]
      unfold refStep
      have hreq : interp (fuel + 2) (.reqT nodeM t)
          { sDA with buffer := eraseA sDA.buffer (termStr nodeM) }
          = ((Outcome.ok : Outcome),
            { sDA with buffer := eraseA sDA.buffer (termStr nodeM) }) := by
        have e4 : interp (fuel + 2) (.reqT nodeM t)
            { sDA with buffer := eraseA sDA.buffer (termStr nodeM) }
            = reqTStep (interp (fuel + 1))
              { sDA with buffer := eraseA sDA.buffer (termStr nodeM) } nodeM t := rfl
        rw [e4]
        unfold reqTStep
        rw [hM1']
        dsimp only
        rw [hbM1t]
        rw [if_neg (show ¬((!(compatibleTypes t t)) = true) from by
          rw [compatibleTypes_self]; decide)]
      rw [hreq]
    rw [hA2] at hA
    simp only at hA
    have hM2' : lookupA (modB { sDB with buffer := eraseA sDB.buffer (termStr nodeM) }
        (termStr nodeN)
        (fun b => { b with ent := setRefS b.ent f (some (termStr nodeM)) })).index
        (termStr nodeM) = some (some bM2) := by
      rw [modB_preserve _ _ _ _ hNM]
      exact hM2
    have hB2' : interp (fuel + 5) (.procT ⟨nodeM, uri_nstype, t⟩ (some ⟨lm⟩))
        (modB { sDB with buffer := eraseA sDB.buffer (termStr nodeM) }
          (termStr nodeN)
          (fun b => { b with ent := setRefS b.ent f (some (termStr nodeM)) }))
        = ((Outcome.ok : Outcome),
          modB { sDB with buffer := eraseA sDB.buffer (termStr nodeM) }
            (termStr nodeN)
            (fun b => { b with ent := setRefS b.ent f (some (termStr nodeM)) })) := by
      have e1 : interp (fuel + 5) (.procT ⟨nodeM, uri_nstype, t⟩ (some ⟨lm⟩))
          (modB { sDB with buffer := eraseA sDB.buffer (termStr nodeM) }
            (termStr nodeN)
            (fun b => { b with ent := setRefS b.ent f (some (termStr nodeM)) }))
          = procTStep (interp (fuel + 4))
            (modB { sDB with buffer := eraseA sDB.buffer (termStr nodeM) }
              (termStr nodeN)
              (fun b => { b with ent := setRefS b.ent f (some (termStr nodeM)) }))
            ⟨nodeM, uri_nstype, t⟩ (some ⟨lm⟩) := rfl
      rw [e1]
      unfold procTStep
      rw [if_pos (show (uri_nstype == uri_nstype) = true from by decide)]
      have e2 : interp (fuel + 4) (.setT nodeM t (some ⟨lm⟩))
          (modB { sDB with buffer := eraseA sDB.buffer (termStr nodeM) }
            (termStr nodeN)
            (fun b => { b with ent := setRefS b.ent f (some (termStr nodeM)) }))
          = setTStep (interp (fuel + 3))
            (modB { sDB with buffer := eraseA sDB.buffer (termStr nodeM) }
              (termStr nodeN)
              (fun b => { b with ent := setRefS b.ent f (some (termStr nodeM)) }))
            nodeM t (some ⟨lm⟩) := rfl
      rw [e2]
      unfold setTStep
      rw [hM2']
      dsimp only
      rw [hbM2t]
      rw [if_neg (show ¬((!(equalTypes t [t]) && bHas bM2 "ns:type") = true) from by
        rw [equalTypes_self]; simp)]
      rw [if_neg (show ¬((!(compatibleTypes t t)) = true) from by
        rw [compatibleTypes_self]; decide)]
    rw [hB2'] at hB
    simp only at hB
    have hE2 : eqE
        (modB { sDA with buffer := eraseA sDA.buffer (termStr nodeM) }
          (termStr nodeN)
          (fun b => { b with ent := setRefS b.ent f (some (termStr nodeM)) }))
        (modB { sDB with buffer := eraseA sDB.buffer (termStr nodeM) }
          (termStr nodeN)
          (fun b => { b with ent := setRefS b.ent f (some (termStr nodeM)) })) := by
      refine eqE_modB (eqE_eraseBuf hED _) _ _ _ ?_
      intro c1 c2 hce
      exact eraseBldr_entUpd hce (eraseEnt_setRefS (eraseBldr_ent hce) f _)
    obtain ⟨hoT, hET⟩ := runStream_cong (fuel + 5) rest _ _ hE2
    rw [hA, hB] at hoT hET
    simp only at hoT hET
    exact ⟨hoT, fun _ => ⟨hET.1, hET.2.2⟩⟩

/-- The state holding p1 resolved as a Package builder. -/
def c2wPre : PState :=
  (ParseStream 20 [ ((⟨blank "p1", uri_nstype, typePackage⟩ : Stmt), 1) ]).2

/-- A nonempty tail following the reordered pair. -/
def c2wRest : List (Stmt × Nat) :=
  [ (⟨blank "p1", prefixT "name", .literalT "pkg"⟩, 4) ]

/-- Checksum reference with the target type triple first. -/
def c2wA : List (Stmt × Nat) :=
  (⟨blank "c1", uri_nstype, typeChecksum⟩, 2)
    :: (⟨blank "p1", prefixT "checksum", blank "c1"⟩, 3) :: c2wRest

/-- Checksum reference with the referencing triple first. -/
def c2wB : List (Stmt × Nat) :=
  (⟨blank "p1", prefixT "checksum", blank "c1"⟩, 3)
    :: (⟨blank "c1", uri_nstype, typeChecksum⟩, 2) :: c2wRest

/-- Witness for the amended C2 at a concrete Package/checksum instance. -/
theorem reference_order_agrees_up_to_locations_witness :
    (runStream 20 c2wPre c2wA).1 = (runStream 20 c2wPre c2wB).1 ∧
    ((runStream 20 c2wPre c2wA).1 = .ok →
      eraseIndex (runStream 20 c2wPre c2wA).2.index
        = eraseIndex (runStream 20 c2wPre c2wB).2.index ∧
      (runStream 20 c2wPre c2wA).2.doc = (runStream 20 c2wPre c2wB).2.doc) :=
  reference_order_agrees_up_to_locations 15 c2wPre (blank "p1") (blank "c1")
    (prefixT "checksum") typeChecksum "checksum" (bAt c2wPre "p1")
    (checksumMap (some ⟨2⟩)) 2 3 c2wRest
    (runStream 20 c2wPre c2wA).1 (runStream 20 c2wPre c2wB).1
    (runStream 20 c2wPre c2wA).2 (runStream 20 c2wPre c2wB).2
    rfl (by decide) (by decide) rfl rfl rfl (by decide) rfl rfl (by decide)

end SpdxRdf
